import Mathlib

/-!
# sinae: a shallow embedding of the tensor, binding-table and graph layers

The development follows `sinae_macro.h`, `sinae_mda.c`, `sinae_core.c`,
`sinae_op.c` and `examples/sinae_basic_example.c`.

Conventions of the embedding.

* `SN_FLOAT` is an overridable macro; the scalar type is a parameter `α`.
  Definitions only use the operations the source applies (`0`, `1`, `+`, `*`,
  `-`, `/`); theorems that speak about sums and gradients assume ring laws
  (arithmetic taken exactly).
* `SN_UINT` values are natural numbers below `SN_UINT_MOD`.  The products of
  extents in `sizeof_shape_`, the element offsets in `SN_MATRIX_GET` and
  `sn_mda_get_offset_` and the product of two ranks in
  `element_wise_binary_operator_flow_` are computed modulo `SN_UINT_MOD`
  (`sn_uadd`, `sn_umul`), as the source computes them in `uintmax_t`: no array
  that exists bounds them.  Unsigned subtraction, which leaves the range already on small
  operands, wraps around `SN_UINT_MOD` when it borrows (`sn_usub`).  Ranks,
  counts and capacities count the cells of arrays that exist in memory and are
  added in `Nat`.  Theorems about sizes and offsets state the bounds under
  which nothing wraps.
* Allocation succeeds: `SN_DYNAMIC_ARRAY(TYPE, SIZE)` is a block of `SIZE`
  cells.
* A memory cell is `Option β`: `none` is a cell that `SN_MALLOC` returned and
  nothing has written yet.  An array is a list of cells.  Loading from an
  unwritten cell or outside the array, storing outside the array, a failing
  `SN_ASSERT` and dereferencing `NULL` all make the enclosing function return
  `none`.
* A pointer that may be `NULL` is an `Option`.
* A graph node is identified by its address, a natural number chosen by the
  caller of a constructor (the result of `SN_MALLOC`).
* Evaluation and differentiation never read a reference count, so they are
  embedded on nodes with their operands unfolded (`sn_op`).  Construction and
  destruction are embedded on a node memory (`sn_heap`), where a node holds the
  addresses of its operands and its reference count, `SN_MALLOC` returns the
  next block and `SN_FREE` releases a block; their names end in `_ptr`.
-/

namespace Sinae

/-! ## Machine integers, memory cells, loops -/

/-- Number of values of `SN_UINT` (`uintmax_t`). -/
def SN_UINT_MOD : Nat := 2 ^ 64

/-- Unsigned subtraction `a - b` on `SN_UINT`, for operands below `SN_UINT_MOD`: the
difference, or `a + 2^64 - b` when the subtraction borrows. -/
def sn_usub (a b : Nat) : Nat := if b ≤ a then a - b else a + (SN_UINT_MOD - b)

/-- Unsigned addition `a + b` on `SN_UINT`: the sum modulo `2^64`. -/
def sn_uadd (a b : Nat) : Nat := (a + b) % SN_UINT_MOD

/-- Unsigned multiplication `a * b` on `SN_UINT`: the product modulo `2^64`. -/
def sn_umul (a b : Nat) : Nat := (a * b) % SN_UINT_MOD

/-- Result of `SN_DYNAMIC_ARRAY(TYPE, SIZE)`: `SIZE` unwritten cells. -/
def SN_DYNAMIC_ARRAY (β : Type) (size : Nat) : List (Option β) := List.replicate size none

/-- Load `buf[i]`. -/
def sn_load {β : Type} (buf : List (Option β)) (i : Nat) : Option β :=
  match buf.get? i with
  | some (some v) => some v
  | _ => none

/-- Store `buf[i] = v`. -/
def sn_store {β : Type} (buf : List (Option β)) (i : Nat) (v : β) : Option (List (Option β)) :=
  if i < buf.length then some (buf.set i (some v)) else none

/-- Iterations `i, i+1, ...` of a loop body, `fuel` of them. -/
def sn_for_from {σ : Type} (body : Nat → σ → Option σ) : Nat → Nat → σ → Option σ
  | 0, _, s => some s
  | fuel + 1, i, s =>
    match body i s with
    | none => none
    | some s' => sn_for_from body fuel (i + 1) s'

/-- The loop `for (SN_UINT i = 0; i < n; ++i) body`. -/
def sn_for {σ : Type} (n : Nat) (body : Nat → σ → Option σ) (s : σ) : Option σ :=
  sn_for_from body n 0 s

/-- Array written by the compound literal `SN_SHAPE(...)`. -/
def SN_SHAPE (dims : List Nat) : Option (List (Option Nat)) := some (dims.map some)

/-- The element index computed by `SN_MATRIX_GET(PTR, ROW_SIZE, ROW_INDEX, COLUMN_INDEX)`,
in `SN_UINT`. -/
def SN_MATRIX_GET (row_size row_index column_index : Nat) : Nat :=
  sn_uadd row_index (sn_umul column_index row_size)

/-! ## Tensors (`sinae_mda.c`) -/

/-- The `struct sn_mda_st`: `ptr` is the flexible array member, `shape` points behind it
(`NULL` at rank 0). -/
structure sn_mda (α : Type) where
  rank : Nat
  shape : Option (List (Option Nat))
  ptr : List (Option α)
deriving DecidableEq, Repr

/-- The function `sizeof_shape_`: the product of the first `rank` extents, multiplied in
`SN_UINT`. -/
def sizeof_shape_ (rank : Nat) (shape : Option (List (Option Nat))) : Option Nat :=
  match shape with
  | none => some 1
  | some cells => sn_for rank (fun i size => (sn_load cells i).map (fun d => sn_umul size d)) 1

/-- The function `sn_mda_create`: the block it allocates holds `size` elements, `size`
the product of the extents modulo `2^64`, and behind them the `rank` extents. -/
def sn_mda_create {α : Type} (rank : Nat) (shape : Option (List (Option Nat))) :
    Option (sn_mda α) :=
  match sizeof_shape_ rank shape with
  | none => none
  | some size =>
    let obj_ptr : List (Option α) := SN_DYNAMIC_ARRAY α size
    let obj_shape : List (Option Nat) := SN_DYNAMIC_ARRAY Nat rank
    match shape with
    | none => some { rank := rank, shape := if rank > 0 then some obj_shape else none, ptr := obj_ptr }
    | some cells =>
      match sn_for rank (fun i sh => (sn_load cells i).bind (fun d => sn_store sh i d)) obj_shape with
      | none => none
      | some sh => some { rank := rank, shape := if rank > 0 then some sh else none, ptr := obj_ptr }

/-- The function `sn_mda_size`. -/
def sn_mda_size {α : Type} (self : sn_mda α) : Option Nat :=
  sizeof_shape_ self.rank self.shape

/-- The function `sn_mda_full`. -/
def sn_mda_full {α : Type} (rank : Nat) (shape : Option (List (Option Nat))) (value : α) :
    Option (sn_mda α) :=
  match sn_mda_create rank shape with
  | none => none
  | some obj =>
    match sn_mda_size obj with
    | none => none
    | some size =>
      (sn_for size (fun i p => sn_store p i value) obj.ptr).map (fun p => { obj with ptr := p })

/-- Load `p[i]` through a pointer that may be `NULL`. -/
def sn_load_ptr {β : Type} (p : Option (List (Option β))) (i : Nat) : Option β :=
  match p with
  | none => none
  | some cells => sn_load cells i

/-- The function `sn_mda_diagonal_full`. -/
def sn_mda_diagonal_full {α : Type} [Zero α] (one_side_rank : Nat)
    (one_side_shape : Option (List (Option Nat))) (value : α) : Option (sn_mda α) := do
  let obj_shape ← sn_for one_side_rank (fun i sh => do
      let d ← sn_load_ptr one_side_shape i
      let sh ← sn_store sh i d
      sn_store sh (one_side_rank + i) d) (SN_DYNAMIC_ARRAY Nat (2 * one_side_rank))
  let obj ← sn_mda_full (2 * one_side_rank) (some obj_shape) (0 : α)
  let one_side_size ← sizeof_shape_ one_side_rank one_side_shape
  let p ← sn_for one_side_size
    (fun i p => sn_store p (SN_MATRIX_GET one_side_size i i) value) obj.ptr
  pure { obj with ptr := p }

/-- The function `sn_mda_copy`. -/
def sn_mda_copy {α : Type} (self : sn_mda α) : Option (sn_mda α) := do
  let obj ← sn_mda_create (α := α) self.rank self.shape
  let size ← sn_mda_size obj
  let p ← sn_for size (fun i p => do
      let v ← sn_load self.ptr i
      sn_store p i v) obj.ptr
  pure { obj with ptr := p }

/-- The loop `for (SN_UINT i = start; i > 0; --i) body`. -/
def sn_for_down {σ : Type} (body : Nat → σ → Option σ) : Nat → σ → Option σ
  | 0, s => some s
  | i + 1, s =>
    match body (i + 1) s with
    | none => none
    | some s' => sn_for_down body i s'

/-- The function `sn_mda_get_offset_` (debug build: the index is bounds-checked first);
the offset is accumulated in `SN_UINT`. -/
def sn_mda_get_offset_ {α : Type} (self : sn_mda α) (index : List Nat) : Option Nat := do
  let _ ← sn_for self.rank (fun i (u : Unit) => do
      let a ← index.get? i
      let d ← sn_load_ptr self.shape i
      if a < d then pure u else none) ()
  let offset ← sn_for_down (fun i offset => do
      let a ← index.get? i
      let d ← sn_load_ptr self.shape (i - 1)
      pure (sn_umul (sn_uadd offset a) d)) (sn_usub self.rank 1) 0
  let a ← index.get? 0
  pure (sn_uadd offset a)

/-- The function `sn_mda_get`: the position in `ptr` of the element it points to. -/
def sn_mda_get {α : Type} (self : sn_mda α) (index : List Nat) : Option Nat :=
  sn_mda_get_offset_ self index

/-- The function `sn_mda_view`. -/
def sn_mda_view {α : Type} (self : sn_mda α) (index : List Nat) : Option α := do
  let offset ← sn_mda_get_offset_ self index
  sn_load self.ptr offset

/-- The function `sn_mda_gmatmul` (debug build: the contracted extents are compared first). -/
def sn_mda_gmatmul {α : Type} [Zero α] [Add α] [Mul α] (x0 x1 : sn_mda α) (overwrap : Nat) :
    Option (sn_mda α) := do
  let _ ← sn_for overwrap (fun i (u : Unit) => do
      let a ← sn_load_ptr x0.shape (sn_usub x0.rank overwrap + i)
      let b ← sn_load_ptr x1.shape i
      if a = b then pure u else none) ()
  let y_rank := sn_usub (sn_usub x0.rank overwrap + x1.rank) overwrap
  let y_shape ← sn_for (sn_usub x0.rank overwrap) (fun i sh => do
      let d ← sn_load_ptr x0.shape i
      sn_store sh i d) (SN_DYNAMIC_ARRAY Nat y_rank)
  let y_shape ← sn_for (sn_usub x1.rank overwrap) (fun i sh => do
      let d ← sn_load_ptr x1.shape (overwrap + i)
      sn_store sh (sn_usub x0.rank overwrap + i) d) y_shape
  let y ← sn_mda_create (α := α) y_rank (some y_shape)
  let x0_front_size ← sizeof_shape_ (sn_usub x0.rank overwrap) x0.shape
  let overwrap_size ← sizeof_shape_ overwrap x1.shape
  let x1_back_size ← sizeof_shape_ (sn_usub x1.rank overwrap) (x1.shape.map (List.drop overwrap))
  let p ← sn_for x1_back_size (fun j p =>
      sn_for x0_front_size (fun i p => do
        let temp_sum ← sn_for overwrap_size (fun k temp_sum => do
            let a ← sn_load x0.ptr (SN_MATRIX_GET x0_front_size i k)
            let b ← sn_load x1.ptr (SN_MATRIX_GET overwrap_size k j)
            pure (temp_sum + a * b)) (0 : α)
        sn_store p (SN_MATRIX_GET x0_front_size i j) temp_sum) p) y.ptr
  pure { y with ptr := p }

/-! ## Binding tables (`sinae_core.c`, `struct sn_map_st`) -/

/-- The `struct sn_map_st`; a key is the address of a node. -/
structure sn_map (α : Type) where
  capacity : Nat
  count : Nat
  keys : List (Option Nat)
  values : List (Option (sn_mda α))
deriving DecidableEq, Repr

/-- The function `sn_map_extend`. -/
def sn_map_extend {α : Type} (self : sn_map α) (offset : Nat) : Option (sn_map α) := do
  let new_keys := SN_DYNAMIC_ARRAY Nat (self.capacity + offset)
  let new_values := SN_DYNAMIC_ARRAY (sn_mda α) (self.capacity + offset)
  let (new_keys, new_values) ← sn_for self.count (fun i (kv : List (Option Nat) × List (Option (sn_mda α))) => do
      let k ← sn_load self.keys i
      let ks ← sn_store kv.1 i k
      let v ← sn_load self.values i
      let vs ← sn_store kv.2 i v
      pure (ks, vs)) (new_keys, new_values)
  pure { capacity := self.capacity + offset, count := self.count, keys := new_keys, values := new_values }

/-- The function `sn_map_insert`; `fuel` bounds the depth of its recursion through
`sn_map_extend`. -/
def sn_map_insert {α : Type} : Nat → sn_map α → Nat → sn_mda α → Option (sn_map α)
  | 0, _, _, _ => none
  | fuel + 1, self, key, value =>
    if self.count < self.capacity then do
      let ks ← sn_store self.keys self.count key
      let vs ← sn_store self.values self.count value
      pure { self with keys := ks, values := vs, count := self.count + 1 }
    else do
      let self ← sn_map_extend self self.capacity
      sn_map_insert fuel self key value

/-- The function `sn_map_create`; `keys` and `values` may be `NULL`. -/
def sn_map_create {α : Type} (fuel : Nat) (capacity : Nat) (keys : Option (List Nat))
    (values : Option (List (sn_mda α))) : Option (sn_map α) :=
  let obj : sn_map α :=
    { capacity := capacity, count := 0, keys := SN_DYNAMIC_ARRAY Nat capacity,
      values := SN_DYNAMIC_ARRAY (sn_mda α) capacity }
  match keys, values with
  | some ks, some vs =>
    sn_for capacity (fun i obj => do
      let k ← ks.get? i
      let v ← vs.get? i
      sn_map_insert fuel obj k v) obj
  | _, _ => some obj

/-- The function `sn_map_from`; `args` are the variadic key/value pairs. -/
def sn_map_from {α : Type} (fuel : Nat) (capacity : Nat) (args : List (Nat × sn_mda α)) :
    Option (sn_map α) := do
  let obj ← sn_map_create fuel capacity none none
  sn_for capacity (fun i obj => do
    let kv ← args.get? i
    sn_map_insert fuel obj kv.1 kv.2) obj

/-- The search loop of `sn_map_get` from position `i`, with `n` iterations left;
falling out of the loop is `SN_ASSERT(false)`. -/
def sn_map_get_from {α : Type} (self : sn_map α) (key : Nat) : Nat → Nat → Option (sn_mda α)
  | 0, _ => none
  | n + 1, i => do
    let k ← sn_load self.keys i
    if k = key then sn_load self.values i else sn_map_get_from self key n (i + 1)

/-- The function `sn_map_get`. -/
def sn_map_get {α : Type} (self : sn_map α) (key : Nat) : Option (sn_mda α) :=
  sn_map_get_from self key self.count 0

/-- The function `sn_map_get_all`. -/
def sn_map_get_all {α : Type} (self : sn_map α) (key : Nat) : Option (List (Option (sn_mda α))) := do
  let count ← sn_for self.count (fun i count => do
      let k ← sn_load self.keys i
      if k = key then pure (count + 1) else pure count) 0
  let values := SN_DYNAMIC_ARRAY (sn_mda α) count
  let (values, _) ← sn_for self.count (fun i (vc : List (Option (sn_mda α)) × Nat) => do
      let k ← sn_load self.keys i
      if k = key then do
        let v ← sn_load self.values i
        let vs ← sn_store vc.1 vc.2 v
        pure (vs, vc.2 + 1)
      else pure vc) (values, 0)
  pure values

/-! ## Graph nodes (`sinae_core.c`, `struct sn_op_st`) -/

/-- The `enum sn_op_type_en`. -/
inductive sn_op_type where
  | CONSTANT
  | OPERATOR
  | PLACEHOLDER
deriving DecidableEq, Repr

/-- The type `sn_flow_fn`, applied to the operand array `x`. -/
abbrev sn_flow_fn (α : Type) : Type := List (Option (sn_mda α)) → Option (sn_mda α)

/-- The type `sn_dflow_fn`, applied to the operand array `x`; the inner `none` is a
returned `NULL`. -/
abbrev sn_dflow_fn (α : Type) : Type :=
  List (Option (sn_mda α)) → Option (Option (List (Option (sn_mda α))))

/-- The `struct sn_op_st` at address `addr`, with the operands it points to unfolded.
`x_count` is the length of `x`; `array` is the tensor a `CONSTANT` keeps in its operand
area. The reference count is kept by the node store, not here: evaluation and
differentiation never read it. -/
inductive sn_op (α : Type) where
  | mk (addr : Nat) (type : sn_op_type) (flow : Option (sn_flow_fn α))
      (dflow : Option (sn_dflow_fn α)) (x : List (sn_op α)) (array : Option (sn_mda α))

/-- Address of a node. -/
def sn_op.addr {α : Type} : sn_op α → Nat
  | .mk addr _ _ _ _ _ => addr

/-- The field `type` of a node. -/
def sn_op.type {α : Type} : sn_op α → sn_op_type
  | .mk _ type _ _ _ _ => type

mutual
/-- The function `op_flow_`; the table `feed` is updated in place, so it is returned. -/
def op_flow_ {α : Type} (fuel : Nat) : sn_op α → sn_map α → Option (sn_mda α × sn_map α)
  | .mk addr type flow _ x array, feed =>
    match type with
    | .CONSTANT => do
      let a ← array
      let y ← sn_mda_copy a
      pure (y, feed)
    | .OPERATOR => do
      let (xs, feed) ← op_flow_operands_ fuel addr x 0 (SN_DYNAMIC_ARRAY (sn_mda α) x.length) feed
      let f ← flow
      let y ← f xs
      pure (y, feed)
    | .PLACEHOLDER => do
      let t ← sn_map_get feed addr
      let y ← sn_mda_copy t
      pure (y, feed)
/-- The operand loop of `op_flow_` from operand `i` on, inside the node at `self`. -/
def op_flow_operands_ {α : Type} (fuel : Nat) (self : Nat) :
    List (sn_op α) → Nat → List (Option (sn_mda α)) → sn_map α →
      Option (List (Option (sn_mda α)) × sn_map α)
  | [], _, xs, feed => some (xs, feed)
  | xi :: rest, i, xs, feed => do
    let (v, feed) ← op_flow_ fuel xi feed
    let xs ← sn_store xs i v
    let feed ← sn_map_insert fuel feed self v
    op_flow_operands_ fuel self rest (i + 1) xs feed
end

/-- The function `sn_op_flow`; the table is destroyed, only the result remains. -/
def sn_op_flow {α : Type} (fuel : Nat) (self : sn_op α) (feed : sn_map α) : Option (sn_mda α) := do
  let (y, _) ← op_flow_ fuel self feed
  pure y

mutual
/-- The function `op_dflow_`; the outer `none` is a fault, the inner `none` the `NULL`
table returned for a `CONSTANT`. -/
def op_dflow_ {α : Type} [Zero α] [One α] [Add α] [Mul α] (fuel : Nat) :
    sn_op α → sn_map α → Option (Option (sn_map α))
  | .mk addr type _ dflow x _, feed =>
    match type with
    | .CONSTANT => some none
    | .OPERATOR => do
      let (dm_dx_maps, dy_dx_map_capacity) ←
        op_dflow_operands_ fuel feed x 0 (SN_DYNAMIC_ARRAY (sn_map α) x.length) 0
      let xs ← sn_map_get_all feed addr
      let df ← dflow
      let dy_dm_list ← df xs
      let dy_dx_map ← sn_map_create fuel dy_dx_map_capacity none none
      let dy_dx_map ← sn_for x.length (fun i m => do
          let dm ← sn_load dm_dx_maps i
          sn_for dm.count (fun j m => do
            let key ← sn_load dm.keys j
            let dy_dm ← sn_load_ptr dy_dm_list i
            let dm_dx ← sn_load dm.values j
            let xi ← sn_load xs i
            let v ← sn_mda_gmatmul dy_dm dm_dx xi.rank
            sn_map_insert fuel m key v) m) dy_dx_map
      let _ ← sn_for x.length (fun i (u : Unit) => do
          let _ ← sn_load_ptr dy_dm_list i
          pure u) ()
      pure (some dy_dx_map)
    | .PLACEHOLDER => do
      let feed_mda ← sn_map_get feed addr
      let dy_dx ← sn_mda_diagonal_full feed_mda.rank feed_mda.shape (1 : α)
      let dy_dx_map ← sn_map_create fuel 1 (some [addr]) (some [dy_dx])
      pure (some dy_dx_map)
/-- The first operand loop of `op_dflow_` from operand `i` on: it fills `dm_dx_maps` and
adds up `dy_dx_map_capacity`, reading `count` through each returned pointer. -/
def op_dflow_operands_ {α : Type} [Zero α] [One α] [Add α] [Mul α] (fuel : Nat) (feed : sn_map α) :
    List (sn_op α) → Nat → List (Option (sn_map α)) → Nat →
      Option (List (Option (sn_map α)) × Nat)
  | [], _, maps, capacity => some (maps, capacity)
  | xi :: rest, i, maps, capacity => do
    let dm_dx ← op_dflow_ fuel xi feed
    let dm ← dm_dx
    let maps ← sn_store maps i dm
    op_dflow_operands_ fuel feed rest (i + 1) maps (capacity + dm.count)
end

/-- The function `sn_op_dflow`: forward pass first, its result discarded, then the
reverse pass over the table the forward pass filled. -/
def sn_op_dflow {α : Type} [Zero α] [One α] [Add α] [Mul α] (fuel : Nat) (self : sn_op α)
    (feed : sn_map α) : Option (Option (sn_map α)) := do
  let (_, feed) ← op_flow_ fuel self feed
  op_dflow_ fuel self feed

/-- The function `sn_op_create` for the node placed at `addr`; `x_count` is the length
of `x`, and a `NULL` operand array is the empty list. -/
def sn_op_create {α : Type} (addr : Nat) (type : sn_op_type) (flow : Option (sn_flow_fn α))
    (dflow : Option (sn_dflow_fn α)) (x : List (sn_op α)) : sn_op α :=
  .mk addr type flow dflow x none

/-- The function `sn_placeholder`. -/
def sn_placeholder {α : Type} (addr : Nat) : sn_op α :=
  sn_op_create addr .PLACEHOLDER none none []

/-- The function `sn_const`. -/
def sn_const {α : Type} (addr : Nat) (array : sn_mda α) : sn_op α :=
  .mk addr .CONSTANT none none [] (some array)

/-- The function `sn_scalar`. -/
def sn_scalar {α : Type} (addr : Nat) (scalar : α) : Option (sn_op α) :=
  (sn_mda_full 0 none scalar).map (sn_const addr)

/-! ## Built-in operators (`sinae_op.c`) -/

/-- The `OP_NAME##_flow_` function of `SN_DEFINE_ELEMENT_WISE_UNARY_OPERATOR`. -/
def element_wise_unary_operator_flow_ {α : Type} (FLOW : α → α) : sn_flow_fn α := fun x => do
  let x0 ← sn_load x 0
  let y ← sn_mda_create (α := α) x0.rank x0.shape
  let size ← sn_mda_size x0
  let p ← sn_for size (fun i p => do
      let v ← sn_load x0.ptr i
      sn_store p i (FLOW v)) y.ptr
  pure { y with ptr := p }

/-- The `OP_NAME##_dflow_` function of `SN_DEFINE_ELEMENT_WISE_UNARY_OPERATOR`. -/
def element_wise_unary_operator_dflow_ {α : Type} [Zero α] (DFLOW : α → α) : sn_dflow_fn α :=
  fun x => do
    let x0 ← sn_load x 0
    let d ← sn_mda_diagonal_full x0.rank x0.shape (0 : α)
    let one_side_size ← sn_mda_size x0
    let p ← sn_for one_side_size (fun i p => do
        let v ← sn_load x0.ptr i
        sn_store p (SN_MATRIX_GET one_side_size i i) (DFLOW v)) d.ptr
    let dy_dx_list ← sn_store (SN_DYNAMIC_ARRAY (sn_mda α) 1) 0 { d with ptr := p }
    pure (some dy_dx_list)

/-- The function `dnegative_`. -/
def dnegative_ {α : Type} [One α] [Neg α] (_x : α) : α := -1

/-- The function `negative_flow_`. -/
def negative_flow_ {α : Type} [Neg α] : sn_flow_fn α :=
  element_wise_unary_operator_flow_ (fun v => -v)

/-- The function `negative_dflow_`. -/
def negative_dflow_ {α : Type} [Zero α] [One α] [Neg α] : sn_dflow_fn α :=
  element_wise_unary_operator_dflow_ dnegative_

/-- The function `sn_negative`. -/
def sn_negative {α : Type} [Zero α] [One α] [Neg α] (addr : Nat) (x : sn_op α) : sn_op α :=
  sn_op_create addr .OPERATOR (some negative_flow_) (some negative_dflow_) [x]

/-- The function `element_wise_binary_operator_flow_`. The product of the two ranks in
its assertion is an `SN_UINT` product. -/
def element_wise_binary_operator_flow_ {α : Type} (x : List (Option (sn_mda α)))
    (f : α → α → α) : Option (sn_mda α) := do
  let x0 ← sn_load x 0
  let x1 ← sn_load x 1
  if ¬ (x0.rank = x1.rank ∨ sn_umul x0.rank x1.rank = 0) then none
  let y ← if x0.rank = 0 then sn_mda_create (α := α) x1.rank x1.shape
          else sn_mda_create (α := α) x0.rank x0.shape
  let size ← if x0.rank = 0 then sn_mda_size x1 else sn_mda_size x0
  if x0.rank = x1.rank then do
    let _ ← sn_for x0.rank (fun i (u : Unit) => do
        let a ← sn_load_ptr x0.shape i
        let b ← sn_load_ptr x1.shape i
        if a = b then pure u else none) ()
    let p ← sn_for size (fun i p => do
        let a ← sn_load x0.ptr i
        let b ← sn_load x1.ptr i
        sn_store p i (f a b)) y.ptr
    pure { y with ptr := p }
  else if x0.rank = 0 then do
    let p ← sn_for size (fun i p => do
        let a ← sn_load x0.ptr 0
        let b ← sn_load x1.ptr i
        sn_store p i (f a b)) y.ptr
    pure { y with ptr := p }
  else if x1.rank = 0 then do
    let p ← sn_for size (fun i p => do
        let a ← sn_load x0.ptr i
        let b ← sn_load x1.ptr 0
        sn_store p i (f a b)) y.ptr
    pure { y with ptr := p }
  else pure y

/-- The `OP_NAME##_dflow_` function of `SN_DEFINE_ELEMENT_WISE_BINARY_OPERATOR`: it
returns `NULL`. -/
def element_wise_binary_operator_dflow_ {α : Type} : sn_dflow_fn α := fun _ => some none

/-- The function `add_`. -/
def add_ {α : Type} [Add α] (x0 x1 : α) : α := x0 + x1
/-- The function `subtract_`. -/
def subtract_ {α : Type} [Sub α] (x0 x1 : α) : α := x0 - x1
/-- The function `multiply_`. -/
def multiply_ {α : Type} [Mul α] (x0 x1 : α) : α := x0 * x1
/-- The function `divide_`. -/
def divide_ {α : Type} [Div α] (x0 x1 : α) : α := x0 / x1

/-- The function `add_flow_`. -/
def add_flow_ {α : Type} [Add α] : sn_flow_fn α :=
  fun x => element_wise_binary_operator_flow_ x add_
/-- The function `subtract_flow_`. -/
def subtract_flow_ {α : Type} [Sub α] : sn_flow_fn α :=
  fun x => element_wise_binary_operator_flow_ x subtract_
/-- The function `multiply_flow_`. -/
def multiply_flow_ {α : Type} [Mul α] : sn_flow_fn α :=
  fun x => element_wise_binary_operator_flow_ x multiply_
/-- The function `divide_flow_`. -/
def divide_flow_ {α : Type} [Div α] : sn_flow_fn α :=
  fun x => element_wise_binary_operator_flow_ x divide_

/-- The function `sn_add`. -/
def sn_add {α : Type} [Add α] (addr : Nat) (x0 x1 : sn_op α) : sn_op α :=
  sn_op_create addr .OPERATOR (some add_flow_) (some element_wise_binary_operator_dflow_) [x0, x1]
/-- The function `sn_subtract`. -/
def sn_subtract {α : Type} [Sub α] (addr : Nat) (x0 x1 : sn_op α) : sn_op α :=
  sn_op_create addr .OPERATOR (some subtract_flow_) (some element_wise_binary_operator_dflow_) [x0, x1]
/-- The function `sn_multiply`. -/
def sn_multiply {α : Type} [Mul α] (addr : Nat) (x0 x1 : sn_op α) : sn_op α :=
  sn_op_create addr .OPERATOR (some multiply_flow_) (some element_wise_binary_operator_dflow_) [x0, x1]
/-- The function `sn_divide`. -/
def sn_divide {α : Type} [Div α] (addr : Nat) (x0 x1 : sn_op α) : sn_op α :=
  sn_op_create addr .OPERATOR (some divide_flow_) (some element_wise_binary_operator_dflow_) [x0, x1]

/-! ### Unary operators -/

/-- The function `sum_flow_`. -/
def sum_flow_ {α : Type} [Zero α] [Add α] : sn_flow_fn α := fun x => do
  let x0 ← sn_load x 0
  let size ← sn_mda_size x0
  let y ← sn_for size (fun i y => do
      let a ← sn_load x0.ptr i
      pure (y + a)) (0 : α)
  sn_mda_full 0 none y

/-- The function `sum_dflow_`. -/
def sum_dflow_ {α : Type} [One α] : sn_dflow_fn α := fun x => do
  let dy_dx_list := SN_DYNAMIC_ARRAY (sn_mda α) 1
  let x0 ← sn_load x 0
  let d ← sn_mda_full 1 x0.shape (1 : α)
  let dy_dx_list ← sn_store dy_dx_list 0 d
  pure (some dy_dx_list)

/-- The function `sn_sum`. -/
def sn_sum {α : Type} [Zero α] [One α] [Add α] (addr : Nat) (x : sn_op α) : sn_op α :=
  sn_op_create addr .OPERATOR (some sum_flow_) (some sum_dflow_) [x]

/-! ### Binary operators -/

/-- The function `matmul_flow_`; `overwrap` is the number the node keeps behind its two
operand pointers. -/
def matmul_flow_ {α : Type} [Zero α] [Add α] [Mul α] (overwrap : Nat) : sn_flow_fn α := fun x => do
  let x0 ← sn_load x 0
  let x1 ← sn_load x 1
  sn_mda_gmatmul x0 x1 overwrap

/-- The function `matmul_dflow_`: it returns `NULL`. -/
def matmul_dflow_ {α : Type} : sn_dflow_fn α := fun _ => some none

/-- The function `sn_matmul`, which fills the node itself. -/
def sn_matmul {α : Type} [Zero α] [Add α] [Mul α] (addr : Nat) (x0 x1 : sn_op α)
    (overwrap : Nat) : sn_op α :=
  .mk addr .OPERATOR (some (matmul_flow_ overwrap)) (some matmul_dflow_) [x0, x1] none

/-! ## The custom operator of `examples/sinae_basic_example.c` -/

/-- The function `add_and_sum_flow_`. -/
def add_and_sum_flow_ {α : Type} [Zero α] [Add α] : sn_flow_fn α := fun x => do
  let x0 ← sn_load x 0
  let x1 ← sn_load x 1
  if ¬ (x0.rank = 1 ∧ x1.rank = 1) then none
  let d0 ← sn_load_ptr x0.shape 0
  let d1 ← sn_load_ptr x1.shape 0
  if ¬ (d0 = d1) then none
  let size ← sn_mda_size x0
  let y ← sn_for size (fun i y => do
      let a ← sn_load x0.ptr i
      let b ← sn_load x1.ptr i
      pure (y + (a + b))) (0 : α)
  sn_mda_full 0 none y

/-- The function `add_and_sum_dflow_`. -/
def add_and_sum_dflow_ {α : Type} [One α] : sn_dflow_fn α := fun x => do
  let x0 ← sn_load x 0
  let d0 ← sn_mda_full 1 x0.shape (1 : α)
  let d1 ← sn_mda_full 1 x0.shape (1 : α)
  let dy_dx_list ← sn_store (SN_DYNAMIC_ARRAY (sn_mda α) 2) 0 d0
  let dy_dx_list ← sn_store dy_dx_list 1 d1
  pure (some dy_dx_list)

/-- The function `add_and_sum`. -/
def add_and_sum {α : Type} [Zero α] [One α] [Add α] (addr : Nat) (x0 x1 : sn_op α) : sn_op α :=
  sn_op_create addr .OPERATOR (some add_and_sum_flow_) (some add_and_sum_dflow_) [x0, x1]

/-! ## Tensor objects behind pointers -/

/-- The function `sn_mda_copy` on a pointer `self` into `store`, the tensor objects
`SN_MALLOC` has returned so far (a `sn_mda*` is a position in `store`): the copy is built
in the block `sn_mda_create` obtains from `SN_MALLOC`, which is a new one. -/
def sn_mda_copy_ptr {α : Type} (store : List (sn_mda α)) (self : Nat) :
    Option (List (sn_mda α) × Nat) := do
  let t ← store.get? self
  let obj ← sn_mda_copy t
  pure (store ++ [obj], store.length)

/-- The assignment `obj->ptr[i] = value` through a pointer `obj` into `store`. -/
def sn_mda_assign_ptr {α : Type} (store : List (sn_mda α)) (obj : Nat) (i : Nat) (value : α) :
    Option (List (sn_mda α)) := do
  let t ← store.get? obj
  let p ← sn_store t.ptr i value
  pure (store.set obj { t with ptr := p })

/-! ## Graph nodes behind pointers -/

/-- Addresses of the functions that the constructors of `sinae_op.c` store in a node. -/
inductive sn_fn_ptr where
  | abs_flow_ | abs_dflow_
  | exp_flow_ | exp_dflow_
  | negative_flow_ | negative_dflow_
  | reciprocal_flow_ | reciprocal_dflow_
  | sqrt_flow_ | sqrt_dflow_
  | sum_flow_ | sum_dflow_
  | add_flow_ | add_dflow_
  | subtract_flow_ | subtract_dflow_
  | multiply_flow_ | multiply_dflow_
  | divide_flow_ | divide_dflow_
  | matmul_flow_ | matmul_dflow_
deriving DecidableEq, Repr

/-- The `struct sn_op_st` as it lies in memory; `φ` is the type of function pointers. The
flexible array member `x` holds the operand pointers; `array` is the tensor pointer a
`CONSTANT` keeps in that area and `overwrap` the number `sn_matmul` keeps behind its two
operand pointers. -/
structure sn_op_st (φ : Type) where
  ref_count : Nat
  type : sn_op_type
  flow : Option φ
  dflow : Option φ
  x_count : Nat
  x : List (Option Nat)
  array : Option Nat
  overwrap : Option Nat
deriving DecidableEq, Repr

/-- The memory of the graph nodes. `ops` are the blocks `SN_MALLOC` has returned for nodes:
an `sn_op*` is a position in `ops`, and `none` is a block that `SN_FREE` has released.
`freed` lists the node pointers passed to `SN_FREE` so far, in order, and `freed_mda` the
tensor pointers passed to `sn_mda_destroy`. -/
structure sn_heap (φ : Type) where
  ops : List (Option (sn_op_st φ))
  freed : List Nat
  freed_mda : List Nat
deriving DecidableEq, Repr

/-- The function `sn_op_create` on the node memory: the new node lies in a new block, whose
address is returned. -/
def sn_op_create_ptr {φ : Type} (heap : sn_heap φ) (type : sn_op_type) (flow dflow : Option φ)
    (x_count : Nat) (x : Option (List Nat)) : Option (sn_heap φ × Nat) := do
  let obj := heap.ops.length
  let node : sn_op_st φ :=
    { ref_count := 1, type := type, flow := flow, dflow := dflow, x_count := x_count,
      x := SN_DYNAMIC_ARRAY Nat x_count, array := none, overwrap := none }
  let heap : sn_heap φ := { heap with ops := heap.ops ++ [some node] }
  match x with
  | none => pure (heap, obj)
  | some xs => do
    let heap ← sn_for x_count (fun i (heap : sn_heap φ) => do
        let xi ← xs.get? i
        let t ← sn_load heap.ops xi
        let ops ← sn_store heap.ops xi { t with ref_count := t.ref_count + 1 }
        let self ← sn_load ops obj
        let cells ← sn_store self.x i xi
        let ops ← sn_store ops obj { self with x := cells }
        pure { heap with ops := ops }) heap
    pure (heap, obj)

/-- The function `sn_op_destroy_one` on the node memory. -/
def sn_op_destroy_one_ptr {φ : Type} (heap : sn_heap φ) (self : Option Nat) :
    Option (sn_heap φ) :=
  match self with
  | none => some heap
  | some p => do
    let node ← sn_load heap.ops p
    match node.type with
    | .CONSTANT => do
      let a ← node.array
      pure { ops := heap.ops.set p none, freed := heap.freed ++ [p],
             freed_mda := heap.freed_mda ++ [a] }
    | _ => pure { heap with ops := heap.ops.set p none, freed := heap.freed ++ [p] }

/-- The function `sn_op_destroy` on the node memory; `fuel` bounds the depth of its
recursion. -/
def sn_op_destroy_ptr {φ : Type} : Nat → sn_heap φ → Option Nat → Option (sn_heap φ)
  | 0, _, _ => none
  | _ + 1, heap, none => some heap
  | fuel + 1, heap, some p => do
    let node ← sn_load heap.ops p
    let ref_count := sn_usub node.ref_count 1
    let ops ← sn_store heap.ops p { node with ref_count := ref_count }
    let heap : sn_heap φ := { heap with ops := ops }
    if ref_count < 2 then do
      let heap ← sn_for node.x_count (fun i (heap : sn_heap φ) => do
          let self ← sn_load heap.ops p
          let xi ← sn_load self.x i
          sn_op_destroy_ptr fuel heap (some xi)) heap
      sn_op_destroy_one_ptr heap (some p)
    else pure heap

/-- The function `sn_placeholder` on the node memory. -/
def sn_placeholder_ptr {φ : Type} (heap : sn_heap φ) : Option (sn_heap φ × Nat) :=
  sn_op_create_ptr heap .PLACEHOLDER none none 0 none

/-- The function `sn_const` on the node memory; `array` is a tensor pointer. -/
def sn_const_ptr {φ : Type} (heap : sn_heap φ) (array : Nat) : Option (sn_heap φ × Nat) :=
  let node : sn_op_st φ :=
    { ref_count := 1, type := .CONSTANT, flow := none, dflow := none, x_count := 0, x := [],
      array := some array, overwrap := none }
  some ({ heap with ops := heap.ops ++ [some node] }, heap.ops.length)

/-- The function `sn_abs` on the node memory. -/
def sn_abs_ptr (heap : sn_heap sn_fn_ptr) (x : Nat) : Option (sn_heap sn_fn_ptr × Nat) :=
  sn_op_create_ptr heap .OPERATOR (some .abs_flow_) (some .abs_dflow_) 1 (some [x])
/-- The function `sn_exp` on the node memory. -/
def sn_exp_ptr (heap : sn_heap sn_fn_ptr) (x : Nat) : Option (sn_heap sn_fn_ptr × Nat) :=
  sn_op_create_ptr heap .OPERATOR (some .exp_flow_) (some .exp_dflow_) 1 (some [x])
/-- The function `sn_negative` on the node memory. -/
def sn_negative_ptr (heap : sn_heap sn_fn_ptr) (x : Nat) : Option (sn_heap sn_fn_ptr × Nat) :=
  sn_op_create_ptr heap .OPERATOR (some .negative_flow_) (some .negative_dflow_) 1 (some [x])
/-- The function `sn_reciprocal` on the node memory. -/
def sn_reciprocal_ptr (heap : sn_heap sn_fn_ptr) (x : Nat) : Option (sn_heap sn_fn_ptr × Nat) :=
  sn_op_create_ptr heap .OPERATOR (some .reciprocal_flow_) (some .reciprocal_dflow_) 1 (some [x])
/-- The function `sn_sqrt` on the node memory. -/
def sn_sqrt_ptr (heap : sn_heap sn_fn_ptr) (x : Nat) : Option (sn_heap sn_fn_ptr × Nat) :=
  sn_op_create_ptr heap .OPERATOR (some .sqrt_flow_) (some .sqrt_dflow_) 1 (some [x])
/-- The function `sn_sum` on the node memory. -/
def sn_sum_ptr (heap : sn_heap sn_fn_ptr) (x : Nat) : Option (sn_heap sn_fn_ptr × Nat) :=
  sn_op_create_ptr heap .OPERATOR (some .sum_flow_) (some .sum_dflow_) 1 (some [x])
/-- The function `sn_add` on the node memory. -/
def sn_add_ptr (heap : sn_heap sn_fn_ptr) (x0 x1 : Nat) : Option (sn_heap sn_fn_ptr × Nat) :=
  sn_op_create_ptr heap .OPERATOR (some .add_flow_) (some .add_dflow_) 2 (some [x0, x1])
/-- The function `sn_subtract` on the node memory. -/
def sn_subtract_ptr (heap : sn_heap sn_fn_ptr) (x0 x1 : Nat) : Option (sn_heap sn_fn_ptr × Nat) :=
  sn_op_create_ptr heap .OPERATOR (some .subtract_flow_) (some .subtract_dflow_) 2 (some [x0, x1])
/-- The function `sn_multiply` on the node memory. -/
def sn_multiply_ptr (heap : sn_heap sn_fn_ptr) (x0 x1 : Nat) : Option (sn_heap sn_fn_ptr × Nat) :=
  sn_op_create_ptr heap .OPERATOR (some .multiply_flow_) (some .multiply_dflow_) 2 (some [x0, x1])
/-- The function `sn_divide` on the node memory. -/
def sn_divide_ptr (heap : sn_heap sn_fn_ptr) (x0 x1 : Nat) : Option (sn_heap sn_fn_ptr × Nat) :=
  sn_op_create_ptr heap .OPERATOR (some .divide_flow_) (some .divide_dflow_) 2 (some [x0, x1])

/-- The function `sn_matmul` on the node memory: it fills the new block itself. -/
def sn_matmul_ptr (heap : sn_heap sn_fn_ptr) (x0 x1 : Nat) (overwrap : Nat) :
    Option (sn_heap sn_fn_ptr × Nat) :=
  let node : sn_op_st sn_fn_ptr :=
    { ref_count := 1, type := .OPERATOR, flow := some .matmul_flow_, dflow := some .matmul_dflow_,
      x_count := 2, x := [some x0, some x1], array := none, overwrap := some overwrap }
  some ({ heap with ops := heap.ops ++ [some node] }, heap.ops.length)

/-- Reference count of the node at `p`, if the block is live. -/
def sn_ref_count {φ : Type} (heap : sn_heap φ) (p : Nat) : Option Nat :=
  (sn_load heap.ops p).map (fun node => node.ref_count)

/-- The node memory before any allocation. -/
def sn_heap_empty : sn_heap sn_fn_ptr := { ops := [], freed := [], freed_mda := [] }

/-- The node memory after `x = sn_placeholder()`, `a = sn_negative(x)`, `r = sn_negative(a)`:
the nodes lie at 0, 1 and 2. -/
def chain_negative_ptr : Option (sn_heap sn_fn_ptr) := do
  let (heap, x) ← sn_placeholder_ptr sn_heap_empty
  let (heap, a) ← sn_negative_ptr heap x
  let (heap, _) ← sn_negative_ptr heap a
  pure heap

/-- The node memory after `x = sn_placeholder()`, `a = sn_negative(x)`,
`r1 = sn_negative(a)`, `r2 = sn_abs(a)`: the nodes lie at 0, 1, 2 and 3. -/
def shared_negative_abs_ptr : Option (sn_heap sn_fn_ptr) := do
  let (heap, x) ← sn_placeholder_ptr sn_heap_empty
  let (heap, a) ← sn_negative_ptr heap x
  let (heap, _) ← sn_negative_ptr heap a
  let (heap, _) ← sn_abs_ptr heap a
  pure heap

/-- The node memory after `a = sn_placeholder()`, `b = sn_placeholder()`,
`r1 = sn_matmul(a, b, 0)`, `r2 = sn_abs(a)`: the nodes lie at 0, 1, 2 and 3. -/
def shared_matmul_abs_ptr : Option (sn_heap sn_fn_ptr) := do
  let (heap, a) ← sn_placeholder_ptr sn_heap_empty
  let (heap, b) ← sn_placeholder_ptr heap
  let (heap, _) ← sn_matmul_ptr heap a b 0
  let (heap, _) ← sn_abs_ptr heap a
  pure heap

/-- The node memory after `a = sn_placeholder()` and `b = sn_placeholder()`: the nodes lie
at 0 and 1. -/
def two_placeholders_ptr : Option (sn_heap sn_fn_ptr) := do
  let (heap, _) ← sn_placeholder_ptr sn_heap_empty
  let (heap, _) ← sn_placeholder_ptr heap
  pure heap

/-! ## Reference notions used in the statements -/

/-- The tensor object with extents `dims` whose buffer holds `data`, as `sn_mda_create`
lays it out: the rank is the number of extents and `shape` is `NULL` at rank 0. -/
def sn_tensor {α : Type} (dims : List Nat) (data : List α) : sn_mda α :=
  { rank := dims.length, shape := if dims.length > 0 then some (dims.map some) else none,
    ptr := data.map some }

/-- Sum of `u k * v k` for `k = 0, 1, ..., c - 1`, accumulated from `0` in this order. -/
def sn_dot {α : Type} [Zero α] [Add α] [Mul α] (c : Nat) (u v : Nat → α) : α :=
  (List.range c).foldl (fun t k => t + u k * v k) 0

/-- Column-major offset of a multi-index: the sum of `index[i]` times the product of
`shape[0..i)`. -/
def column_major_offset (shape index : List Nat) : Nat :=
  ∑ i in Finset.range shape.length, index.getD i 0 * (shape.take i).prod

/-- Buffer of the column-major `p` x `p` matrix with `value` on the diagonal and `0`
elsewhere. -/
def diagonal_data {α : Type} [Zero α] (p : Nat) (value : α) : List α :=
  (List.range (p * p)).map (fun q => if q % p = q / p then value else 0)

/-- Buffer of the column-major product of the `f` x `c` matrix `a` and the `c` x `b`
matrix `d`. -/
def matrix_product_data {α : Type} [Zero α] [Add α] [Mul α] (f c b : Nat) (a d : List α) :
    List α :=
  (List.range (f * b)).map (fun q =>
    sn_dot c (fun k => a.getD (q % f + k * f) 0) (fun k => d.getD (k + q / f * c) 0))

mutual
/-- Addresses of the `OPERATOR` nodes that `op_flow_` visits from a node, the node
included. -/
def sn_op.operators {α : Type} : sn_op α → List Nat
  | .mk addr type _ _ x _ =>
    match type with
    | .OPERATOR => addr :: sn_op.operators_of x
    | _ => []
/-- Addresses of the `OPERATOR` nodes that `op_flow_` visits from a list of operands. -/
def sn_op.operators_of {α : Type} : List (sn_op α) → List Nat
  | [] => []
  | xi :: rest => xi.operators ++ sn_op.operators_of rest
end

mutual
/-- Addresses of the placeholders reached from a node through operand slots, one per path,
in operand order. -/
def sn_op.placeholders {α : Type} : sn_op α → List Nat
  | .mk addr type _ _ x _ =>
    match type with
    | .CONSTANT => []
    | .OPERATOR => sn_op.placeholders_of x
    | .PLACEHOLDER => [addr]
/-- Addresses of the placeholders reached from a list of operands. -/
def sn_op.placeholders_of {α : Type} : List (sn_op α) → List Nat
  | [] => []
  | xi :: rest => xi.placeholders ++ sn_op.placeholders_of rest
end

mutual
/-- Number of paths from a node to the placeholder at `p`, a path choosing one operand
slot at every operator it passes: repeated operands count once per slot. -/
def sn_op.paths {α : Type} (p : Nat) : sn_op α → Nat
  | .mk addr type _ _ x _ =>
    match type with
    | .CONSTANT => 0
    | .OPERATOR => sn_op.paths_of p x
    | .PLACEHOLDER => if addr = p then 1 else 0
/-- Number of paths from the operands in a list to the placeholder at `p`. -/
def sn_op.paths_of {α : Type} (p : Nat) : List (sn_op α) → Nat
  | [] => 0
  | xi :: rest => xi.paths p + sn_op.paths_of p rest
end

mutual
/-- Whether the reverse pass from the node comes to an `OPERATOR` with a `CONSTANT` among
its operands: the node is an `OPERATOR`, and one of its operands is a `CONSTANT` or is
itself such a node. -/
def sn_op.has_constant_operand {α : Type} : sn_op α → Bool
  | .mk _ type _ _ x _ =>
    match type with
    | .OPERATOR => sn_op.has_constant_operand_of x
    | _ => false
/-- Whether one of the operands is a `CONSTANT` or has a constant operand. -/
def sn_op.has_constant_operand_of {α : Type} : List (sn_op α) → Bool
  | [] => false
  | xi :: rest =>
    decide (xi.type = .CONSTANT) || xi.has_constant_operand
      || sn_op.has_constant_operand_of rest
end

mutual
/-- Reference denotation of a node over the caller's bindings `entries`, by recursion on
the graph: a placeholder denotes a copy of the first tensor bound to it, a constant a copy
of its own tensor, an operator its forward function applied to the denotations of its
operands in operand order. -/
def sn_op.denote {α : Type} (entries : List (Nat × sn_mda α)) : sn_op α → Option (sn_mda α)
  | .mk addr type flow _ x array =>
    match type with
    | .CONSTANT => array.bind sn_mda_copy
    | .OPERATOR =>
      (sn_op.denote_all entries x).bind fun values =>
        flow.bind fun f => f (values.map some)
    | .PLACEHOLDER =>
      (entries.find? (fun e => decide (e.1 = addr))).bind fun e => sn_mda_copy e.2
/-- Denotations of the operands in a list, in order. -/
def sn_op.denote_all {α : Type} (entries : List (Nat × sn_mda α)) :
    List (sn_op α) → Option (List (sn_mda α))
  | [] => some []
  | xi :: rest =>
    (xi.denote entries).bind fun v =>
      (sn_op.denote_all entries rest).bind fun values => some (v :: values)
end

/-- The table object with `capacity` slots that holds `entries`, in insertion order, in
its first slots; the other slots are unwritten. -/
def sn_table {α : Type} (capacity : Nat) (entries : List (Nat × sn_mda α)) : sn_map α :=
  { capacity := capacity, count := entries.length,
    keys := (entries.map Prod.fst).map some ++ List.replicate (capacity - entries.length) none,
    values := (entries.map Prod.snd).map some ++ List.replicate (capacity - entries.length) none }

/-! ## Loops and cells -/

theorem sn_for_from_succ {σ : Type} (body : Nat → σ → Option σ) (n i : Nat) (s : σ) :
    sn_for_from body (n + 1) i s = (sn_for_from body n i s).bind (body (i + n)) := by
  induction n generalizing i s with
  | zero =>
    simp only [sn_for_from, Nat.add_zero, Option.some_bind]
    cases body i s <;> rfl
  | succ n ih =>
    rw [sn_for_from]
    cases h : body i s with
    | none => simp [sn_for_from, h]
    | some s' =>
      simp only []
      rw [ih]
      conv_rhs => rw [sn_for_from, h]
      simp only []
      have : i + 1 + n = i + (n + 1) := by omega
      rw [this]

theorem sn_for_zero {σ : Type} (body : Nat → σ → Option σ) (s : σ) :
    sn_for 0 body s = some s := rfl

theorem sn_for_succ {σ : Type} (body : Nat → σ → Option σ) (n : Nat) (s : σ) :
    sn_for (n + 1) body s = (sn_for n body s).bind (body n) := by
  unfold sn_for
  rw [sn_for_from_succ, Nat.zero_add]

/-- Invariant rule for `sn_for`: an invariant that holds on entry and that every
iteration re-establishes (the body not faulting) holds on exit, and the loop returns. -/
theorem sn_for_inv {σ : Type} (P : Nat → σ → Prop) (n : Nat) (body : Nat → σ → Option σ) (s : σ)
    (h0 : P 0 s)
    (hstep : ∀ i s, i < n → P i s → ∃ s', body i s = some s' ∧ P (i + 1) s') :
    ∃ s', sn_for n body s = some s' ∧ P n s' := by
  induction n with
  | zero => exact ⟨s, rfl, h0⟩
  | succ n ih =>
    obtain ⟨s1, h1, hP⟩ := ih (fun i s hi hp => hstep i s (Nat.lt_succ_of_lt hi) hp)
    obtain ⟨s2, h2, hP2⟩ := hstep n s1 (Nat.lt_succ_self n) hP
    exact ⟨s2, by rw [sn_for_succ, h1]; exact h2, hP2⟩

/-- A loop whose body never faults folds its step function over `0, ..., n - 1`. -/
theorem sn_for_eq_foldl {σ : Type} (n : Nat) (body : Nat → σ → Option σ) (g : Nat → σ → σ)
    (s : σ) (h : ∀ i s, i < n → body i s = some (g i s)) :
    sn_for n body s = some ((List.range n).foldl (fun s i => g i s) s) := by
  induction n with
  | zero => rfl
  | succ n ih =>
    rw [sn_for_succ, ih (fun i s hi => h i s (Nat.lt_succ_of_lt hi)), List.range_succ,
      List.foldl_append]
    simp [h n _ (Nat.lt_succ_self n)]

/-- A loop whose body leaves the state as it is returns the state. -/
theorem sn_for_skip {σ : Type} (n : Nat) (body : Nat → σ → Option σ) (s : σ)
    (h : ∀ i s, i < n → body i s = some s) : sn_for n body s = some s := by
  induction n with
  | zero => rfl
  | succ n ih =>
    rw [sn_for_succ, ih (fun i s hi => h i s (Nat.lt_succ_of_lt hi)), Option.some_bind,
      h n s (Nat.lt_succ_self n)]

theorem sn_load_map_some {β : Type} (l : List β) (i : Nat) :
    sn_load (l.map some) i = l.get? i := by
  unfold sn_load
  simp only [List.get?_eq_getElem?, List.getElem?_map]
  cases l[i]? <;> rfl

theorem sn_load_eq_some {β : Type} (buf : List (Option β)) (i : Nat) (v : β)
    (h : buf.get? i = some (some v)) : sn_load buf i = some v := by
  unfold sn_load
  rw [h]

theorem get?_eq_some_getD {β : Type} (l : List β) (i : Nat) (d : β) (h : i < l.length) :
    l.get? i = some (l.getD i d) := by
  rw [List.get?_eq_getElem?, List.getD_eq_getElem?_getD, List.getElem?_eq_getElem h]
  rfl

theorem sn_usub_of_le (a b : Nat) (hb : b ≤ a) : sn_usub a b = a - b := by
  unfold sn_usub
  rw [if_pos hb]

/-- A loop that stores `v i` at `off + i` overwrites the cells `off, ..., off + n - 1`. -/
theorem sn_for_store_seq {β : Type} (n off : Nat) (body : Nat → List (Option β) → Option (List (Option β)))
    (v : Nat → β) (hbody : ∀ i p, i < n → body i p = sn_store p (off + i) (v i))
    (buf : List (Option β)) (hlen : off + n ≤ buf.length) :
    sn_for n body buf
      = some (buf.take off ++ (List.range n).map (fun i => some (v i)) ++ buf.drop (off + n)) := by
  induction n with
  | zero => simp [sn_for_zero]
  | succ n ih =>
    rw [sn_for_succ, ih (fun i p hi => hbody i p (Nat.lt_succ_of_lt hi)) (by omega)]
    simp only [Option.some_bind]
    rw [hbody n _ (Nat.lt_succ_self n)]
    unfold sn_store
    have hl : (List.take off buf ++ List.map (fun i => some (v i)) (List.range n)).length = off + n := by
      simp; omega
    have hd : List.drop (off + n) buf = buf[off + n] :: List.drop (off + n + 1) buf :=
      List.drop_eq_getElem_cons (by omega)
    rw [if_pos (by rw [List.length_append, hl, List.length_drop]; omega)]
    rw [List.set_append_right _ _ (by rw [hl]), hl, Nat.sub_self, hd, List.set_cons_zero,
      List.range_succ, List.map_append]
    simp [Nat.add_assoc]

theorem sn_load_cells {β : Type} (d : β) (l : List β) (rest : List (Option β)) (i : Nat)
    (h : i < l.length) : sn_load (l.map some ++ rest) i = some (l.getD i d) := by
  unfold sn_load
  simp only [List.get?_eq_getElem?]
  rw [List.getElem?_append_left (by simpa using h), List.getElem?_map,
    List.getElem?_eq_getElem h, List.getD_eq_getElem l d h]
  rfl

theorem map_range_getD {β : Type} (l : List β) (d : β) :
    (List.range l.length).map (fun i => some (l.getD i d)) = l.map some := by
  apply List.ext_getElem
  · simp
  · intro i h1 h2
    simp only [List.length_map, List.length_range] at h1
    simp [List.getD_eq_getElem?_getD, List.getElem?_eq_getElem h1]

/-- A loop that stores `g (data[i])` at `off + i` overwrites `off, ..., off + n - 1`. -/
theorem sn_for_copy_seq {β γ : Type} (data : List β) (g : β → γ) (n off : Nat)
    (body : Nat → List (Option γ) → Option (List (Option γ)))
    (hbody : ∀ i p, i < n → body i p = (data.get? i).bind (fun v => sn_store p (off + i) (g v)))
    (hn : n ≤ data.length) (buf : List (Option γ)) (hlen : off + n ≤ buf.length) :
    sn_for n body buf
      = some (buf.take off ++ (data.take n).map (fun v => some (g v)) ++ buf.drop (off + n)) := by
  by_cases hne : data = []
  · subst hne
    have : n = 0 := by simpa using hn
    subst this
    simp [sn_for_zero]
  · have x : β := data.head hne
    have hm : (List.range n).map (fun i => some (g (data.getD i x)))
        = (data.take n).map (fun v => some (g v)) := by
      apply List.ext_getElem
      · simp only [List.length_map, List.length_range, List.length_take]
        omega
      · intro i h1 h2
        simp only [List.length_map, List.length_range] at h1
        have h3 : i < data.length := by omega
        simp [List.getD_eq_getElem?_getD, List.getElem?_eq_getElem h3]
    rw [sn_for_store_seq n off body (fun i => g (data.getD i x))
      (by
        intro i p hi
        rw [hbody i p hi, get?_eq_some_getD data i x (by omega)]
        rfl) buf hlen, hm]

theorem replicate_eq_map_range {β : Type} (n : Nat) (v : β) :
    (List.range n).map (fun _ => some v) = (List.replicate n v).map some := by
  apply List.ext_getElem
  · simp
  · intro i h1 h2
    simp

/-- A loop over the columns `j` of a column-major matrix with `f` rows whose body
overwrites column `j` with `w 0 j, ..., w (f - 1) j` fills the whole buffer. -/
theorem sn_for_store_grid {β : Type} (f b : Nat)
    (body : Nat → List (Option β) → Option (List (Option β))) (w : Nat → Nat → β)
    (hbody : ∀ j p, j < b → p.length = f * b → body j p
      = some (p.take (j * f) ++ (List.range f).map (fun i => some (w i j)) ++ p.drop (j * f + f)))
    (buf : List (Option β)) (hlen : buf.length = f * b) :
    sn_for b body buf = some ((List.range (f * b)).map (fun q => some (w (q % f) (q / f)))) := by
  have key : ∀ j, j ≤ b → sn_for j body buf
      = some ((List.range (j * f)).map (fun q => some (w (q % f) (q / f))) ++ buf.drop (j * f)) := by
    intro j hj
    induction j with
    | zero => simp [sn_for_zero]
    | succ j ih =>
      have hjf : j * f + f ≤ f * b := by
        calc j * f + f = (j + 1) * f := by ring
          _ ≤ b * f := Nat.mul_le_mul_right f hj
          _ = f * b := Nat.mul_comm b f
      rw [sn_for_succ, ih (by omega)]
      simp only [Option.some_bind]
      rw [hbody j _ (by omega) (by simp [hlen]; omega)]
      have h1 : ((List.range (j * f)).map (fun q => some (w (q % f) (q / f)))).length = j * f := by
        simp
      rw [List.take_left' h1]
      have h2 : List.drop (j * f + f)
          ((List.range (j * f)).map (fun q => some (w (q % f) (q / f))) ++ buf.drop (j * f))
          = buf.drop ((j + 1) * f) := by
        rw [List.drop_append_eq_append_drop, h1]
        have : j * f + f - j * f = f := by omega
        rw [this, List.drop_drop, List.drop_eq_nil_of_le (by rw [h1]; omega), List.nil_append]
        congr 1
        ring
      rw [h2]
      have h3 : (j + 1) * f = j * f + f := by ring
      rw [h3, List.range_add, List.map_append, List.map_map]
      congr 3
      apply List.map_congr_left
      intro i hi
      have hif : i < f := List.mem_range.mp hi
      simp only [Function.comp]
      have hf : 0 < f := by omega
      rw [Nat.mul_comm j f, Nat.mul_add_mod, Nat.mod_eq_of_lt hif, Nat.mul_add_div hf,
        Nat.div_eq_of_lt hif, Nat.add_zero]
  rw [key b (Nat.le_refl b), Nat.mul_comm b f, List.drop_eq_nil_of_le (by omega), List.append_nil]

/-! ## Construction of tensors -/

theorem sn_uadd_of_lt (a b : Nat) (h : a + b < SN_UINT_MOD) : sn_uadd a b = a + b :=
  Nat.mod_eq_of_lt h

theorem sn_umul_of_lt (a b : Nat) (h : a * b < SN_UINT_MOD) : sn_umul a b = a * b :=
  Nat.mod_eq_of_lt h

theorem sn_umul_zero_left (b : Nat) : sn_umul 0 b = 0 := by
  unfold sn_umul
  rw [Nat.zero_mul, Nat.zero_mod]

theorem sn_umul_zero_right (a : Nat) : sn_umul a 0 = 0 := by
  unfold sn_umul
  rw [Nat.mul_zero, Nat.zero_mod]

/-- Two ranks that differ and are both non-zero pass the rank test of
`element_wise_binary_operator_flow_` when their product is a multiple of `2^64`. -/
theorem sn_umul_ranks_wraps : sn_umul (2 ^ 32) (2 ^ 33) = 0 := by decide

theorem SN_UINT_MOD_pos : 0 < SN_UINT_MOD := by decide

theorem one_lt_SN_UINT_MOD : 1 < SN_UINT_MOD := by decide

theorem prod_nil_lt : ([] : List Nat).prod < SN_UINT_MOD := by
  rw [List.prod_nil]
  exact one_lt_SN_UINT_MOD

theorem prod_singleton_lt (n : Nat) (h : n < SN_UINT_MOD) : [n].prod < SN_UINT_MOD := by
  rw [List.prod_singleton]
  exact h

/-- A side whose square is below `2^64` is below `2^64`. -/
theorem lt_of_mul_self_lt (n : Nat) (h : n * n < SN_UINT_MOD) : n < SN_UINT_MOD := by
  rcases Nat.eq_zero_or_pos n with h0 | h0
  · rw [h0]
    exact SN_UINT_MOD_pos
  · exact lt_of_le_of_lt (Nat.le_mul_of_pos_left n h0) h

/-- The product of the extents `(2^32, 2^32)` wraps around to `0`. -/
theorem sizeof_shape_wraps : sizeof_shape_ 2 (SN_SHAPE [2 ^ 32, 2 ^ 32]) = some 0 := by
  decide

/-- In the shape `(2^32, 2^32, 2)` the offset of the index `(0, 0, 1)` wraps around to
`0`. -/
theorem sn_mda_get_offset_wraps :
    sn_mda_get_offset_
        ({ rank := 3, shape := SN_SHAPE [2 ^ 32, 2 ^ 32, 2], ptr := [] } : sn_mda Int) [0, 0, 1]
      = some 0 := by
  decide

/-- With rows of `2^63` elements the index of column 2 wraps around to `0`. -/
theorem SN_MATRIX_GET_wraps : SN_MATRIX_GET (2 ^ 63) 0 2 = 0 := by
  decide

/-- On the empty operands of shapes `(2^63, 0)` and `(0, 4)` the size `2^65` of the result
wraps around to `0`: `sn_mda_gmatmul` stores its first element outside the block. -/
theorem sn_mda_gmatmul_wraps :
    sn_mda_gmatmul (sn_tensor [2 ^ 63, 0] ([] : List Int)) (sn_tensor [0, 4] []) 1 = none := by
  decide

/-- On the half shape `(2^32)` the size `2^64` of the result wraps around to `0`:
`sn_mda_diagonal_full` stores its first element outside the block. -/
theorem sn_mda_diagonal_full_wraps :
    sn_mda_diagonal_full 1 (SN_SHAPE [2 ^ 32]) (1 : Int) = none := by
  decide

/-- The function `sizeof_shape_` multiplies the first `rank` cells of `shape` modulo
`2^64`. -/
theorem sizeof_shape_cells_mod (ds : List Nat) (rest : List (Option Nat)) :
    sizeof_shape_ ds.length (some (ds.map some ++ rest)) = some (ds.prod % SN_UINT_MOD) := by
  unfold sizeof_shape_
  simp only []
  have key : ∀ r, r ≤ ds.length →
      sn_for r (fun i size => (sn_load (ds.map some ++ rest) i).map (fun d => sn_umul size d)) 1
        = some ((ds.take r).prod % SN_UINT_MOD) := by
    intro r hr
    induction r with
    | zero =>
      rw [sn_for_zero, List.take_zero, List.prod_nil, Nat.mod_eq_of_lt (by decide)]
    | succ r ih =>
      rw [sn_for_succ, ih (by omega)]
      simp only [Option.some_bind]
      rw [sn_load_cells 0 ds rest r (by omega), List.prod_take_succ ds r (by omega),
        List.getD_eq_getElem ds 0 (by omega)]
      simp only [Option.map_some', sn_umul, Nat.mod_mul_mod]
  rw [key ds.length (Nat.le_refl _), List.take_length]

/-- The function `sizeof_shape_` returns the product of the first `rank` cells of `shape`
when the product is below `2^64`. -/
theorem sizeof_shape_cells (ds : List Nat) (rest : List (Option Nat))
    (h : ds.prod < SN_UINT_MOD) :
    sizeof_shape_ ds.length (some (ds.map some ++ rest)) = some ds.prod := by
  rw [sizeof_shape_cells_mod, Nat.mod_eq_of_lt h]

theorem sn_mda_create_cells {α : Type} (ds : List Nat) (rest : List (Option Nat))
    (hsize : ds.prod < SN_UINT_MOD) :
    sn_mda_create (α := α) ds.length (some (ds.map some ++ rest))
      = some { rank := ds.length,
               shape := if ds.length > 0 then some (ds.map some) else none,
               ptr := List.replicate ds.prod none } := by
  unfold sn_mda_create
  rw [sizeof_shape_cells ds rest hsize]
  simp only []
  rw [sn_for_store_seq ds.length 0 _ (fun i => ds.getD i 0)
    (by
      intro i p hi
      rw [sn_load_cells 0 ds rest i hi, Nat.zero_add]
      rfl)
    _ (by simp [SN_DYNAMIC_ARRAY])]
  simp only [SN_DYNAMIC_ARRAY, List.take_zero, List.nil_append, Nat.zero_add,
    List.drop_replicate, Nat.sub_self, List.replicate_zero, List.append_nil, map_range_getD]

theorem sn_mda_create_null {α : Type} :
    sn_mda_create (α := α) 0 none = some { rank := 0, shape := none, ptr := [none] } := by
  rfl

/-- The function `sn_mda_full` on a shape array that starts with the extents `ds`. -/
theorem sn_mda_full_cells {α : Type} (ds : List Nat) (rest : List (Option Nat)) (value : α)
    (hsize : ds.prod < SN_UINT_MOD) :
    sn_mda_full ds.length (some (ds.map some ++ rest)) value
      = some (sn_tensor ds (List.replicate ds.prod value)) := by
  unfold sn_mda_full
  rw [sn_mda_create_cells ds rest hsize]
  simp only [sn_mda_size]
  have hsize : sizeof_shape_ ds.length (if ds.length > 0 then some (ds.map some) else none)
      = some ds.prod := by
    by_cases h : ds.length > 0
    · rw [if_pos h]
      simpa using sizeof_shape_cells ds [] hsize
    · have : ds = [] := List.eq_nil_of_length_eq_zero (by omega)
      subst this
      rfl
  rw [hsize]
  simp only []
  rw [sn_for_store_seq ds.prod 0 _ (fun _ => value)
    (by intro i p _; rw [Nat.zero_add]) _ (by simp)]
  simp [sn_tensor, replicate_eq_map_range]

theorem sn_mda_full_null {α : Type} (value : α) :
    sn_mda_full 0 none value = some (sn_tensor [] [value]) := by
  rfl

/-- The function `sn_mda_size` of a tensor object. -/
theorem sn_mda_size_tensor {α : Type} (ds : List Nat) (data : List α)
    (hsize : ds.prod < SN_UINT_MOD) :
    sn_mda_size (sn_tensor ds data) = some ds.prod := by
  unfold sn_mda_size sn_tensor
  simp only []
  by_cases h : ds.length > 0
  · rw [if_pos h]
    simpa using sizeof_shape_cells ds [] hsize
  · have : ds = [] := List.eq_nil_of_length_eq_zero (by omega)
    subst this
    rfl

/-- The function `sn_mda_create` on the rank and shape of a tensor object. -/
theorem sn_mda_create_tensor {α : Type} (ds : List Nat) (data : List α)
    (hsize : ds.prod < SN_UINT_MOD) :
    sn_mda_create (α := α) (sn_tensor ds data).rank (sn_tensor ds data).shape
      = some { rank := ds.length,
               shape := if ds.length > 0 then some (ds.map some) else none,
               ptr := List.replicate ds.prod none } := by
  unfold sn_tensor
  simp only []
  by_cases h : ds.length > 0
  · rw [if_pos h]
    simpa [h] using sn_mda_create_cells (α := α) ds [] hsize
  · have : ds = [] := List.eq_nil_of_length_eq_zero (by omega)
    subst this
    rfl

/-- The function `sn_mda_copy` returns an equal tensor object. -/
theorem sn_mda_copy_tensor {α : Type} (ds : List Nat) (data : List α)
    (hlen : data.length = ds.prod) (hsize : ds.prod < SN_UINT_MOD) :
    sn_mda_copy (sn_tensor ds data) = some (sn_tensor ds data) := by
  unfold sn_mda_copy
  rw [sn_mda_create_tensor ds data hsize]
  simp only [Option.bind_eq_bind, Option.some_bind, sn_mda_size]
  have hsize : sizeof_shape_ ds.length (if ds.length > 0 then some (ds.map some) else none)
      = some ds.prod := by
    have := sn_mda_size_tensor ds data hsize
    simpa [sn_mda_size, sn_tensor] using this
  rw [hsize]
  simp only [Option.some_bind]
  rw [sn_for_copy_seq data id ds.prod 0 _
    (by
      intro i p _
      simp [sn_tensor, sn_load_map_some])
    (by omega) _ (by simp)]
  simp [sn_tensor, ← hlen]

/-! ## Generalized matrix multiplication -/

theorem tensor_shape_load {α : Type} (ds : List Nat) (data : List α) (i : Nat)
    (h : i < ds.length) : sn_load_ptr (sn_tensor ds data).shape i = some (ds.getD i 0) := by
  unfold sn_tensor
  simp only []
  rw [if_pos (by omega)]
  simpa [sn_load_ptr] using sn_load_cells 0 ds [] i h

theorem sizeof_shape_tensor_prefix_mod {α : Type} (f c : List Nat) (data : List α) :
    sizeof_shape_ f.length (sn_tensor (f ++ c) data).shape = some (f.prod % SN_UINT_MOD) := by
  unfold sn_tensor
  simp only []
  by_cases h : (f ++ c).length > 0
  · rw [if_pos h, List.map_append]
    exact sizeof_shape_cells_mod f _
  · rw [if_neg h]
    have hf : f = [] := by
      apply List.eq_nil_of_length_eq_zero
      simp only [List.length_append] at h
      omega
    subst hf
    rw [List.prod_nil, Nat.mod_eq_of_lt one_lt_SN_UINT_MOD]
    rfl

theorem sizeof_shape_tensor_suffix_mod {α : Type} (c b : List Nat) (data : List α) :
    sizeof_shape_ b.length ((sn_tensor (c ++ b) data).shape.map (List.drop c.length))
      = some (b.prod % SN_UINT_MOD) := by
  unfold sn_tensor
  simp only []
  by_cases h : (c ++ b).length > 0
  · rw [if_pos h, Option.map_some', List.map_append, List.drop_left' (by simp)]
    simpa using sizeof_shape_cells_mod b []
  · rw [if_neg h]
    have hb : b = [] := by
      apply List.eq_nil_of_length_eq_zero
      simp only [List.length_append] at h
      omega
    subst hb
    rw [List.prod_nil, Nat.mod_eq_of_lt one_lt_SN_UINT_MOD]
    rfl

theorem matrix_index_lt (f c i k : Nat) (hi : i < f) (hk : k < c) :
    i + k * f < f * c := by
  calc i + k * f < f + k * f := by omega
    _ = (k + 1) * f := by ring
    _ ≤ c * f := Nat.mul_le_mul_right f hk
    _ = f * c := Nat.mul_comm c f

/-- The index that `SN_MATRIX_GET` computes inside an `f` x `c` matrix of fewer than `2^64`
elements is `i + k * f`. -/
theorem SN_MATRIX_GET_of_lt (f c i k : Nat) (hi : i < f) (hk : k < c)
    (hsize : f * c < SN_UINT_MOD) : SN_MATRIX_GET f i k = i + k * f := by
  have h := matrix_index_lt f c i k hi hk
  unfold SN_MATRIX_GET
  rw [sn_umul_of_lt k f (by omega), sn_uadd_of_lt _ _ (by omega)]

/-- When the numbers of elements of the operands and of the result are below `2^64` and
one of the three products of extents is not, two of the products are `0`: the result is
empty and one of the two outer loops of `sn_mda_gmatmul` has no iteration. -/
theorem gmatmul_degenerate (F C B : Nat)
    (hx1 : C * B < SN_UINT_MOD) (hy : F * B < SN_UINT_MOD)
    (hall : ¬ (F < SN_UINT_MOD ∧ C < SN_UINT_MOD ∧ B < SN_UINT_MOD)) :
    F * B = 0 ∧ (B % SN_UINT_MOD = 0 ∨ F % SN_UINT_MOD = 0) := by
  by_cases hf : F < SN_UINT_MOD
  · by_cases hc : C < SN_UINT_MOD
    · have hb : ¬ B < SN_UINT_MOD := fun hb => hall ⟨hf, hc, hb⟩
      have hF : F = 0 := by
        by_contra h
        have := Nat.le_mul_of_pos_left B (Nat.pos_of_ne_zero h)
        omega
      exact ⟨by rw [hF, Nat.zero_mul], Or.inr (by rw [hF, Nat.zero_mod])⟩
    · have hB : B = 0 := by
        by_contra h
        have := Nat.le_mul_of_pos_right C (Nat.pos_of_ne_zero h)
        omega
      exact ⟨by rw [hB, Nat.mul_zero], Or.inl (by rw [hB, Nat.zero_mod])⟩
  · have hB : B = 0 := by
      by_contra h
      have := Nat.le_mul_of_pos_right F (Nat.pos_of_ne_zero h)
      omega
    exact ⟨by rw [hB, Nat.mul_zero], Or.inl (by rw [hB, Nat.zero_mod])⟩

/-- The function `sn_mda_gmatmul` on tensor objects of extents `f ++ c` and `c ++ b`
with `overwrap` the number of extents in `c`, when the numbers of elements of the
operands and of the result are below `2^64`: the result has extents `f ++ b` and its
buffer is the product of the two buffers read as column-major matrices. -/
theorem sn_mda_gmatmul_tensor {α : Type} [Zero α] [Add α] [Mul α] (f c b : List Nat)
    (a d : List α)
    (ha : a.length = f.prod * c.prod) (hd : d.length = c.prod * b.prod)
    (hx0 : f.prod * c.prod < SN_UINT_MOD) (hx1 : c.prod * b.prod < SN_UINT_MOD)
    (hy : f.prod * b.prod < SN_UINT_MOD) :
    sn_mda_gmatmul (sn_tensor (f ++ c) a) (sn_tensor (c ++ b) d) c.length
      = some (sn_tensor (f ++ b) (matrix_product_data f.prod c.prod b.prod a d)) := by
  have hr0 : (sn_tensor (f ++ c) a).rank = f.length + c.length := by simp [sn_tensor]
  have hr1 : (sn_tensor (c ++ b) d).rank = c.length + b.length := by simp [sn_tensor]
  have hs0 : sn_usub (f.length + c.length) c.length = f.length := by
    rw [sn_usub_of_le _ _ (by omega)]; omega
  have hs1 : sn_usub (c.length + b.length) c.length = b.length := by
    rw [sn_usub_of_le _ _ (by omega)]; omega
  have hs2 : sn_usub (f.length + (c.length + b.length)) c.length = (f ++ b).length := by
    rw [sn_usub_of_le _ _ (by omega), List.length_append]; omega
  unfold sn_mda_gmatmul
  rw [hr0, hr1, hs0, hs1, hs2]
  have hassert : sn_for c.length (fun i (u : Unit) => do
      let a ← sn_load_ptr (sn_tensor (f ++ c) a).shape (f.length + i)
      let b ← sn_load_ptr (sn_tensor (c ++ b) d).shape i
      if a = b then pure u else none) () = some () := by
    rw [sn_for_eq_foldl c.length _ (fun _ u => u)]
    intro i u hi
    have e1 : (f ++ c).getD (f.length + i) 0 = c.getD i 0 := by
      simp [List.getD_eq_getElem?_getD, List.getElem?_append_right]
    have e2 : (c ++ b).getD i 0 = c.getD i 0 := by
      simp [List.getD_eq_getElem?_getD, List.getElem?_append_left hi]
    rw [tensor_shape_load _ _ _ (by simp; omega), tensor_shape_load _ _ _ (by simp; omega),
      e1, e2]
    simp
  have hshape1 : sn_for f.length (fun i sh => do
      let d ← sn_load_ptr (sn_tensor (f ++ c) a).shape i
      sn_store sh i d) (SN_DYNAMIC_ARRAY Nat (f ++ b).length)
        = some (f.map some ++ List.replicate b.length none) := by
    rw [sn_for_copy_seq f id f.length 0 _
      (by
        intro i p hi
        have e1 : (f ++ c).getD i 0 = f.getD i 0 := by
          simp [List.getD_eq_getElem?_getD, List.getElem?_append_left hi]
        rw [tensor_shape_load _ _ _ (by simp; omega), get?_eq_some_getD f i 0 hi, e1]
        simp)
      (Nat.le_refl _) _ (by simp [SN_DYNAMIC_ARRAY])]
    simp [SN_DYNAMIC_ARRAY]
  have hshape2 : sn_for b.length (fun i sh => do
      let d ← sn_load_ptr (sn_tensor (c ++ b) d).shape (c.length + i)
      sn_store sh (f.length + i) d) (f.map some ++ List.replicate b.length none)
        = some ((f ++ b).map some ++ []) := by
    rw [sn_for_copy_seq b id b.length f.length _
      (by
        intro i p hi
        have e1 : (c ++ b).getD (c.length + i) 0 = b.getD i 0 := by
          simp [List.getD_eq_getElem?_getD, List.getElem?_append_right]
        rw [tensor_shape_load _ _ _ (by simp; omega), get?_eq_some_getD b i 0 hi, e1]
        simp)
      (Nat.le_refl _) _ (by simp)]
    simp
  simp only [Option.bind_eq_bind, Option.pure_def] at hassert hshape1 hshape2 ⊢
  rw [hassert]
  simp only [Option.some_bind]
  rw [hshape1]
  simp only [Option.some_bind]
  rw [hshape2]
  simp only [Option.some_bind]
  rw [sn_mda_create_cells _ _ (by rw [List.prod_append]; exact hy),
    sizeof_shape_tensor_prefix_mod f c a, sizeof_shape_tensor_suffix_mod c b d]
  have hov : sizeof_shape_ c.length (sn_tensor (c ++ b) d).shape
      = some (c.prod % SN_UINT_MOD) := sizeof_shape_tensor_prefix_mod c b d
  rw [hov]
  simp only [Option.some_bind]
  by_cases hall : f.prod < SN_UINT_MOD ∧ c.prod < SN_UINT_MOD ∧ b.prod < SN_UINT_MOD
  · obtain ⟨hf, hc, hb⟩ := hall
    rw [Nat.mod_eq_of_lt hf, Nat.mod_eq_of_lt hc, Nat.mod_eq_of_lt hb]
    rw [sn_for_store_grid f.prod b.prod _
      (fun i j => sn_dot c.prod (fun k => a.getD (i + k * f.prod) 0)
        (fun k => d.getD (k + j * c.prod) 0))
      (by
        intro j p hj hp
        rw [sn_for_store_seq f.prod (j * f.prod) _
          (fun i => sn_dot c.prod (fun k => a.getD (i + k * f.prod) 0)
            (fun k => d.getD (k + j * c.prod) 0))
          (by
            intro i q hi
            rw [sn_for_eq_foldl c.prod _
              (fun k t => t + a.getD (i + k * f.prod) 0 * d.getD (k + j * c.prod) 0)]
            · rw [SN_MATRIX_GET_of_lt f.prod b.prod i j hi hj hy]
              simp only [Option.some_bind, sn_dot, Nat.add_comm]
            · intro k t hk
              have h1 := matrix_index_lt f.prod c.prod i k hi hk
              have h2 := matrix_index_lt c.prod b.prod k j hk hj
              rw [SN_MATRIX_GET_of_lt f.prod c.prod i k hi hk hx0,
                SN_MATRIX_GET_of_lt c.prod b.prod k j hk hj hx1]
              simp only [sn_tensor, sn_load_map_some]
              rw [get?_eq_some_getD a _ 0 (by omega), get?_eq_some_getD d _ 0 (by omega)]
              rfl)
          p (by
            rw [hp]
            calc j * f.prod + f.prod = (j + 1) * f.prod := by ring
              _ ≤ b.prod * f.prod := Nat.mul_le_mul_right _ hj
              _ = f.prod * b.prod := Nat.mul_comm _ _)])
      _ (by simp [List.prod_append])]
    simp [sn_tensor, matrix_product_data, List.prod_append]
  · obtain ⟨hzero, hloop⟩ := gmatmul_degenerate f.prod c.prod b.prod hx1 hy hall
    rw [List.prod_append, hzero, List.replicate_zero, sn_for_skip _ _ []
      (by
        intro j p hj
        rcases hloop with h | h
        · rw [h] at hj
          omega
        · rw [h]
          rfl)]
    simp [sn_tensor, matrix_product_data, List.prod_append, hzero]

/-! ## Diagonal tensors -/

theorem sn_store_boundary {β : Type} (l1 l2 : List (Option β)) (y : Option β) (n : Nat) (x : β)
    (hn : n = l1.length) : sn_store (l1 ++ y :: l2) n x = some (l1 ++ some x :: l2) := by
  subst hn
  unfold sn_store
  simp

/-- The shape loop of `sn_mda_diagonal_full` writes the extents twice. -/
theorem diagonal_shape_loop (hs : List Nat) (rest : List (Option Nat)) :
    sn_for hs.length (fun i sh =>
        (sn_load_ptr (some (hs.map some ++ rest)) i).bind fun d =>
          (sn_store sh i d).bind fun sh => sn_store sh (hs.length + i) d)
      (SN_DYNAMIC_ARRAY Nat (2 * hs.length)) = some (hs.map some ++ hs.map some) := by
  have key : ∀ i, i ≤ hs.length → sn_for i (fun i sh =>
        (sn_load_ptr (some (hs.map some ++ rest)) i).bind fun d =>
          (sn_store sh i d).bind fun sh => sn_store sh (hs.length + i) d)
      (SN_DYNAMIC_ARRAY Nat (2 * hs.length))
      = some (((hs.take i).map some ++ List.replicate (hs.length - i) none)
          ++ ((hs.take i).map some ++ List.replicate (hs.length - i) none)) := by
    intro i hi
    induction i with
    | zero =>
      simp only [sn_for_zero, SN_DYNAMIC_ARRAY, List.take_zero, List.map_nil, List.nil_append,
        Nat.sub_zero, Option.some.injEq]
      rw [← List.replicate_add]
      congr 1
      omega
    | succ i ih =>
      rw [sn_for_succ, ih (by omega)]
      simp only [Option.some_bind, sn_load_ptr]
      rw [sn_load_cells 0 hs rest i (by omega)]
      simp only [Option.some_bind]
      have hrep : List.replicate (hs.length - i) (none : Option Nat)
          = none :: List.replicate (hs.length - (i + 1)) none := by
        have : hs.length - i = (hs.length - (i + 1)) + 1 := by omega
        rw [this, List.replicate_succ]
      rw [hrep]
      have htake : (hs.take (i + 1)).map some = (hs.take i).map some ++ [some (hs.getD i 0)] := by
        rw [List.take_succ, List.map_append, List.getD_eq_getElem hs 0 (by omega),
          List.getElem?_eq_getElem (by omega)]
        rfl
      rw [List.append_assoc, List.cons_append, sn_store_boundary _ _ _ _ _ (by simp; omega)]
      simp only [Option.some_bind]
      have e : (List.map some (List.take i hs) ++ some (hs.getD i 0) ::
            (List.replicate (hs.length - (i + 1)) none ++
              (List.map some (List.take i hs) ++ none :: List.replicate (hs.length - (i + 1)) none)))
          = (List.map some (List.take i hs) ++ some (hs.getD i 0) ::
            List.replicate (hs.length - (i + 1)) none ++ List.map some (List.take i hs))
              ++ none :: List.replicate (hs.length - (i + 1)) none := by
        simp
      rw [e, sn_store_boundary _ _ _ _ _ (by simp; omega), htake]
      simp
  rw [key hs.length (Nat.le_refl _)]
  simp

/-- A loop that stores `v i` at the diagonal position `(i, i)` of a `p` x `p` matrix
which holds `z` everywhere. -/
theorem sn_for_store_diag {β : Type} (p : Nat)
    (body : Nat → List (Option β) → Option (List (Option β))) (v : Nat → β) (z : β)
    (hbody : ∀ i buf, i < p → body i buf = sn_store buf ((i + i * p)) (v i)) :
    sn_for p body ((List.replicate (p * p) z).map some)
      = some ((List.range (p * p)).map
          (fun q => some (if q % p = q / p then v (q / p) else z))) := by
  have key : ∀ i, i ≤ p → sn_for i body ((List.replicate (p * p) z).map some)
      = some ((List.range (p * p)).map
          (fun q => some (if q % p = q / p ∧ q / p < i then v (q / p) else z))) := by
    intro i hi
    induction i with
    | zero =>
      rw [sn_for_zero]
      congr 1
      apply List.ext_getElem
      · simp
      · intro q h1 h2
        simp
    | succ i ih =>
      rw [sn_for_succ, ih (by omega)]
      simp only [Option.some_bind]
      rw [hbody i _ (by omega)]
      have hlt := matrix_index_lt p p i i (by omega) (by omega)
      unfold sn_store
      rw [if_pos (by simpa using hlt)]
      congr 1
      apply List.ext_getElem
      · simp
      · intro q h1 h2
        have hq : q < p * p := by simpa using h2
        have hp : 0 < p := by omega
        rw [List.getElem_set]
        simp only [List.getElem_map, List.getElem_range]
        by_cases hqi : i + i * p = q
        · rw [if_pos hqi]
          have e1 : q % p = i := by
            rw [← hqi]
            rw [Nat.add_mul_mod_self_right, Nat.mod_eq_of_lt (by omega)]
          have e2 : q / p = i := by
            rw [← hqi]
            rw [Nat.add_mul_div_right _ _ hp, Nat.div_eq_of_lt (by omega), Nat.zero_add]
          simp [e1, e2]
        · rw [if_neg hqi]
          have hne : ¬ (q % p = q / p ∧ q / p = i) := by
            rintro ⟨h3, h4⟩
            apply hqi
            have := Nat.mod_add_div q p
            rw [h3, h4] at this
            rw [← this, Nat.mul_comm]
          by_cases hc : q % p = q / p ∧ q / p < i
          · rw [if_pos hc, if_pos ⟨hc.1, by omega⟩]
          · rw [if_neg hc, if_neg]
            rintro ⟨h3, h4⟩
            have : q / p = i ∨ q / p < i := by omega
            rcases this with h5 | h5
            · exact hne ⟨h3, h5⟩
            · exact hc ⟨h3, h5⟩
  rw [key p (Nat.le_refl p)]
  congr 1
  apply List.map_congr_left
  intro q hq
  have hq' : q < p * p := List.mem_range.mp hq
  have : q / p < p := Nat.div_lt_of_lt_mul hq'
  simp [this]

/-- The function `sn_mda_diagonal_full` on a shape array that starts with the extents
`hs`. -/
theorem sn_mda_diagonal_full_cells {α : Type} [Zero α] (hs : List Nat) (rest : List (Option Nat))
    (value : α) (hside : hs.prod < SN_UINT_MOD) (hsize : hs.prod * hs.prod < SN_UINT_MOD) :
    sn_mda_diagonal_full hs.length (some (hs.map some ++ rest)) value
      = some (sn_tensor (hs ++ hs) (diagonal_data hs.prod value)) := by
  unfold sn_mda_diagonal_full
  simp only [Option.bind_eq_bind, Option.pure_def]
  rw [diagonal_shape_loop]
  simp only [Option.some_bind]
  have hfull : sn_mda_full (2 * hs.length) (some (hs.map some ++ hs.map some)) (0 : α)
      = some (sn_tensor (hs ++ hs) (List.replicate (hs.prod * hs.prod) 0)) := by
    have := sn_mda_full_cells (hs ++ hs) [] (0 : α) (by rw [List.prod_append]; exact hsize)
    simpa [two_mul, List.prod_append] using this
  rw [hfull, sizeof_shape_cells hs rest hside]
  simp only [Option.some_bind]
  have hptr : (sn_tensor (hs ++ hs) (List.replicate (hs.prod * hs.prod) (0 : α))).ptr
      = (List.replicate (hs.prod * hs.prod) (0 : α)).map some := rfl
  rw [hptr, sn_for_store_diag hs.prod _ (fun _ => value) 0
    (fun i buf hi => by rw [SN_MATRIX_GET_of_lt hs.prod hs.prod i i hi hi hsize])]
  simp [sn_tensor, diagonal_data]

theorem sn_mda_diagonal_full_null {α : Type} [Zero α] (value : α) :
    sn_mda_diagonal_full 0 none value = some (sn_tensor [] [value]) := by
  rfl

/-- The function `sn_mda_diagonal_full` on the rank and shape of a tensor object. -/
theorem sn_mda_diagonal_full_tensor {α : Type} [Zero α] (ds : List Nat) (data : List α)
    (value : α) (hside : ds.prod < SN_UINT_MOD) (hsize : ds.prod * ds.prod < SN_UINT_MOD) :
    sn_mda_diagonal_full (sn_tensor ds data).rank (sn_tensor ds data).shape value
      = some (sn_tensor (ds ++ ds) (diagonal_data ds.prod value)) := by
  by_cases h : ds.length > 0
  · have := sn_mda_diagonal_full_cells ds [] value hside hsize
    simpa [sn_tensor, h] using this
  · have : ds = [] := List.eq_nil_of_length_eq_zero (by omega)
    subst this
    rfl

theorem diagonal_data_get {α : Type} [Zero α] (p : Nat) (value : α) (i j : Nat)
    (hi : i < p) (hj : j < p) :
    (diagonal_data p value).get? (i + j * p) = some (if i = j then value else 0) := by
  have hlt := matrix_index_lt p p i j hi hj
  unfold diagonal_data
  rw [List.get?_eq_getElem?, List.getElem?_map, List.getElem?_range hlt]
  have hp : 0 < p := by omega
  have e1 : (i + j * p) % p = i := by
    rw [Nat.add_mul_mod_self_right, Nat.mod_eq_of_lt hi]
  have e2 : (i + j * p) / p = j := by
    rw [Nat.add_mul_div_right _ _ hp, Nat.div_eq_of_lt hi, Nat.zero_add]
  simp only [Option.map_some', e1, e2]

/-! ## Element-wise operators -/

/-- A loop that stores `f (da[i]) (db[i])` at `i` overwrites the first `n` cells. -/
theorem sn_for_zip_seq {β γ : Type} (da db : List β) (f : β → β → γ) (n : Nat)
    (body : Nat → List (Option γ) → Option (List (Option γ)))
    (hbody : ∀ i p, i < n → body i p
      = (da.get? i).bind fun a => (db.get? i).bind fun b => sn_store p i (f a b))
    (hna : n ≤ da.length) (hnb : n ≤ db.length) (buf : List (Option γ)) (hlen : n ≤ buf.length) :
    sn_for n body buf = some (((List.zipWith f da db).take n).map some ++ buf.drop n) := by
  rw [sn_for_copy_seq (List.zip da db) (fun ab => f ab.1 ab.2) n 0 body
    (by
      intro i p hi
      rw [hbody i p hi]
      have h1 : i < da.length := by omega
      have h2 : i < db.length := by omega
      have h3 : i < (List.zip da db).length := by simp; omega
      simp only [List.get?_eq_getElem?, List.getElem?_eq_getElem h1, List.getElem?_eq_getElem h2,
        List.getElem?_eq_getElem h3, Option.some_bind, List.getElem_zip, Nat.zero_add])
    (by simp; omega) buf (by omega)]
  simp only [List.take_zero, List.nil_append, Nat.zero_add, Option.some.injEq]
  congr 1
  rw [← List.map_uncurry_zip_eq_zipWith, ← List.map_take, List.map_map]
  rfl

theorem sn_load_pair {β : Type} (u v : β) :
    sn_load [some u, some v] 0 = some u ∧ sn_load [some u, some v] 1 = some v :=
  ⟨rfl, rfl⟩

/-- A shape-comparison loop passes on two tensor objects of the same extents. -/
theorem shape_check_same {α : Type} (ds : List Nat) (da db : List α) :
    sn_for ds.length (fun i (u : Unit) =>
        (sn_load_ptr (sn_tensor ds da).shape i).bind fun a =>
          (sn_load_ptr (sn_tensor ds db).shape i).bind fun b =>
            if a = b then some u else none) () = some () := by
  rw [sn_for_eq_foldl ds.length _ (fun _ u => u)]
  intro i u hi
  rw [tensor_shape_load ds da i hi, tensor_shape_load ds db i hi]
  simp

/-- `element_wise_binary_operator_flow_` on two tensor objects of the same extents. -/
theorem element_wise_binary_same {α : Type} (f : α → α → α) (ds : List Nat) (da db : List α)
    (ha : da.length = ds.prod) (hb : db.length = ds.prod) (hsize : ds.prod < SN_UINT_MOD) :
    element_wise_binary_operator_flow_ [some (sn_tensor ds da), some (sn_tensor ds db)] f
      = some (sn_tensor ds (List.zipWith f da db)) := by
  unfold element_wise_binary_operator_flow_
  have hc := shape_check_same ds da db
  have hr : ∀ l : List α, (sn_tensor ds l).rank = ds.length := fun _ => rfl
  have hcr0 : sn_mda_create (α := α) ds.length (sn_tensor ds da).shape = _ :=
    sn_mda_create_tensor ds da hsize
  have hcr1 : sn_mda_create (α := α) ds.length (sn_tensor ds db).shape = _ :=
    sn_mda_create_tensor ds db hsize
  simp only [Option.bind_eq_bind, Option.pure_def, (sn_load_pair _ _).1, (sn_load_pair _ _).2,
    Option.some_bind, hr, true_or, not_true_eq_false, if_false, ite_self, hcr0, hcr1,
    (fun l : List α => sn_mda_size_tensor ds l hsize), if_true, hc]
  rw [sn_for_zip_seq da db f ds.prod _
    (by
      intro i p _
      simp [sn_tensor, sn_load_map_some])
    (by omega) (by omega) _ (by simp)]
  simp [sn_tensor, ← ha, ← hb, List.take_of_length_le]

/-- `element_wise_binary_operator_flow_` with a rank-0 first operand. -/
theorem element_wise_binary_left {α : Type} (f : α → α → α) (a0 : α) (ds : List Nat)
    (db : List α) (hb : db.length = ds.prod) (hsize : ds.prod < SN_UINT_MOD) :
    element_wise_binary_operator_flow_ [some (sn_tensor [] [a0]), some (sn_tensor ds db)] f
      = some (sn_tensor ds (db.map (f a0))) := by
  by_cases hds : ds = []
  · subst hds
    rw [element_wise_binary_same f [] [a0] db rfl hb hsize]
    match db, hb with
    | [b0], _ => rfl
  · have hpos : ds.length ≠ 0 := fun h => hds (List.eq_nil_of_length_eq_zero h)
    unfold element_wise_binary_operator_flow_
    have hr : ∀ l : List α, (sn_tensor ds l).rank = ds.length := fun _ => rfl
    have hr0 : (sn_tensor [] [a0]).rank = 0 := rfl
    have hcr1 : sn_mda_create (α := α) ds.length (sn_tensor ds db).shape = _ :=
      sn_mda_create_tensor ds db hsize
    simp only [Option.bind_eq_bind, Option.pure_def, (sn_load_pair _ _).1, (sn_load_pair _ _).2,
      Option.some_bind, hr, hr0, sn_umul_zero_left, or_true, not_true_eq_false, if_false,
      if_true,
      hcr1, (fun l : List α => sn_mda_size_tensor ds l hsize), Ne.symm hpos]
    rw [sn_for_copy_seq db (f a0) ds.prod 0 _
      (by
        intro i p _
        have hs : sn_load [some a0] 0 = some a0 := rfl
        simp [sn_tensor, sn_load_map_some, hs])
      (by omega) _ (by simp)]
    simp [sn_tensor, ← hb]

/-- `element_wise_binary_operator_flow_` with a rank-0 second operand. -/
theorem element_wise_binary_right {α : Type} (f : α → α → α) (b0 : α) (ds : List Nat)
    (da : List α) (ha : da.length = ds.prod) (hsize : ds.prod < SN_UINT_MOD) :
    element_wise_binary_operator_flow_ [some (sn_tensor ds da), some (sn_tensor [] [b0])] f
      = some (sn_tensor ds (da.map (fun v => f v b0))) := by
  by_cases hds : ds = []
  · subst hds
    rw [element_wise_binary_same f [] da [b0] ha rfl hsize]
    match da, ha with
    | [a0], _ => rfl
  · have hpos : ds.length ≠ 0 := fun h => hds (List.eq_nil_of_length_eq_zero h)
    unfold element_wise_binary_operator_flow_
    have hr : ∀ l : List α, (sn_tensor ds l).rank = ds.length := fun _ => rfl
    have hr0 : (sn_tensor [] [b0]).rank = 0 := rfl
    have hcr0 : sn_mda_create (α := α) ds.length (sn_tensor ds da).shape = _ :=
      sn_mda_create_tensor ds da hsize
    simp only [Option.bind_eq_bind, Option.pure_def, (sn_load_pair _ _).1, (sn_load_pair _ _).2,
      Option.some_bind, hr, hr0, sn_umul_zero_right, or_true, not_true_eq_false, if_false,
      if_true,
      hcr0, (fun l : List α => sn_mda_size_tensor ds l hsize), hpos]
    rw [sn_for_copy_seq da (fun v => f v b0) ds.prod 0 _
      (by
        intro i p _
        have hs : sn_load [some b0] 0 = some b0 := rfl
        simp [sn_tensor, sn_load_map_some, hs])
      (by omega) _ (by simp)]
    simp [sn_tensor, ← ha]

/-! ## Binding tables -/

/-- A loop over a pair of states whose body runs one body on each component is the pair
of the two loops. -/
theorem sn_for_pair {σ τ : Type} (n : Nat) (b1 : Nat → σ → Option σ) (b2 : Nat → τ → Option τ)
    (body : Nat → σ × τ → Option (σ × τ))
    (hbody : ∀ i st, body i st
      = (b1 i st.1).bind fun s1 => (b2 i st.2).bind fun s2 => some (s1, s2))
    (s : σ) (t : τ) :
    sn_for n body (s, t)
      = (sn_for n b1 s).bind fun s1 => (sn_for n b2 t).bind fun s2 => some (s1, s2) := by
  induction n with
  | zero => rfl
  | succ n ih =>
    rw [sn_for_succ, sn_for_succ, sn_for_succ, ih]
    cases h1 : sn_for n b1 s with
    | none => rfl
    | some s1 =>
      cases h2 : sn_for n b2 t with
      | none =>
        simp only [Option.some_bind, Option.none_bind]
        cases b1 n s1 <;> rfl
      | some s2 =>
        simp only [Option.some_bind]
        rw [hbody]

theorem sn_map_create_empty {α : Type} (fuel capacity : Nat) :
    sn_map_create (α := α) fuel capacity none none = some (sn_table capacity []) := by
  simp [sn_map_create, sn_table, SN_DYNAMIC_ARRAY]

theorem replicate_none_succ {β : Type} (n m : Nat) (h : m < n) :
    List.replicate (n - m) (none : Option β) = none :: List.replicate (n - (m + 1)) none := by
  have : n - m = (n - (m + 1)) + 1 := by omega
  rw [this, List.replicate_succ]

/-- The function `sn_map_insert` into a table that has a free slot. -/
theorem sn_map_insert_free {α : Type} (fuel capacity : Nat) (es : List (Nat × sn_mda α))
    (key : Nat) (value : sn_mda α) (h : es.length < capacity) :
    sn_map_insert (fuel + 1) (sn_table capacity es) key value
      = some (sn_table capacity (es ++ [(key, value)])) := by
  rw [sn_map_insert]
  simp only [sn_table]
  rw [if_pos h, replicate_none_succ (β := Nat) capacity es.length h,
    replicate_none_succ (β := sn_mda α) capacity es.length h,
    sn_store_boundary _ _ _ _ _ (by simp), sn_store_boundary _ _ _ _ _ (by simp)]
  simp

/-- The function `sn_map_extend` keeps the entries and adds `offset` slots. -/
theorem sn_map_extend_table {α : Type} (capacity offset : Nat) (es : List (Nat × sn_mda α))
    (h : es.length ≤ capacity) :
    sn_map_extend (sn_table capacity es) offset = some (sn_table (capacity + offset) es) := by
  unfold sn_map_extend
  simp only [Option.bind_eq_bind, Option.pure_def]
  rw [sn_for_pair _ (fun i ks => (sn_load (sn_table capacity es).keys i).bind fun k => sn_store ks i k)
    (fun i vs => (sn_load (sn_table capacity es).values i).bind fun v => sn_store vs i v) _
    (by
      intro i st
      simp only [Option.bind_assoc])]
  have hc : (sn_table capacity es).count = es.length := rfl
  have hcap : (sn_table capacity es).capacity = capacity := rfl
  rw [hc, hcap]
  rw [sn_for_copy_seq (es.map Prod.fst) id es.length 0 _
    (by
      intro i p hi
      simp only [sn_table]
      rw [sn_load_cells 0 _ _ i (by simpa using hi), get?_eq_some_getD _ i 0 (by simpa using hi)]
      simp)
    (by simp) _ (by simp [SN_DYNAMIC_ARRAY]; omega)]
  simp only [Option.some_bind]
  by_cases hne : es = []
  · subst hne
    simp [sn_for_zero, sn_table, SN_DYNAMIC_ARRAY]
  · have e0 : sn_mda α := (es.head hne).2
    rw [sn_for_copy_seq (es.map Prod.snd) id es.length 0 _
      (by
        intro i p hi
        simp only [sn_table]
        rw [sn_load_cells e0 _ _ i (by simpa using hi), get?_eq_some_getD _ i e0 (by simpa using hi)]
        simp)
      (by simp) _ (by simp [SN_DYNAMIC_ARRAY]; omega)]
    simp [sn_table, SN_DYNAMIC_ARRAY]

/-- The function `sn_map_insert` into a full table of capacity at least 1 doubles the
capacity. -/
theorem sn_map_insert_full {α : Type} (fuel capacity : Nat) (es : List (Nat × sn_mda α))
    (key : Nat) (value : sn_mda α) (h : es.length = capacity) (hpos : 1 ≤ capacity) :
    sn_map_insert (fuel + 2) (sn_table capacity es) key value
      = some (sn_table (capacity + capacity) (es ++ [(key, value)])) := by
  rw [sn_map_insert]
  have hc : (sn_table capacity es).count = es.length := rfl
  have hcap : (sn_table capacity es).capacity = capacity := rfl
  rw [hc, hcap, if_neg (by omega)]
  simp only [Option.bind_eq_bind]
  rw [sn_map_extend_table capacity capacity es (by omega)]
  simp only [Option.some_bind]
  exact sn_map_insert_free fuel (capacity + capacity) es key value (by omega)

theorem sn_load_cells_all {β : Type} (l : List β) (n j : Nat) :
    sn_load (l.map some ++ List.replicate n none) j = l.get? j := by
  unfold sn_load
  simp only [List.get?_eq_getElem?]
  by_cases h : j < l.length
  · rw [List.getElem?_append_left (by simpa using h), List.getElem?_map,
      List.getElem?_eq_getElem h]
    rfl
  · have hr : l[j]? = none := List.getElem?_eq_none (by omega)
    rw [List.getElem?_append_right (by simpa using h), hr, List.getElem?_replicate]
    by_cases hn : j - (List.map some l).length < n
    · rw [if_pos hn]
    · rw [if_neg hn]

theorem sn_table_load_key {α : Type} (capacity : Nat) (es : List (Nat × sn_mda α)) (j : Nat) :
    sn_load (sn_table capacity es).keys j = (es.get? j).map Prod.fst := by
  simp only [sn_table]
  rw [sn_load_cells_all]
  simp

theorem sn_table_load_value {α : Type} (capacity : Nat) (es : List (Nat × sn_mda α)) (j : Nat) :
    sn_load (sn_table capacity es).values j = (es.get? j).map Prod.snd := by
  simp only [sn_table]
  rw [sn_load_cells_all]
  simp

/-- The function `sn_map_get` returns the value of the first entry with the key. -/
theorem sn_map_get_table {α : Type} (capacity : Nat) (es : List (Nat × sn_mda α)) (key : Nat) :
    sn_map_get (sn_table capacity es) key
      = (es.find? (fun e => decide (e.1 = key))).map Prod.snd := by
  have key_lemma : ∀ (post pre : List (Nat × sn_mda α)), es = pre ++ post →
      sn_map_get_from (sn_table capacity es) key post.length pre.length
        = (post.find? (fun e => decide (e.1 = key))).map Prod.snd := by
    intro post
    induction post with
    | nil => intro pre _; rfl
    | cons e post ih =>
      intro pre hes
      rw [List.length_cons, sn_map_get_from]
      have hget : es.get? pre.length = some e := by
        rw [hes, List.get?_eq_getElem?, List.getElem?_append_right (Nat.le_refl _)]
        simp
      simp only [Option.bind_eq_bind, sn_table_load_key, sn_table_load_value, hget,
        Option.map_some', Option.some_bind]
      by_cases hk : e.1 = key
      · simp [hk]
      · have := ih (pre ++ [e]) (by rw [hes]; simp)
        simp only [List.length_append, List.length_singleton] at this
        rw [if_neg hk, this, List.find?_cons_of_neg _ (by simpa using hk)]
  have := key_lemma es [] rfl
  simpa [sn_map_get, sn_table] using this

/-- The function `sn_map_get_all` returns the values of the entries with the key, in
insertion order. -/
theorem sn_map_get_all_table {α : Type} (capacity : Nat) (es : List (Nat × sn_mda α))
    (key : Nat) :
    sn_map_get_all (sn_table capacity es) key
      = some (((es.filter (fun e => decide (e.1 = key))).map Prod.snd).map some) := by
  unfold sn_map_get_all
  have hc : (sn_table capacity es).count = es.length := rfl
  simp only [Option.bind_eq_bind, Option.pure_def, hc, sn_table_load_key, sn_table_load_value]
  have hcount : ∀ i, i ≤ es.length →
      sn_for i (fun i count => (Option.map Prod.fst (es.get? i)).bind fun k =>
          if k = key then some (count + 1) else some count) 0
        = some ((es.take i).filter (fun e => decide (e.1 = key))).length := by
    intro i hi
    induction i with
    | zero => rfl
    | succ i ih =>
      rw [sn_for_succ, ih (by omega), List.take_succ]
      have hlt : i < es.length := by omega
      simp only [Option.some_bind, List.get?_eq_getElem?, List.getElem?_eq_getElem hlt,
        Option.map_some', List.filter_append, List.length_append, Option.toList]
      by_cases hk : es[i].1 = key <;> simp [hk, List.filter]
  have hfill : ∀ i, i ≤ es.length →
      sn_for i (fun i (vc : List (Option (sn_mda α)) × Nat) =>
          (Option.map Prod.fst (es.get? i)).bind fun k =>
            if k = key then
              (Option.map Prod.snd (es.get? i)).bind fun v =>
                (sn_store vc.1 vc.2 v).bind fun vs => some (vs, vc.2 + 1)
            else some vc)
        (SN_DYNAMIC_ARRAY (sn_mda α) (es.filter (fun e => decide (e.1 = key))).length, 0)
        = some ((((es.take i).filter (fun e => decide (e.1 = key))).map Prod.snd).map some
              ++ List.replicate ((es.filter (fun e => decide (e.1 = key))).length
                  - ((es.take i).filter (fun e => decide (e.1 = key))).length) none,
            ((es.take i).filter (fun e => decide (e.1 = key))).length) := by
    intro i hi
    induction i with
    | zero => simp [sn_for_zero, SN_DYNAMIC_ARRAY]
    | succ i ih =>
      rw [sn_for_succ, ih (by omega)]
      have hlt : i < es.length := by omega
      have hsub : ((es.take (i + 1)).filter (fun e => decide (e.1 = key))).length
          ≤ (es.filter (fun e => decide (e.1 = key))).length :=
        List.Sublist.length_le (List.Sublist.filter _ (List.take_sublist _ _))
      rw [List.take_succ] at hsub ⊢
      simp only [Option.some_bind, List.get?_eq_getElem?, List.getElem?_eq_getElem hlt,
        Option.map_some', List.filter_append, List.length_append, Option.toList,
        List.map_append] at hsub ⊢
      by_cases hk : es[i].1 = key
      · have hf : List.filter (fun e => decide (e.1 = key)) [es[i]] = [es[i]] := by
          simp [List.filter, hk]
        rw [hf] at hsub ⊢
        simp only [List.length_singleton] at hsub
        rw [if_pos hk, replicate_none_succ _ _ (by omega),
          sn_store_boundary _ _ _ _ _ (by simp)]
        simp [Nat.sub_add_eq]
      · have hf : List.filter (fun e => decide (e.1 = key)) [es[i]] = [] := by
          simp [List.filter, hk]
        rw [hf, if_neg hk]
        simp
  rw [hcount es.length (Nat.le_refl _), List.take_length]
  simp only [Option.some_bind]
  rw [hfill es.length (Nat.le_refl _), List.take_length]
  simp

/-- The function `sn_map_from` on as many pairs as slots. -/
theorem sn_map_from_table {α : Type} (fuel : Nat) (es : List (Nat × sn_mda α)) :
    sn_map_from (fuel + 1) es.length es = some (sn_table es.length es) := by
  unfold sn_map_from
  rw [sn_map_create_empty]
  simp only [Option.bind_eq_bind, Option.some_bind]
  have key : ∀ i, i ≤ es.length →
      sn_for i (fun i obj => (es.get? i).bind fun kv => sn_map_insert (fuel + 1) obj kv.1 kv.2)
        (sn_table es.length []) = some (sn_table es.length (es.take i)) := by
    intro i hi
    induction i with
    | zero => rfl
    | succ i ih =>
      have hlt : i < es.length := by omega
      rw [sn_for_succ, ih (by omega)]
      simp only [Option.some_bind, List.get?_eq_getElem?, List.getElem?_eq_getElem hlt]
      rw [sn_map_insert_free fuel _ _ _ _ (by simp; omega), List.take_succ,
        List.getElem?_eq_getElem hlt]
      rfl
  rw [key es.length (Nat.le_refl _), List.take_length]

/-- The function `sn_map_create` on one key and one value. -/
theorem sn_map_create_one {α : Type} (fuel : Nat) (key : Nat) (value : sn_mda α) :
    sn_map_create (fuel + 1) 1 (some [key]) (some [value]) = some (sn_table 1 [(key, value)]) := by
  rfl

/-! ## Evaluation and differentiation of placeholders -/

theorem op_flow_placeholder {α : Type} (fuel p : Nat) (feed : sn_map α) :
    op_flow_ fuel (sn_placeholder p) feed
      = (sn_map_get feed p).bind fun t => (sn_mda_copy t).bind fun y => some (y, feed) := by
  simp only [sn_placeholder, sn_op_create, op_flow_, Option.bind_eq_bind, Option.pure_def]

theorem op_dflow_placeholder {α : Type} [Zero α] [One α] [Add α] [Mul α] (fuel p : Nat)
    (feed : sn_map α) :
    op_dflow_ fuel (sn_placeholder p) feed
      = (sn_map_get feed p).bind fun feed_mda =>
          (sn_mda_diagonal_full feed_mda.rank feed_mda.shape (1 : α)).bind fun dy_dx =>
            (sn_map_create fuel 1 (some [p]) (some [dy_dx])).bind fun m => some (some m) := by
  simp only [sn_placeholder, sn_op_create, op_dflow_, Option.bind_eq_bind, Option.pure_def]

/-! ## Forward and derivative functions of `negative` and `add_and_sum` -/

/-- The forward function of an element-wise unary operator maps `FLOW` over the buffer. -/
theorem element_wise_unary_flow_tensor {α : Type} (FLOW : α → α) (ds : List Nat) (data : List α)
    (rest : List (Option (sn_mda α))) (hdata : data.length = ds.prod)
    (hsize : ds.prod < SN_UINT_MOD) :
    element_wise_unary_operator_flow_ FLOW (some (sn_tensor ds data) :: rest)
      = some (sn_tensor ds (data.map FLOW)) := by
  unfold element_wise_unary_operator_flow_
  have h0 : sn_load (some (sn_tensor ds data) :: rest) 0 = some (sn_tensor ds data) := rfl
  simp only [Option.bind_eq_bind, Option.pure_def, h0, Option.some_bind,
    sn_mda_create_tensor ds data hsize, sn_mda_size_tensor ds data hsize]
  rw [sn_for_copy_seq data FLOW ds.prod 0 _
    (by
      intro i p _
      simp [sn_tensor, sn_load_map_some])
    (by omega) _ (by simp)]
  simp [sn_tensor, ← hdata]

theorem diagonal_data_zero {α : Type} [Zero α] (p : Nat) :
    diagonal_data p (0 : α) = List.replicate (p * p) 0 := by
  unfold diagonal_data
  apply List.ext_getElem
  · simp
  · intro i h1 h2
    simp

/-- The derivative function of `negative` returns the diagonal tensor of `-1`. -/
theorem negative_dflow_tensor {α : Type} [Zero α] [One α] [Neg α] (ds : List Nat)
    (data : List α) (rest : List (Option (sn_mda α))) (hdata : data.length = ds.prod)
    (hside : ds.prod < SN_UINT_MOD) (hsize : ds.prod * ds.prod < SN_UINT_MOD) :
    negative_dflow_ (some (sn_tensor ds data) :: rest)
      = some (some [some (sn_tensor (ds ++ ds) (diagonal_data ds.prod (-1)))]) := by
  unfold negative_dflow_ element_wise_unary_operator_dflow_
  have h0 : sn_load (some (sn_tensor ds data) :: rest) 0 = some (sn_tensor ds data) := rfl
  simp only [Option.bind_eq_bind, Option.pure_def, h0, Option.some_bind,
    sn_mda_diagonal_full_tensor ds data 0 hside hsize, sn_mda_size_tensor ds data hside]
  have hptr : (sn_tensor (ds ++ ds) (diagonal_data ds.prod (0 : α))).ptr
      = (List.replicate (ds.prod * ds.prod) (0 : α)).map some := by
    rw [diagonal_data_zero]
    rfl
  rw [hptr, sn_for_store_diag ds.prod _ (fun _ => (-1 : α)) 0
    (by
      intro i buf hi
      rw [SN_MATRIX_GET_of_lt ds.prod ds.prod i i hi hi hsize]
      simp only [sn_tensor, sn_load_map_some]
      rw [get?_eq_some_getD data i (0 : α) (by omega)]
      rfl)]
  simp [sn_tensor, diagonal_data, SN_DYNAMIC_ARRAY, sn_store]

/-- The forward function of `add_and_sum` on two vectors of length `n`. -/
theorem add_and_sum_flow_tensor {α : Type} [Zero α] [Add α] (n : Nat) (a b : List α)
    (ha : a.length = n) (hb : b.length = n) (hn : n < SN_UINT_MOD) :
    add_and_sum_flow_ [some (sn_tensor [n] a), some (sn_tensor [n] b)]
      = some (sn_tensor []
          [(List.range n).foldl (fun y i => y + (a.getD i 0 + b.getD i 0)) 0]) := by
  unfold add_and_sum_flow_
  have hs : ∀ l : List α, sn_load_ptr (sn_tensor [n] l).shape 0 = some n :=
    fun l => tensor_shape_load [n] l 0 (by simp)
  have hr : ∀ l : List α, (sn_tensor [n] l).rank = 1 := fun _ => rfl
  simp only [Option.bind_eq_bind, Option.pure_def, (sn_load_pair _ _).1, (sn_load_pair _ _).2,
    Option.some_bind, hr, hs, and_self, not_true_eq_false, if_false,
    (fun l : List α => sn_mda_size_tensor [n] l (by rw [List.prod_singleton]; exact hn)),
    List.prod_singleton]
  rw [sn_for_eq_foldl n _ (fun i y => y + (a.getD i 0 + b.getD i 0)) 0
    (by
      intro i y hi
      simp only [sn_tensor, sn_load_map_some]
      rw [get?_eq_some_getD a i 0 (by omega), get?_eq_some_getD b i 0 (by omega)]
      rfl)]
  simp only [Option.some_bind, sn_mda_full_null]

/-- The derivative function of `add_and_sum` returns two vectors of ones. -/
theorem add_and_sum_dflow_tensor {α : Type} [One α] (n : Nat) (a : List α)
    (rest : List (Option (sn_mda α))) (hn : n < SN_UINT_MOD) :
    add_and_sum_dflow_ (some (sn_tensor [n] a) :: rest)
      = some (some [some (sn_tensor [n] (List.replicate n 1)),
          some (sn_tensor [n] (List.replicate n 1))]) := by
  unfold add_and_sum_dflow_
  have h0 : sn_load (some (sn_tensor [n] a) :: rest) 0 = some (sn_tensor [n] a) := rfl
  have hf : sn_mda_full 1 (sn_tensor [n] a).shape (1 : α)
      = some (sn_tensor [n] (List.replicate n 1)) := by
    have := sn_mda_full_cells [n] [] (1 : α) (by rw [List.prod_singleton]; exact hn)
    simpa [sn_tensor] using this
  simp only [Option.bind_eq_bind, Option.pure_def, h0, Option.some_bind, hf]
  rfl

/-! ## `sn_mda_get_offset_` -/

/-- A descending loop whose body is one Horner step over `dims` and `index`, taken
modulo `2^64`. -/
theorem sn_for_down_horner (dims index : List Nat) (body : Nat → Nat → Option Nat) (i : Nat)
    (hi : i < dims.length)
    (hbody : ∀ j offset, j < i → body (j + 1) offset
      = some (sn_umul (sn_uadd offset (index.getD (j + 1) 0)) (dims.getD j 0)))
    (offset : Nat) (hoff : offset < SN_UINT_MOD) :
    sn_for_down body i offset
      = some ((offset * (dims.take i).prod
          + ∑ t in Finset.range i, index.getD (t + 1) 0 * (dims.take (t + 1)).prod)
            % SN_UINT_MOD) := by
  induction i generalizing offset with
  | zero =>
    simp only [sn_for_down, List.take_zero, List.prod_nil, Nat.mul_one, Finset.range_zero,
      Finset.sum_empty, Nat.add_zero]
    rw [Nat.mod_eq_of_lt hoff]
  | succ i ih =>
    have h1 : i < dims.length := by omega
    rw [sn_for_down, hbody i offset (Nat.lt_succ_self i)]
    simp only []
    rw [ih h1 (fun j o hj => hbody j o (Nat.lt_succ_of_lt hj)) _
      (show sn_umul _ _ < SN_UINT_MOD from Nat.mod_lt _ SN_UINT_MOD_pos), Finset.sum_range_succ,
      List.prod_take_succ dims i h1, List.getD_eq_getElem dims 0 h1]
    congr 1
    have key : Nat.ModEq SN_UINT_MOD (sn_umul (sn_uadd offset (index.getD (i + 1) 0)) dims[i])
        ((offset + index.getD (i + 1) 0) * dims[i]) :=
      (Nat.mod_modEq _ _).trans ((Nat.mod_modEq _ _).mul_right _)
    have h2 := (key.mul_right (dims.take i).prod).add_right
      (∑ t in Finset.range i, index.getD (t + 1) 0 * (dims.take (t + 1)).prod)
    unfold Nat.ModEq at h2
    rw [h2]
    congr 1
    ring

/-- The column-major offset of an index inside the shape is below the number of
elements. -/
theorem column_major_offset_lt (dims index : List Nat)
    (hidx : ∀ i, i < dims.length → index.getD i 0 < dims.getD i 0) :
    column_major_offset dims index < dims.prod := by
  induction dims using List.reverseRecOn with
  | nil => simp [column_major_offset]
  | append_singleton ds d ih =>
    have hih := ih (fun i hi => by
      have := hidx i (by simp; omega)
      rwa [List.getD_append _ _ _ _ hi] at this)
    have hlast := hidx ds.length (by simp)
    rw [List.getD_append_right _ _ _ _ (Nat.le_refl _), Nat.sub_self] at hlast
    simp only [List.getD_cons_zero] at hlast
    unfold column_major_offset at hih ⊢
    rw [List.length_append, List.length_singleton, Finset.sum_range_succ, List.prod_append,
      List.prod_singleton]
    have e : ∀ i ∈ Finset.range ds.length,
        index.getD i 0 * ((ds ++ [d]).take i).prod = index.getD i 0 * (ds.take i).prod := by
      intro i hi
      rw [List.take_append_of_le_length (Nat.le_of_lt (Finset.mem_range.mp hi))]
    rw [Finset.sum_congr rfl e, List.take_left]
    calc _ < ds.prod + index.getD ds.length 0 * ds.prod := by omega
      _ = (index.getD ds.length 0 + 1) * ds.prod := by ring
      _ ≤ d * ds.prod := Nat.mul_le_mul_right _ hlast
      _ = ds.prod * d := Nat.mul_comm _ _

/-- The offset computed by `sn_mda_get_offset_` for an index inside the shape of a
tensor of rank at least 1 is the column-major offset modulo `2^64`. -/
theorem get_offset_column_major_mod {α : Type} (self : sn_mda α) (dims index : List Nat)
    (hrank : self.rank = dims.length) (hshape : self.shape = some (dims.map some))
    (hr : 1 ≤ self.rank)
    (hlen : dims.length ≤ index.length)
    (hidx : ∀ i, i < dims.length → index.getD i 0 < dims.getD i 0) :
    sn_mda_get_offset_ self index = some (column_major_offset dims index % SN_UINT_MOD) := by
  unfold sn_mda_get_offset_
  have hcheck : sn_for self.rank (fun i (u : Unit) => do
      let a ← index.get? i
      let d ← sn_load_ptr self.shape i
      if a < d then pure u else none) () = some () := by
    rw [sn_for_eq_foldl self.rank _ (fun _ u => u)]
    intro i u hi
    have h1 : i < dims.length := by omega
    have h2 : i < index.length := by omega
    have hx := hidx i h1
    simp only [List.getD_eq_getElem?_getD, List.getElem?_eq_getElem h1,
      List.getElem?_eq_getElem h2, Option.getD_some] at hx
    simp [hshape, sn_load_ptr, sn_load_map_some, List.getElem?_eq_getElem h1,
      List.getElem?_eq_getElem h2, hx]
  have hdown := sn_for_down_horner dims index (fun i offset => do
      let a ← index.get? i
      let d ← sn_load_ptr self.shape (i - 1)
      pure (sn_umul (sn_uadd offset a) d)) (self.rank - 1) (by omega)
    (by
      intro j offset hj
      have h1 : j < dims.length := by omega
      have h2 : j + 1 < index.length := by omega
      simp [hshape, sn_load_ptr, sn_load_map_some, List.getElem?_eq_getElem h1,
        List.getElem?_eq_getElem h2]) 0 SN_UINT_MOD_pos
  rw [hcheck, sn_usub_of_le _ _ hr, hdown, get?_eq_some_getD index 0 0 (by omega)]
  simp only [Option.some_bind, Option.bind_eq_bind, Option.pure_def, Option.some.injEq]
  unfold column_major_offset sn_uadd
  have hd : dims.length = (self.rank - 1) + 1 := by omega
  rw [hd, Finset.sum_range_succ' _ (self.rank - 1), Nat.mod_add_mod]
  simp

/-- The offset computed by `sn_mda_get_offset_` for an index inside the shape of a
tensor of rank at least 1 and fewer than `2^64` elements. -/
theorem get_offset_column_major {α : Type} (self : sn_mda α) (dims index : List Nat)
    (hrank : self.rank = dims.length) (hshape : self.shape = some (dims.map some))
    (hr : 1 ≤ self.rank)
    (hlen : dims.length ≤ index.length)
    (hidx : ∀ i, i < dims.length → index.getD i 0 < dims.getD i 0)
    (hsize : dims.prod < SN_UINT_MOD) :
    sn_mda_get_offset_ self index = some (column_major_offset dims index) := by
  rw [get_offset_column_major_mod self dims index hrank hshape hr hlen hidx,
    Nat.mod_eq_of_lt (lt_trans (column_major_offset_lt dims index hidx) hsize)]

theorem sn_dot_eq_sum {α : Type} [Semiring α] (c : Nat) (u v : Nat → α) :
    sn_dot c u v = ∑ k in Finset.range c, u k * v k := by
  unfold sn_dot
  induction c with
  | zero => simp
  | succ c ih => rw [List.range_succ, List.foldl_append, ih, Finset.sum_range_succ]; rfl

/-- Contracting the last extents `c` of a tensor with the diagonal tensor of `v` over
`c` multiplies every element by `v`. -/
theorem gmatmul_diagonal {α : Type} [Semiring α] (f c : List Nat) (a : List α) (v : α)
    (ha : a.length = f.prod * c.prod)
    (hx0 : f.prod * c.prod < SN_UINT_MOD) (hx1 : c.prod * c.prod < SN_UINT_MOD) :
    sn_mda_gmatmul (sn_tensor (f ++ c) a) (sn_tensor (c ++ c) (diagonal_data c.prod v)) c.length
      = some (sn_tensor (f ++ c) (a.map (fun u => u * v))) := by
  rw [sn_mda_gmatmul_tensor f c c a (diagonal_data c.prod v) ha (by simp [diagonal_data])
    hx0 hx1 hx0]
  congr 2
  apply List.ext_getElem
  · simp [matrix_product_data, ha]
  · intro q h1 h2
    have hq : q < f.prod * c.prod := by simpa [matrix_product_data] using h1
    have hf : 0 < f.prod := by
      rcases Nat.eq_zero_or_pos f.prod with h | h
      · rw [h, Nat.zero_mul] at hq
        omega
      · exact h
    have hj : q / f.prod < c.prod := Nat.div_lt_of_lt_mul hq
    have hqa : q < a.length := by omega
    simp only [matrix_product_data, List.getElem_map, List.getElem_range]
    rw [sn_dot_eq_sum]
    rw [Finset.sum_congr rfl (fun k hk => by
      rw [List.getD_eq_getElem?_getD (diagonal_data c.prod v), ← List.get?_eq_getElem?,
        diagonal_data_get c.prod v k (q / f.prod) (Finset.mem_range.mp hk) hj])]
    simp only [Option.getD_some, mul_ite, mul_zero]
    rw [Finset.sum_ite_eq' (Finset.range c.prod) (q / f.prod), if_pos (Finset.mem_range.mpr hj)]
    have hqq : q % f.prod + q / f.prod * f.prod = q := by
      rw [Nat.mul_comm]
      exact Nat.mod_add_div q f.prod
    rw [hqq, List.getD_eq_getElem a 0 hqa]

theorem negative_flow_tensor {α : Type} [Neg α] (ds : List Nat) (data : List α)
    (rest : List (Option (sn_mda α))) (hdata : data.length = ds.prod)
    (hsize : ds.prod < SN_UINT_MOD) :
    negative_flow_ (some (sn_tensor ds data) :: rest)
      = some (sn_tensor ds (data.map (fun v => -v))) :=
  element_wise_unary_flow_tensor _ ds data rest hdata hsize

theorem op_flow_operator {α : Type} (fuel addr : Nat) (flow : Option (sn_flow_fn α))
    (dflow : Option (sn_dflow_fn α)) (x : List (sn_op α)) (array : Option (sn_mda α))
    (feed : sn_map α) :
    op_flow_ fuel (.mk addr .OPERATOR flow dflow x array) feed
      = (op_flow_operands_ fuel addr x 0 (SN_DYNAMIC_ARRAY (sn_mda α) x.length) feed).bind
          fun r => flow.bind fun f => (f r.1).bind fun y => some (y, r.2) := by
  simp only [op_flow_, Option.bind_eq_bind, Option.pure_def]

theorem op_flow_operands_nil {α : Type} (fuel self i : Nat) (xs : List (Option (sn_mda α)))
    (feed : sn_map α) : op_flow_operands_ fuel self [] i xs feed = some (xs, feed) := by
  simp only [op_flow_operands_]

theorem op_flow_operands_cons {α : Type} (fuel self i : Nat) (xi : sn_op α)
    (rest : List (sn_op α)) (xs : List (Option (sn_mda α))) (feed : sn_map α) :
    op_flow_operands_ fuel self (xi :: rest) i xs feed
      = (op_flow_ fuel xi feed).bind fun r =>
          (sn_store xs i r.1).bind fun xs =>
            (sn_map_insert fuel r.2 self r.1).bind fun feed =>
              op_flow_operands_ fuel self rest (i + 1) xs feed := by
  simp only [op_flow_operands_, Option.bind_eq_bind]

theorem op_dflow_operator {α : Type} [Zero α] [One α] [Add α] [Mul α] (fuel addr : Nat)
    (flow : Option (sn_flow_fn α)) (dflow : Option (sn_dflow_fn α)) (x : List (sn_op α))
    (array : Option (sn_mda α)) (feed : sn_map α) :
    op_dflow_ fuel (.mk addr .OPERATOR flow dflow x array) feed
      = (op_dflow_operands_ fuel feed x 0 (SN_DYNAMIC_ARRAY (sn_map α) x.length) 0).bind fun r =>
          (sn_map_get_all feed addr).bind fun xs =>
            dflow.bind fun df =>
              (df xs).bind fun dy_dm_list =>
                (sn_map_create fuel r.2 none none).bind fun dy_dx_map =>
                  (sn_for x.length (fun i m =>
                      (sn_load r.1 i).bind fun dm =>
                        sn_for dm.count (fun j m =>
                          (sn_load dm.keys j).bind fun key =>
                            (sn_load_ptr dy_dm_list i).bind fun dy_dm =>
                              (sn_load dm.values j).bind fun dm_dx =>
                                (sn_load xs i).bind fun xi =>
                                  (sn_mda_gmatmul dy_dm dm_dx xi.rank).bind fun v =>
                                    sn_map_insert fuel m key v) m) dy_dx_map).bind fun dy_dx_map =>
                    (sn_for x.length (fun i (u : Unit) =>
                        (sn_load_ptr dy_dm_list i).bind fun _ => some u) ()).bind fun _ =>
                      some (some dy_dx_map) := by
  simp only [op_dflow_, Option.bind_eq_bind, Option.pure_def]

theorem op_dflow_operands_nil {α : Type} [Zero α] [One α] [Add α] [Mul α] (fuel i : Nat)
    (feed : sn_map α) (maps : List (Option (sn_map α))) (capacity : Nat) :
    op_dflow_operands_ fuel feed [] i maps capacity = some (maps, capacity) := by
  simp only [op_dflow_operands_]

theorem op_dflow_operands_cons {α : Type} [Zero α] [One α] [Add α] [Mul α] (fuel i : Nat)
    (feed : sn_map α) (xi : sn_op α) (rest : List (sn_op α)) (maps : List (Option (sn_map α)))
    (capacity : Nat) :
    op_dflow_operands_ fuel feed (xi :: rest) i maps capacity
      = (op_dflow_ fuel xi feed).bind fun dm_dx =>
          dm_dx.bind fun dm =>
            (sn_store maps i dm).bind fun maps =>
              op_dflow_operands_ fuel feed rest (i + 1) maps (capacity + dm.count) := by
  simp only [op_dflow_operands_, Option.bind_eq_bind]

theorem sn_load_cons_zero {β : Type} (v : β) (l : List (Option β)) :
    sn_load (some v :: l) 0 = some v := rfl

theorem sn_load_cons_succ {β : Type} (c : Option β) (l : List (Option β)) (i : Nat) :
    sn_load (c :: l) (i + 1) = sn_load l i := rfl

theorem sn_load_ptr_some {β : Type} (cells : List (Option β)) (i : Nat) :
    sn_load_ptr (some cells) i = sn_load cells i := rfl

theorem sn_table_count {α : Type} (capacity : Nat) (es : List (Nat × sn_mda α)) :
    (sn_table capacity es).count = es.length := rfl

theorem sn_tensor_rank {α : Type} (ds : List Nat) (data : List α) :
    (sn_tensor ds data).rank = ds.length := rfl

theorem foldl_add_eq_sum {α : Type} [AddCommMonoid α] (n : Nat) (g : Nat → α) :
    (List.range n).foldl (fun y i => y + g i) 0 = ∑ i in Finset.range n, g i := by
  induction n with
  | zero => simp
  | succ n ih => rw [List.range_succ, List.foldl_append, ih, Finset.sum_range_succ]; rfl

/-- Forward pass over `sn_negative (add_and_sum x0 x1)`: the result and the table it
leaves behind. -/
theorem op_flow_negative_add_and_sum {α : Type} [Zero α] [One α] [Add α] [Neg α]
    (fuel p0 p1 A N n : Nat)
    (a b : List α) (ha : a.length = n) (hb : b.length = n) (h01 : p0 ≠ p1)
    (hn : n < SN_UINT_MOD) :
    op_flow_ (fuel + 2)
        (sn_negative N (add_and_sum A (sn_placeholder p0) (sn_placeholder p1)))
        (sn_table 2 [(p0, sn_tensor [n] a), (p1, sn_tensor [n] b)])
      = some (sn_tensor []
            [-((List.range n).foldl (fun y i => y + (a.getD i 0 + b.getD i 0)) 0)],
          sn_table 8 [(p0, sn_tensor [n] a), (p1, sn_tensor [n] b), (A, sn_tensor [n] a),
            (A, sn_tensor [n] b),
            (N, sn_tensor []
              [(List.range n).foldl (fun y i => y + (a.getD i 0 + b.getD i 0)) 0])]) := by
  have hca := sn_mda_copy_tensor [n] a (by simpa using ha) (prod_singleton_lt n hn)
  have hcb := sn_mda_copy_tensor [n] b (by simpa using hb) (prod_singleton_lt n hn)
  have hi1 := sn_map_insert_full fuel 2 [(p0, sn_tensor [n] a), (p1, sn_tensor [n] b)] A
    (sn_tensor [n] a) rfl (by omega)
  have hi2 := sn_map_insert_free (fuel + 1) 4
    [(p0, sn_tensor [n] a), (p1, sn_tensor [n] b), (A, sn_tensor [n] a)] A
    (sn_tensor [n] b) (by simp)
  have hi3 := sn_map_insert_full fuel 4
    [(p0, sn_tensor [n] a), (p1, sn_tensor [n] b), (A, sn_tensor [n] a), (A, sn_tensor [n] b)] N
    (sn_tensor [] [(List.range n).foldl (fun y i => y + (a.getD i 0 + b.getD i 0)) 0])
    rfl (by omega)
  have hneg := negative_flow_tensor []
    [(List.range n).foldl (fun y i => y + (a.getD i 0 + b.getD i 0)) 0] [] rfl prod_nil_lt
  simp only [List.singleton_append, List.cons_append, List.nil_append, Nat.reduceAdd] at hi1 hi2 hi3
  simp only [sn_negative, add_and_sum, sn_op_create, op_flow_operator, op_flow_operands_cons,
    op_flow_operands_nil,
    op_flow_placeholder, sn_map_get_table, Option.bind_eq_bind, Option.pure_def, Option.some_bind,
    List.find?, h01, decide_True, decide_False, Option.map_some', hca, hcb, SN_DYNAMIC_ARRAY,
    List.length_cons, List.length_nil, List.replicate, sn_store, List.length_singleton,
    Nat.lt_add_one, if_true, List.set_cons_zero, hi1, hi2, hi3, Nat.reduceAdd, Nat.reduceLT,
    List.set_cons_succ, add_and_sum_flow_tensor n a b ha hb hn,
    hneg, List.map_cons, List.map_nil, decide_eq_true_eq, ne_eq,
    not_false_eq_true]

theorem sn_for_one {σ : Type} (body : Nat → σ → Option σ) (s : σ) :
    sn_for 1 body s = body 0 s := by
  rw [sn_for_succ, sn_for_zero, Option.some_bind]

theorem sn_for_two {σ : Type} (body : Nat → σ → Option σ) (s : σ) :
    sn_for 2 body s = (body 0 s).bind (body 1) := by
  rw [sn_for_succ, sn_for_one]

/-- Forward pass over `add_and_sum (sn_negative x) (sn_negative x)`: the result and the
table it leaves behind. -/
theorem op_flow_add_and_sum_negative {α : Type} [Ring α] (fuel x N1 N2 A n : Nat)
    (a : List α) (ha : a.length = n) (hn : n < SN_UINT_MOD) :
    op_flow_ (fuel + 2)
        (add_and_sum A (sn_negative N1 (sn_placeholder x)) (sn_negative N2 (sn_placeholder x)))
        (sn_table 1 [(x, sn_tensor [n] a)])
      = some (sn_tensor []
            [(List.range n).foldl (fun y i =>
              y + ((a.map (fun v => -v)).getD i 0 + (a.map (fun v => -v)).getD i 0)) 0],
          sn_table 8 [(x, sn_tensor [n] a), (N1, sn_tensor [n] a),
            (A, sn_tensor [n] (a.map (fun v => -v))), (N2, sn_tensor [n] a),
            (A, sn_tensor [n] (a.map (fun v => -v)))]) := by
  have hca := sn_mda_copy_tensor [n] a (by simpa using ha) (prod_singleton_lt n hn)
  have hi1 := sn_map_insert_full fuel 1 [(x, sn_tensor [n] a)] N1 (sn_tensor [n] a) rfl (by omega)
  have hi2 := sn_map_insert_full fuel 2 [(x, sn_tensor [n] a), (N1, sn_tensor [n] a)] A
    (sn_tensor [n] (a.map (fun v => -v))) rfl (by omega)
  have hi3 := sn_map_insert_free (fuel + 1) 4
    [(x, sn_tensor [n] a), (N1, sn_tensor [n] a), (A, sn_tensor [n] (a.map (fun v => -v)))] N2
    (sn_tensor [n] a) (by simp)
  have hi4 := sn_map_insert_full fuel 4
    [(x, sn_tensor [n] a), (N1, sn_tensor [n] a), (A, sn_tensor [n] (a.map (fun v => -v))),
      (N2, sn_tensor [n] a)] A (sn_tensor [n] (a.map (fun v => -v))) rfl (by omega)
  have hneg := negative_flow_tensor [n] a [] (by simpa using ha) (prod_singleton_lt n hn)
  have hsum := add_and_sum_flow_tensor n (a.map (fun v => -v)) (a.map (fun v => -v))
    (by simpa using ha) (by simpa using ha) hn
  simp only [List.singleton_append, List.cons_append, List.nil_append, Nat.reduceAdd,
    Nat.add_assoc] at hi1 hi2 hi3 hi4
  simp only [sn_negative, add_and_sum, sn_op_create, op_flow_operator, op_flow_operands_cons,
    op_flow_operands_nil,
    op_flow_placeholder, sn_map_get_table, Option.bind_eq_bind, Option.pure_def, Option.some_bind,
    List.find?, decide_True, decide_False, Option.map_some', hca, SN_DYNAMIC_ARRAY,
    List.length_cons, List.length_nil, List.replicate_succ, List.replicate_zero, sn_store,
    List.length_singleton,
    Nat.lt_add_one, if_true, List.set_cons_zero, hi1, hi2, hi3, hi4, Nat.reduceAdd, Nat.reduceLT,
    List.set_cons_succ, hneg, hsum, decide_eq_true_eq, Nat.zero_add]

/-- Reverse pass over `add_and_sum (sn_negative x) (sn_negative x)` on the table the
forward pass left behind. -/
theorem op_dflow_add_and_sum_negative {α : Type} [Ring α] (fuel x N1 N2 A n : Nat)
    (a : List α) (ha : a.length = n) (hx1 : x ≠ N1) (hx2 : x ≠ N2) (hxA : x ≠ A)
    (h12 : N1 ≠ N2) (h1A : N1 ≠ A) (h2A : N2 ≠ A) (hnn : n * n < SN_UINT_MOD) :
    op_dflow_ (fuel + 2)
        (add_and_sum A (sn_negative N1 (sn_placeholder x)) (sn_negative N2 (sn_placeholder x)))
        (sn_table 8 [(x, sn_tensor [n] a), (N1, sn_tensor [n] a),
            (A, sn_tensor [n] (a.map (fun v => -v))), (N2, sn_tensor [n] a),
            (A, sn_tensor [n] (a.map (fun v => -v)))])
      = some (some (sn_table 2 [(x, sn_tensor [n] (List.replicate n (-1))),
          (x, sn_tensor [n] (List.replicate n (-1)))])) := by
  have hn : n < SN_UINT_MOD := lt_of_mul_self_lt n hnn
  have h1n : ([] : List Nat).prod * [n].prod < SN_UINT_MOD := by
    rw [List.prod_nil, List.prod_singleton, Nat.one_mul]
    exact hn
  have hnn1 : [n].prod * [n].prod < SN_UINT_MOD := by
    rw [List.prod_singleton]
    exact hnn
  have hdflow : ∀ (l : List α) (rest : List (Option (sn_mda α))),
      add_and_sum_dflow_ (some (sn_tensor [n] l) :: rest)
        = some (some [some (sn_tensor [n] (List.replicate n 1)),
            some (sn_tensor [n] (List.replicate n 1))]) :=
    fun l rest => add_and_sum_dflow_tensor n l rest hn
  have hd0 := sn_mda_diagonal_full_tensor [n] a (1 : α) (prod_singleton_lt n hn) hnn1
  have hnd := negative_dflow_tensor (α := α) [n] a [] (by simpa using ha)
    (prod_singleton_lt n hn) hnn1
  have hg1 := gmatmul_diagonal [n] [n] (diagonal_data n (-1 : α)) 1 (by simp [diagonal_data])
    hnn1 hnn1
  have hg2 := gmatmul_diagonal [] [n] (List.replicate n (1 : α)) (-1) (by simp)
    h1n hnn1
  have hi1 := sn_map_insert_free (fuel + 1) 1 ([] : List (Nat × sn_mda α)) x
    (sn_tensor [n, n] (diagonal_data n (-1 : α))) (by simp)
  have hi3 := sn_map_insert_free (fuel + 1) 2 ([] : List (Nat × sn_mda α)) x
    (sn_tensor [n] (List.replicate n (-1 : α))) (by simp)
  have hi4 := sn_map_insert_free (fuel + 1) 2 [(x, sn_tensor [n] (List.replicate n (-1 : α)))] x
    (sn_tensor [n] (List.replicate n (-1 : α))) (by simp)
  simp only [List.nil_append, List.singleton_append, List.cons_append, List.prod_singleton,
    List.prod_nil, List.length_singleton, List.length_nil, List.map_replicate, mul_one,
    List.append_nil, Nat.mul_one, Nat.reduceAdd, one_mul, neg_mul, sn_tensor_rank, Nat.add_assoc,
    List.map_id'] at hd0 hnd hg1 hg2 hi1 hi3 hi4
  simp only [sn_negative, add_and_sum, sn_op_create, op_dflow_operator, op_dflow_operands_cons,
    op_dflow_operands_nil, op_dflow_placeholder, sn_map_get_table, sn_map_get_all_table,
    Option.bind_eq_bind, Option.pure_def, Option.some_bind, List.find?, List.filter,
    hx1, hx2, hxA, h12, h1A, h2A, Ne.symm hx1, Ne.symm hx2, Ne.symm hxA, Ne.symm h12,
    Ne.symm h1A, Ne.symm h2A,
    decide_True, decide_False, Option.map_some', SN_DYNAMIC_ARRAY,
    List.length_cons, List.length_nil, List.replicate_succ, List.replicate_zero, sn_store,
    List.length_singleton,
    Nat.lt_add_one, if_true, List.set_cons_zero, Nat.reduceAdd, Nat.reduceLT,
    List.set_cons_succ, List.map_cons, List.map_nil, decide_eq_true_eq, ne_eq,
    not_false_eq_true, hd0, sn_map_create_one, sn_map_create_empty, sn_for_one, sn_for_two,
    sn_load_cons_zero, sn_load_cons_succ, sn_load_ptr_some, sn_table_count, sn_tensor_rank,
    sn_table_load_key, sn_table_load_value, List.get?_cons_zero, List.get?_cons_succ,
    hdflow, hnd, hg1, hg2, hi1, hi3, hi4, Nat.zero_add]

/-! ## Node memory -/

theorem sn_load_lt {β : Type} (buf : List (Option β)) (p : Nat) (v : β)
    (h : sn_load buf p = some v) : p < buf.length := by
  unfold sn_load at h
  by_contra hlt
  rw [List.get?_eq_none.mpr (by omega)] at h
  simp at h

theorem sn_load_set {β : Type} (buf : List (Option β)) (p q : Nat) (v : β) :
    sn_load (buf.set p (some v)) q
      = if p = q ∧ p < buf.length then some v else sn_load buf q := by
  unfold sn_load
  simp only [List.get?_eq_getElem?, List.getElem?_set]
  by_cases hpq : p = q
  · subst hpq
    by_cases hp : p < buf.length
    · simp [hp]
    · simp [hp, List.getElem?_eq_none (Nat.le_of_not_lt hp)]
  · simp [hpq]

theorem sn_load_append_left {β : Type} (l1 l2 : List (Option β)) (q : Nat) (h : q < l1.length) :
    sn_load (l1 ++ l2) q = sn_load l1 q := by
  unfold sn_load
  rw [List.get?_eq_getElem?, List.get?_eq_getElem?, List.getElem?_append_left h]

theorem sn_load_append_length {β : Type} (l1 : List (Option β)) (c : Option β) :
    sn_load (l1 ++ [c]) l1.length = c := by
  unfold sn_load
  rw [List.get?_eq_getElem?, List.getElem?_append_right (Nat.le_refl _)]
  cases c <;> simp

/-- The function `sn_op_create` on live operands: the new node has reference count 1 and
the operand pointers in its cells; every older block is as before except that its
reference count has grown by the number of times it occurs among the operands. -/
theorem sn_op_create_ptr_counts {φ : Type} (heap : sn_heap φ) (type : sn_op_type)
    (flow dflow : Option φ) (xs : List Nat)
    (hlive : ∀ xi ∈ xs, ∃ node, sn_load heap.ops xi = some node) :
    ∃ heap', sn_op_create_ptr heap type flow dflow xs.length (some xs)
        = some (heap', heap.ops.length)
      ∧ heap'.freed = heap.freed ∧ heap'.freed_mda = heap.freed_mda
      ∧ heap'.ops.length = heap.ops.length + 1
      ∧ (∀ q, q < heap.ops.length → sn_load heap'.ops q
          = (sn_load heap.ops q).map fun t => { t with ref_count := t.ref_count + xs.count q })
      ∧ sn_load heap'.ops heap.ops.length
          = some { ref_count := 1, type := type, flow := flow, dflow := dflow,
                   x_count := xs.length, x := xs.map some, array := none, overwrap := none } := by
  unfold sn_op_create_ptr
  simp only [Option.bind_eq_bind, Option.pure_def]
  obtain ⟨h', hloop, hf1, hf2, hl, hq, hn⟩ := sn_for_inv
    (fun i (h : sn_heap φ) => h.freed = heap.freed ∧ h.freed_mda = heap.freed_mda
      ∧ h.ops.length = heap.ops.length + 1
      ∧ (∀ q, q < heap.ops.length → sn_load h.ops q
          = (sn_load heap.ops q).map fun t =>
              { t with ref_count := t.ref_count + (xs.take i).count q })
      ∧ sn_load h.ops heap.ops.length
          = some { ref_count := 1, type := type, flow := flow, dflow := dflow,
                   x_count := xs.length,
                   x := (xs.take i).map some ++ List.replicate (xs.length - i) none,
                   array := none, overwrap := none })
    xs.length
    (fun i (heap1 : sn_heap φ) =>
      (xs.get? i).bind fun xi =>
        (sn_load heap1.ops xi).bind fun t =>
          (sn_store heap1.ops xi { t with ref_count := t.ref_count + 1 }).bind fun ops =>
            (sn_load ops heap.ops.length).bind fun self =>
              (sn_store self.x i xi).bind fun cells =>
                (sn_store ops heap.ops.length { self with x := cells }).bind fun ops =>
                  some { heap1 with ops := ops })
    { heap with ops := heap.ops ++ [some ⟨1, type, flow, dflow, xs.length,
        SN_DYNAMIC_ARRAY Nat xs.length, none, none⟩] }
    (by
      refine ⟨rfl, rfl, by simp, ?_, ?_⟩
      · intro q hq
        simp only [List.take_zero, List.count_nil, Nat.add_zero]
        rw [sn_load_append_left _ _ _ hq]
        cases sn_load heap.ops q <;> rfl
      · simp only [sn_load_append_length, List.take_zero, List.map_nil, List.nil_append,
          Nat.sub_zero, SN_DYNAMIC_ARRAY])
    (by
      intro i h1 hi ⟨hf1, hf2, hl, hq, hn⟩
      have hget : xs.get? i = some (xs.get ⟨i, hi⟩) := List.get?_eq_get hi
      obtain ⟨t0, ht0⟩ := hlive (xs.get ⟨i, hi⟩) (List.get_mem xs i hi)
      have hxi : xs.get ⟨i, hi⟩ < heap.ops.length := sn_load_lt _ _ _ ht0
      have htake : xs.take (i + 1) = xs.take i ++ [xs.get ⟨i, hi⟩] := by
        rw [List.take_succ]
        simp [List.getElem?_eq_getElem hi]
      simp only [hget, Option.some_bind, hq _ hxi, ht0, Option.map_some', sn_store, hl,
        if_pos (Nat.lt_succ_of_lt hxi), sn_load_set, List.length_set,
        if_neg (show ¬ (xs.get ⟨i, hi⟩ = heap.ops.length ∧ xs.get ⟨i, hi⟩ < heap.ops.length + 1)
          from fun h => absurd h.1 (Nat.ne_of_lt hxi)), hn, List.length_append, List.length_map,
        List.length_take, List.length_replicate, Nat.min_eq_left (Nat.le_of_lt hi),
        if_pos (show i < i + (xs.length - i) by omega), if_pos (Nat.lt_succ_self _)]
      refine ⟨_, rfl, hf1, hf2, by simp [hl], ?_, ?_⟩
      · intro q hqlt
        simp only [sn_load_set, List.length_set, hl]
        rw [if_neg (fun h => absurd h.1 (Nat.ne_of_gt hqlt))]
        by_cases hqx : xs.get ⟨i, hi⟩ = q
        · subst hqx
          rw [if_pos ⟨rfl, Nat.lt_succ_of_lt hxi⟩, ht0, htake, List.count_append,
            List.count_singleton_self]
          simp only [Option.map_some', Nat.add_assoc]
        · have hc : List.count q [xs.get ⟨i, hi⟩] = 0 :=
            List.count_eq_zero.mpr (by simpa using fun h => hqx h.symm)
          rw [if_neg (fun h => hqx h.1), hq q hqlt, htake, List.count_append, hc, Nat.add_zero]
      · simp only [sn_load_set, List.length_set, hl, true_and, if_pos (Nat.lt_succ_self _)]
        rw [htake]
        have hrep : List.replicate (xs.length - i) (none : Option Nat)
            = none :: List.replicate (xs.length - (i + 1)) none :=
          replicate_none_succ xs.length i hi
        rw [hrep, List.set_append_right _ _ (by simp [Nat.min_eq_left (Nat.le_of_lt hi)])]
        simp only [List.length_map, List.length_take, Nat.min_eq_left (Nat.le_of_lt hi),
          Nat.sub_self, List.set_cons_zero, List.map_append, List.map_cons, List.map_nil,
          List.append_assoc, List.singleton_append])
  refine ⟨h', ?_, hf1, hf2, hl, ?_, ?_⟩
  · rw [hloop]; rfl
  · intro q hqlt
    rw [hq q hqlt, List.take_length]
  · rw [hn, List.take_length]
    simp

/-! ## The forward pass and the binding table -/

/-- The function `sn_map_insert` on a table with a slot or of capacity at least 1. -/
theorem sn_map_insert_table {α : Type} (fuel capacity : Nat) (es : List (Nat × sn_mda α))
    (key : Nat) (value : sn_mda α) (hlen : es.length ≤ capacity) (hcap : 1 ≤ capacity) :
    ∃ capacity', sn_map_insert (fuel + 2) (sn_table capacity es) key value
        = some (sn_table capacity' (es ++ [(key, value)]))
      ∧ (es ++ [(key, value)]).length ≤ capacity' ∧ 1 ≤ capacity' := by
  by_cases hfull : es.length < capacity
  · exact ⟨capacity, sn_map_insert_free (fuel + 1) capacity es key value hfull,
      by simp; omega, hcap⟩
  · exact ⟨capacity + capacity,
      sn_map_insert_full fuel capacity es key value (by omega) hcap, by simp; omega, by omega⟩

/-- Writing cell `i` and then the cells behind it. -/
theorem set_take_succ_drop {β : Type} (xs : List β) (i n : Nat) (a : β) (hi : i < xs.length)
    (vals : List β) :
    (xs.set i a).take (i + 1) ++ vals ++ (xs.set i a).drop (i + 1 + n)
      = xs.take i ++ a :: vals ++ xs.drop (i + (n + 1)) := by
  have h1 : (xs.set i a).take (i + 1) = xs.take i ++ [a] := by
    rw [List.take_succ, List.set_take, List.set_eq_of_length_le (by simp)]
    simp [hi]
  have h2 : (xs.set i a).drop (i + 1 + n) = xs.drop (i + (n + 1)) := by
    rw [List.drop_set_of_lt a xs (by omega)]
    congr 1
    omega
  rw [h1, h2]
  simp

mutual
/-- The forward pass only appends entries to the table, and their keys are addresses of
operators it visits. -/
theorem op_flow_frame {α : Type} (fuel : Nat) :
    ∀ (node : sn_op α) (cap : Nat) (es : List (Nat × sn_mda α)) (y : sn_mda α)
      (feed' : sn_map α), es.length ≤ cap → 1 ≤ cap →
      op_flow_ (fuel + 2) node (sn_table cap es) = some (y, feed') →
      ∃ cap' extra, feed' = sn_table cap' (es ++ extra) ∧ (es ++ extra).length ≤ cap'
        ∧ 1 ≤ cap' ∧ ∀ e ∈ extra, e.1 ∈ node.operators
  | .mk addr type flow dflow x array, cap, es, y, feed', hlen, hcap, h => by
    cases type with
    | CONSTANT =>
      simp only [op_flow_, Option.bind_eq_bind, Option.pure_def] at h
      cases array with
      | none => simp at h
      | some a =>
        simp only [Option.some_bind] at h
        cases hc : sn_mda_copy a with
        | none => rw [hc] at h; simp at h
        | some c =>
          rw [hc] at h
          simp only [Option.some_bind, Option.some.injEq, Prod.mk.injEq] at h
          exact ⟨cap, [], by rw [← h.2]; simp, by simpa using hlen, hcap, by simp⟩
    | PLACEHOLDER =>
      simp only [op_flow_, Option.bind_eq_bind, Option.pure_def] at h
      cases hg : sn_map_get (sn_table cap es) addr with
      | none => rw [hg] at h; simp at h
      | some t =>
        rw [hg] at h
        simp only [Option.some_bind] at h
        cases hc : sn_mda_copy t with
        | none => rw [hc] at h; simp at h
        | some c =>
          rw [hc] at h
          simp only [Option.some_bind, Option.some.injEq, Prod.mk.injEq] at h
          exact ⟨cap, [], by rw [← h.2]; simp, by simpa using hlen, hcap, by simp⟩
    | OPERATOR =>
      rw [op_flow_operator] at h
      cases hops : op_flow_operands_ (fuel + 2) addr x 0 (SN_DYNAMIC_ARRAY (sn_mda α) x.length)
          (sn_table cap es) with
      | none => rw [hops] at h; simp at h
      | some r =>
        rw [hops] at h
        simp only [Option.some_bind] at h
        cases flow with
        | none => simp at h
        | some f =>
          simp only [Option.some_bind] at h
          cases hf : f r.1 with
          | none => rw [hf] at h; simp at h
          | some y1 =>
            rw [hf] at h
            simp only [Option.some_bind, Option.some.injEq, Prod.mk.injEq] at h
            obtain ⟨cap', extra, h1, h2, h3, h4, _⟩ :=
              op_flow_operands_frame fuel x addr 0 (SN_DYNAMIC_ARRAY (sn_mda α) x.length) cap es
                r.1 r.2 hlen hcap (by simp [SN_DYNAMIC_ARRAY]) hops
            refine ⟨cap', extra, by rw [← h.2]; exact h1, h2, h3, ?_⟩
            intro e he
            simp only [sn_op.operators]
            rcases h4 e he with h5 | h5
            · rw [h5]; exact List.mem_cons_self _ _
            · exact List.mem_cons_of_mem _ h5
/-- The operand loop of the forward pass appends, in operand order, one entry per operand
under the key of the operator itself, between the entries that the operands append. -/
theorem op_flow_operands_frame {α : Type} (fuel : Nat) :
    ∀ (x : List (sn_op α)) (self i : Nat) (xs : List (Option (sn_mda α))) (cap : Nat)
      (es : List (Nat × sn_mda α)) (xs' : List (Option (sn_mda α))) (feed' : sn_map α),
      es.length ≤ cap → 1 ≤ cap → i + x.length ≤ xs.length →
      op_flow_operands_ (fuel + 2) self x i xs (sn_table cap es) = some (xs', feed') →
      ∃ cap' extra, feed' = sn_table cap' (es ++ extra) ∧ (es ++ extra).length ≤ cap'
        ∧ 1 ≤ cap' ∧ (∀ e ∈ extra, e.1 = self ∨ e.1 ∈ sn_op.operators_of x)
        ∧ ∃ vals : List (sn_mda α), vals.length = x.length
          ∧ xs' = xs.take i ++ vals.map some ++ xs.drop (i + x.length)
          ∧ (self ∉ sn_op.operators_of x →
              (extra.filter (fun e => decide (e.1 = self))).map Prod.snd = vals)
          ∧ ∀ j xj, x.get? j = some xj → ∃ v cap_j pre_j feed_j', vals.get? j = some v
              ∧ op_flow_ (fuel + 2) xj (sn_table cap_j (es ++ pre_j)) = some (v, feed_j')
  | [], self, i, xs, cap, es, xs', feed', hlen, hcap, hxs, h => by
    rw [op_flow_operands_nil] at h
    simp only [Option.some.injEq, Prod.mk.injEq] at h
    refine ⟨cap, [], by rw [← h.2]; simp, by simpa using hlen, hcap, by simp, [], rfl, ?_, ?_, ?_⟩
    · rw [← h.1]; simp
    · intro _; rfl
    · intro j xj hj; simp at hj
  | xi :: rest, self, i, xs, cap, es, xs', feed', hlen, hcap, hxs, h => by
    rw [op_flow_operands_cons] at h
    cases hxi : op_flow_ (fuel + 2) xi (sn_table cap es) with
    | none => rw [hxi] at h; simp at h
    | some r =>
      obtain ⟨v, feed1⟩ := r
      rw [hxi] at h
      simp only [Option.some_bind] at h
      obtain ⟨cap1, ex1, hf1, hl1, hc1, hk1⟩ := op_flow_frame fuel xi cap es v feed1 hlen hcap hxi
      subst hf1
      simp only [List.length_cons] at hxs
      have hi : i < xs.length := by omega
      simp only [sn_store, if_pos hi, Option.some_bind] at h
      obtain ⟨cap2, hins, hl2, hc2⟩ := sn_map_insert_table fuel cap1 (es ++ ex1) self v hl1 hc1
      rw [hins] at h
      simp only [Option.some_bind] at h
      obtain ⟨cap', ex2, hf, hl, hc, hk, vals, hv1, hv2, hv3, hv4⟩ :=
        op_flow_operands_frame fuel rest self (i + 1) (xs.set i (some v)) cap2
          (es ++ ex1 ++ [(self, v)]) xs' feed' hl2 hc2 (by simp; omega) h
      refine ⟨cap', ex1 ++ [(self, v)] ++ ex2, by rw [hf]; simp, by simpa using hl, hc, ?_,
        v :: vals, by simp [hv1], ?_, ?_, ?_⟩
      · intro e he
        simp only [List.mem_append, List.mem_singleton] at he
        simp only [sn_op.operators_of, List.mem_append]
        rcases he with (he | he) | he
        · exact Or.inr (Or.inl (hk1 e he))
        · left; rw [he]
        · rcases hk e he with h5 | h5
          · exact Or.inl h5
          · exact Or.inr (Or.inr h5)
      · rw [hv2, List.map_cons, List.length_cons]
        exact set_take_succ_drop xs i rest.length (some v) hi (vals.map some)
      · intro hself
        simp only [sn_op.operators_of, List.mem_append, not_or] at hself
        have h1 : ex1.filter (fun e => decide (e.1 = self)) = [] := by
          rw [List.filter_eq_nil_iff]
          intro e he
          have := hk1 e he
          simp only [decide_eq_true_eq]
          intro heq
          rw [heq] at this
          exact hself.1 this
        simp only [List.filter_append, h1, List.map_append, hv3 hself.2]
        simp [List.filter]
      · intro j xj hj
        cases j with
        | zero =>
          simp only [List.get?_cons_zero, Option.some.injEq] at hj
          subst hj
          exact ⟨v, cap, [], _, rfl, by simpa using hxi⟩
        | succ j =>
          simp only [List.get?_cons_succ] at hj
          obtain ⟨w, cj, pj, fj', hw1, hw2⟩ := hv4 j xj hj
          exact ⟨w, cj, ex1 ++ [(self, v)] ++ pj, fj', by simpa using hw1, by simpa using hw2⟩
end

/-! ## The reverse pass on constants and on `NULL` derivative lists -/

/-- The reverse pass on a `CONSTANT` returns the `NULL` table. -/
theorem op_dflow_constant {α : Type} [Zero α] [One α] [Add α] [Mul α] (fuel addr : Nat)
    (flow : Option (sn_flow_fn α)) (dflow : Option (sn_dflow_fn α)) (x : List (sn_op α))
    (array : Option (sn_mda α)) (feed : sn_map α) :
    op_dflow_ fuel (.mk addr .CONSTANT flow dflow x array) feed = some none := by
  simp only [op_dflow_]

theorem has_constant_operand_of_iff {α : Type} (x : List (sn_op α)) :
    sn_op.has_constant_operand_of x = true
      ↔ ∃ c ∈ x, c.type = .CONSTANT ∨ c.has_constant_operand = true := by
  induction x with
  | nil => simp [sn_op.has_constant_operand_of]
  | cons xi rest ih =>
    simp only [sn_op.has_constant_operand_of, Bool.or_eq_true, decide_eq_true_eq, ih,
      List.mem_cons, exists_eq_or_imp]

/-- An `OPERATOR` has a constant operand exactly when one of its operands is a `CONSTANT`
or has a constant operand. -/
theorem has_constant_operand_operator {α : Type} (addr : Nat) (flow : Option (sn_flow_fn α))
    (dflow : Option (sn_dflow_fn α)) (x : List (sn_op α)) (array : Option (sn_mda α)) :
    (sn_op.mk addr .OPERATOR flow dflow x array).has_constant_operand = true
      ↔ ∃ c ∈ x, c.type = .CONSTANT ∨ c.has_constant_operand = true := by
  rw [← has_constant_operand_of_iff]
  simp only [sn_op.has_constant_operand]

mutual
/-- The reverse pass faults on every node that has a constant operand. -/
theorem op_dflow_constant_operand {α : Type} [Zero α] [One α] [Add α] [Mul α] (fuel : Nat) :
    ∀ (node : sn_op α) (feed : sn_map α), node.has_constant_operand = true →
      op_dflow_ fuel node feed = none
  | .mk addr type flow dflow x array, feed, h => by
    cases type with
    | CONSTANT => simp [sn_op.has_constant_operand] at h
    | PLACEHOLDER => simp [sn_op.has_constant_operand] at h
    | OPERATOR =>
      simp only [sn_op.has_constant_operand] at h
      rw [op_dflow_operator, op_dflow_operands_constant_operand fuel x feed _ _ _ h]
      rfl
/-- The first operand loop of `op_dflow_` faults when an operand is a `CONSTANT`, whose
`NULL` table it reads `count` through, or has a constant operand. -/
theorem op_dflow_operands_constant_operand {α : Type} [Zero α] [One α] [Add α] [Mul α]
    (fuel : Nat) :
    ∀ (x : List (sn_op α)) (feed : sn_map α) (i : Nat) (maps : List (Option (sn_map α)))
      (capacity : Nat), sn_op.has_constant_operand_of x = true →
      op_dflow_operands_ fuel feed x i maps capacity = none
  | [], _, _, _, _, h => by simp [sn_op.has_constant_operand_of] at h
  | xi :: rest, feed, i, maps, capacity, h => by
    simp only [sn_op.has_constant_operand_of, Bool.or_eq_true, decide_eq_true_eq] at h
    rw [op_dflow_operands_cons]
    rcases h with (hc | hx) | hr
    · obtain ⟨addr, type, flow, dflow, x, array⟩ := xi
      simp only [sn_op.type] at hc
      subst hc
      rw [op_dflow_constant]
      rfl
    · rw [op_dflow_constant_operand fuel xi feed hx]
      rfl
    · cases op_dflow_ fuel xi feed with
      | none => rfl
      | some dm_dx =>
        cases dm_dx with
        | none => rfl
        | some dm =>
          simp only [Option.some_bind]
          cases sn_store maps i dm with
          | none => rfl
          | some maps1 =>
            simp only [Option.some_bind]
            exact op_dflow_operands_constant_operand fuel rest feed _ _ _ hr
end

/-- The reverse pass faults on an operator with at least one operand whose derivative
function returns `NULL`. -/
theorem op_dflow_null_list {α : Type} [Zero α] [One α] [Add α] [Mul α] (fuel addr : Nat)
    (flow : Option (sn_flow_fn α)) (df : sn_dflow_fn α) (xi : sn_op α) (rest : List (sn_op α))
    (array : Option (sn_mda α)) (feed : sn_map α) (hdf : ∀ xs, df xs = some none) :
    op_dflow_ fuel (.mk addr .OPERATOR flow (some df) (xi :: rest) array) feed = none := by
  rw [op_dflow_operator]
  cases op_dflow_operands_ fuel feed (xi :: rest) 0
      (SN_DYNAMIC_ARRAY (sn_map α) (xi :: rest).length) 0 with
  | none => rfl
  | some r =>
    simp only [Option.some_bind]
    cases sn_map_get_all feed addr with
    | none => rfl
    | some xs =>
      simp only [Option.some_bind, hdf]
      cases sn_map_create fuel r.2 none none with
      | none => rfl
      | some m =>
        simp only [Option.some_bind]
        cases sn_for (xi :: rest).length (fun i m =>
                (sn_load r.1 i).bind fun dm =>
                  sn_for dm.count (fun j m =>
                    (sn_load dm.keys j).bind fun key =>
                      (sn_load_ptr none i).bind fun dy_dm =>
                        (sn_load dm.values j).bind fun dm_dx =>
                          (sn_load xs i).bind fun xi =>
                            (sn_mda_gmatmul dy_dm dm_dx xi.rank).bind fun v =>
                              sn_map_insert fuel m key v) m) m with
        | none => rfl
        | some m1 =>
          simp only [Option.some_bind, List.length_cons, sn_for, sn_for_from, sn_load_ptr,
            Option.none_bind]

/-- The function `sn_op_dflow` faults when the reverse pass faults on every table. -/
theorem sn_op_dflow_of_op_dflow_none {α : Type} [Zero α] [One α] [Add α] [Mul α] (fuel : Nat)
    (self : sn_op α) (h : ∀ feed, op_dflow_ fuel self feed = none) (feed : sn_map α) :
    sn_op_dflow fuel self feed = none := by
  unfold sn_op_dflow
  cases op_flow_ fuel self feed with
  | none => rfl
  | some r => exact h r.2

/-! ## The operator `sum` -/

/-- The forward function of `sum` adds up the buffer from `0` in index order. -/
theorem sum_flow_tensor {α : Type} [Zero α] [Add α] (ds : List Nat) (data : List α)
    (rest : List (Option (sn_mda α))) (hdata : data.length = ds.prod)
    (hsize : ds.prod < SN_UINT_MOD) :
    sum_flow_ (some (sn_tensor ds data) :: rest)
      = some (sn_tensor [] [(List.range ds.prod).foldl (fun y i => y + data.getD i 0) 0]) := by
  unfold sum_flow_
  simp only [Option.bind_eq_bind, Option.pure_def, sn_load_cons_zero, Option.some_bind,
    sn_mda_size_tensor ds data hsize]
  rw [sn_for_eq_foldl ds.prod _ (fun i y => y + data.getD i 0) 0
    (by
      intro i y hi
      simp only [sn_tensor, sn_load_map_some]
      rw [get?_eq_some_getD data i 0 (by omega)]
      rfl)]
  simp only [Option.some_bind, sn_mda_full_null]

/-- The derivative function of `sum` on a tensor of rank at least 1 returns one tensor of
rank 1 over the first extent, filled with ones. -/
theorem sum_dflow_tensor {α : Type} [One α] (d0 : Nat) (ds : List Nat) (data : List α)
    (rest : List (Option (sn_mda α))) (hd0 : d0 < SN_UINT_MOD) :
    sum_dflow_ (some (sn_tensor (d0 :: ds) data) :: rest)
      = some (some [some (sn_tensor [d0] (List.replicate d0 1))]) := by
  unfold sum_dflow_
  have hf : sn_mda_full 1 (sn_tensor (d0 :: ds) data).shape (1 : α)
      = some (sn_tensor [d0] (List.replicate d0 1)) := by
    have := sn_mda_full_cells [d0] (ds.map some) (1 : α) (prod_singleton_lt d0 hd0)
    simpa [sn_tensor] using this
  simp only [Option.bind_eq_bind, Option.pure_def, sn_load_cons_zero, Option.some_bind, hf]
  rfl

/-- Forward and reverse pass over `sn_sum(p)` with `p` bound to a vector. -/
theorem sn_op_dflow_sum_vector {α : Type} [Semiring α] (fuel p S n : Nat) (a : List α)
    (ha : a.length = n) (hpS : p ≠ S) (hnn : n * n < SN_UINT_MOD) :
    sn_op_dflow (fuel + 2) (sn_sum S (sn_placeholder p)) (sn_table 1 [(p, sn_tensor [n] a)])
      = some (some (sn_table 1 [(p, sn_tensor [n] (List.replicate n 1))])) := by
  have hn : n < SN_UINT_MOD := lt_of_mul_self_lt n hnn
  have h1n : ([] : List Nat).prod * [n].prod < SN_UINT_MOD := by
    rw [List.prod_nil, List.prod_singleton, Nat.one_mul]
    exact hn
  have hnn1 : [n].prod * [n].prod < SN_UINT_MOD := by
    rw [List.prod_singleton]
    exact hnn
  have hca := sn_mda_copy_tensor [n] a (by simpa using ha) (prod_singleton_lt n hn)
  have hi1 := sn_map_insert_full fuel 1 [(p, sn_tensor [n] a)] S (sn_tensor [n] a) rfl
    (by omega)
  have hflow := sum_flow_tensor [n] a [] (by simpa using ha) (prod_singleton_lt n hn)
  have hd0 := sn_mda_diagonal_full_tensor [n] a (1 : α) (prod_singleton_lt n hn) hnn1
  have hg1 := gmatmul_diagonal [] [n] (List.replicate n (1 : α)) 1 (by simp)
    h1n hnn1
  have hdf := sum_dflow_tensor n [] a [] hn
  have hi2 := sn_map_insert_free (fuel + 1) 1 ([] : List (Nat × sn_mda α)) p
    (sn_tensor [n] (List.replicate n (1 : α))) (by simp)
  simp only [List.nil_append, List.singleton_append, List.cons_append, List.prod_singleton,
    List.prod_nil, List.length_singleton, List.length_nil, List.map_replicate, mul_one,
    List.append_nil, Nat.mul_one, Nat.reduceAdd, one_mul, sn_tensor_rank, Nat.add_assoc]
    at hd0 hg1 hi1 hi2 hflow
  unfold sn_op_dflow
  simp only [sn_sum, sn_op_create, op_flow_operator, op_flow_operands_cons,
    op_flow_operands_nil, op_flow_placeholder, op_dflow_operator, op_dflow_operands_cons,
    op_dflow_operands_nil, op_dflow_placeholder, sn_map_get_table, sn_map_get_all_table,
    Option.bind_eq_bind, Option.pure_def, Option.some_bind, List.find?, List.filter,
    hpS, Ne.symm hpS, decide_True, decide_False, Option.map_some', SN_DYNAMIC_ARRAY,
    List.length_cons, List.length_nil, List.replicate_succ, List.replicate_zero, sn_store,
    List.length_singleton, Nat.lt_add_one, if_true, List.set_cons_zero, Nat.reduceAdd,
    Nat.reduceLT, List.set_cons_succ, List.map_cons, List.map_nil, decide_eq_true_eq, ne_eq,
    not_false_eq_true, hca, hi1, hflow, hd0, sn_map_create_one, sn_map_create_empty, sn_for_one,
    sn_load_cons_zero, sn_load_cons_succ, sn_load_ptr_some, sn_table_count, sn_tensor_rank,
    sn_table_load_key, sn_table_load_value, List.get?_cons_zero, List.get?_cons_succ,
    hdf, hg1, hi2, Nat.zero_add]

/-! ## The gradient of `negative` at a placeholder -/

theorem find?_append_bound {β : Type} (l1 l2 : List β) (q : β → Bool)
    (h : ∃ e ∈ l1, q e = true) : (l1 ++ l2).find? q = l1.find? q := by
  rw [List.find?_append]
  cases hf : l1.find? q with
  | none =>
    obtain ⟨e, he, hq⟩ := h
    rw [List.find?_eq_none] at hf
    exact absurd hq (hf e he)
  | some e => rfl

theorem sn_op_denote_operator {α : Type} (es : List (Nat × sn_mda α)) (addr : Nat)
    (flow : Option (sn_flow_fn α)) (dflow : Option (sn_dflow_fn α)) (x : List (sn_op α))
    (array : Option (sn_mda α)) :
    sn_op.denote es (.mk addr .OPERATOR flow dflow x array)
      = (sn_op.denote_all es x).bind fun values => flow.bind fun f => f (values.map some) := by
  simp only [sn_op.denote]

theorem sn_op_denote_all_cons {α : Type} (es : List (Nat × sn_mda α)) (xi : sn_op α)
    (rest : List (sn_op α)) :
    sn_op.denote_all es (xi :: rest)
      = (xi.denote es).bind fun v =>
          (sn_op.denote_all es rest).bind fun values => some (v :: values) := by
  simp only [sn_op.denote_all]

mutual
/-- The forward pass returns the reference denotation of the node over the entries the
table had at the start, whatever the forward pass has appended since. -/
theorem op_flow_denote {α : Type} (fuel : Nat) (es : List (Nat × sn_mda α)) :
    ∀ (node : sn_op α) (cap : Nat) (pre : List (Nat × sn_mda α)),
      (es ++ pre).length ≤ cap → 1 ≤ cap →
      (∀ p ∈ node.placeholders, ∃ e ∈ es, e.1 = p) →
      (op_flow_ (fuel + 2) node (sn_table cap (es ++ pre))).map Prod.fst = node.denote es
  | .mk addr type flow dflow x array, cap, pre, hlen, hcap, hb => by
    cases type with
    | CONSTANT =>
      simp only [op_flow_, sn_op.denote, Option.bind_eq_bind, Option.pure_def]
      cases array with
      | none => rfl
      | some a =>
        simp only [Option.some_bind]
        cases sn_mda_copy a <;> rfl
    | PLACEHOLDER =>
      have hbound : ∃ e ∈ es, (fun e : Nat × sn_mda α => decide (e.1 = addr)) e = true := by
        obtain ⟨e, he, hk⟩ := hb addr (by simp [sn_op.placeholders])
        exact ⟨e, he, by simpa using hk⟩
      simp only [op_flow_, sn_op.denote, Option.bind_eq_bind, Option.pure_def, sn_map_get_table,
        find?_append_bound es pre _ hbound]
      cases es.find? (fun e => decide (e.1 = addr)) with
      | none => rfl
      | some e =>
        simp only [Option.map_some', Option.some_bind]
        cases sn_mda_copy e.2 <;> rfl
    | OPERATOR =>
      have hops := op_flow_operands_denote fuel es x addr 0 (SN_DYNAMIC_ARRAY (sn_mda α) x.length)
        cap pre hlen hcap (by simp [SN_DYNAMIC_ARRAY])
        (by simpa [sn_op.placeholders] using hb)
      simp only [SN_DYNAMIC_ARRAY, List.take_zero, List.nil_append, Nat.zero_add] at hops
      rw [List.drop_eq_nil_of_le (by simp)] at hops
      simp only [List.append_nil] at hops
      rw [op_flow_operator, sn_op_denote_operator]
      simp only [SN_DYNAMIC_ARRAY]
      cases hd : sn_op.denote_all es x with
      | none =>
        rw [hd] at hops
        cases ho : op_flow_operands_ (fuel + 2) addr x 0 (List.replicate x.length none)
            (sn_table cap (es ++ pre)) with
        | none => rfl
        | some r => rw [ho] at hops; simp at hops
      | some vals =>
        rw [hd] at hops
        cases ho : op_flow_operands_ (fuel + 2) addr x 0 (List.replicate x.length none)
            (sn_table cap (es ++ pre)) with
        | none => rw [ho] at hops; simp at hops
        | some r =>
          rw [ho] at hops
          simp only [Option.map_some', Option.some.injEq] at hops
          simp only [Option.some_bind, hops]
          cases flow with
          | none => rfl
          | some f =>
            simp only [Option.some_bind]
            cases f (vals.map some) <;> rfl
/-- The operand loop of the forward pass fills the operand array with the reference
denotations of the operands. -/
theorem op_flow_operands_denote {α : Type} (fuel : Nat) (es : List (Nat × sn_mda α)) :
    ∀ (x : List (sn_op α)) (self i : Nat) (xs : List (Option (sn_mda α))) (cap : Nat)
      (pre : List (Nat × sn_mda α)),
      (es ++ pre).length ≤ cap → 1 ≤ cap → i + x.length ≤ xs.length →
      (∀ p ∈ sn_op.placeholders_of x, ∃ e ∈ es, e.1 = p) →
      (op_flow_operands_ (fuel + 2) self x i xs (sn_table cap (es ++ pre))).map Prod.fst
        = (sn_op.denote_all es x).map fun vals =>
            xs.take i ++ vals.map some ++ xs.drop (i + x.length)
  | [], self, i, xs, cap, pre, hlen, hcap, hxs, hb => by
    rw [op_flow_operands_nil]
    simp [sn_op.denote_all]
  | xi :: rest, self, i, xs, cap, pre, hlen, hcap, hxs, hb => by
    have hb1 : ∀ p ∈ xi.placeholders, ∃ e ∈ es, e.1 = p := fun p hp =>
      hb p (by simp only [sn_op.placeholders_of, List.mem_append]; exact Or.inl hp)
    have hb2 : ∀ p ∈ sn_op.placeholders_of rest, ∃ e ∈ es, e.1 = p := fun p hp =>
      hb p (by simp only [sn_op.placeholders_of, List.mem_append]; exact Or.inr hp)
    have h1 := op_flow_denote fuel es xi cap pre hlen hcap hb1
    rw [op_flow_operands_cons, sn_op_denote_all_cons]
    cases hxi : op_flow_ (fuel + 2) xi (sn_table cap (es ++ pre)) with
    | none =>
      rw [hxi] at h1
      rw [← h1]
      rfl
    | some r =>
      obtain ⟨v, feed1⟩ := r
      rw [hxi] at h1
      simp only [Option.map_some'] at h1
      rw [← h1]
      simp only [Option.some_bind]
      obtain ⟨cap1, ex1, hf1, hl1, hc1, _⟩ :=
        op_flow_frame fuel xi cap (es ++ pre) v feed1 hlen hcap hxi
      subst hf1
      simp only [List.length_cons] at hxs
      have hi : i < xs.length := by omega
      obtain ⟨cap2, hins, hl2, hc2⟩ :=
        sn_map_insert_table fuel cap1 (es ++ pre ++ ex1) self v hl1 hc1
      simp only [sn_store, if_pos hi, Option.some_bind, hins]
      have h2 := op_flow_operands_denote fuel es rest self (i + 1) (xs.set i (some v)) cap2
        (pre ++ ex1 ++ [(self, v)]) (by simpa [List.append_assoc] using hl2) hc2
        (by simp; omega) hb2
      simp only [← List.append_assoc] at h2
      rw [h2]
      cases sn_op.denote_all es rest with
      | none => rfl
      | some vals =>
        simp only [Option.map_some', Option.some_bind, List.map_cons, List.length_cons,
          Option.some.injEq]
        exact set_take_succ_drop xs i rest.length (some v) hi (vals.map some)
end

/-! ## Loops that have returned -/

/-- Invariant rule for a loop that has returned: an invariant that holds on entry and
that every returning iteration carries over holds for the result. -/
theorem sn_for_some_inv {σ : Type} (P : Nat → σ → Prop) (n : Nat) (body : Nat → σ → Option σ)
    (s s' : σ) (h0 : P 0 s)
    (hstep : ∀ i s s1, i < n → P i s → body i s = some s1 → P (i + 1) s1)
    (h : sn_for n body s = some s') : P n s' := by
  induction n generalizing s' with
  | zero =>
    rw [sn_for_zero] at h
    cases h
    exact h0
  | succ n ih =>
    rw [sn_for_succ, Option.bind_eq_some] at h
    obtain ⟨s1, h1, h2⟩ := h
    exact hstep n s1 s' (Nat.lt_succ_self n)
      (ih s1 (fun i s s2 hi => hstep i s s2 (Nat.lt_succ_of_lt hi)) h1) h2

/-- A call of `sn_map_insert` that has returned on a table with a free slot has appended
the entry. -/
theorem sn_map_insert_free_of_some {α : Type} (fuel capacity : Nat) (es : List (Nat × sn_mda α))
    (key : Nat) (value : sn_mda α) (t : sn_map α) (hfree : es.length < capacity)
    (h : sn_map_insert fuel (sn_table capacity es) key value = some t) :
    t = sn_table capacity (es ++ [(key, value)]) := by
  cases fuel with
  | zero => simp [sn_map_insert] at h
  | succ fuel =>
    rw [sn_map_insert_free fuel capacity es key value hfree] at h
    exact (Option.some.inj h).symm

/-- A loop that inserts, for `j = 0, 1, ...`, a value under the key of entry `j` of `src`
appends entries with the keys of `src`, as long as the table has the slots. -/
theorem sn_for_insert_keys {α : Type} (fuel capacity : Nat) (src acc : List (Nat × sn_mda α))
    (body : Nat → sn_map α → Option (sn_map α)) (t : sn_map α)
    (hbody : ∀ j m m1, body j m = some m1 →
      ∃ e v, src.get? j = some e ∧ sn_map_insert fuel m e.1 v = some m1)
    (hroom : acc.length + src.length ≤ capacity)
    (h : sn_for src.length body (sn_table capacity acc) = some t) :
    ∃ new, t = sn_table capacity (acc ++ new) ∧ new.map Prod.fst = src.map Prod.fst := by
  have key := sn_for_some_inv
    (fun j (m : sn_map α) => ∃ new, m = sn_table capacity (acc ++ new)
      ∧ new.map Prod.fst = (src.take j).map Prod.fst)
    src.length body (sn_table capacity acc) t ⟨[], by simp, by simp⟩
    (by
      intro j m m1 hj ⟨new, hm, hnew⟩ hb
      obtain ⟨e, v, he, hins⟩ := hbody j m m1 hb
      have hlen : new.length = j := by
        have := congrArg List.length hnew
        simpa [Nat.min_eq_left (Nat.le_of_lt hj)] using this
      subst hm
      have hm1 := sn_map_insert_free_of_some fuel capacity (acc ++ new) e.1 v m1
        (by simp; omega) hins
      refine ⟨new ++ [(e.1, v)], by rw [hm1, List.append_assoc], ?_⟩
      rw [List.take_succ, ← List.get?_eq_getElem?, he]
      simp [hnew])
    h
  obtain ⟨new, h1, h2⟩ := key
  exact ⟨new, h1, by rw [h2, List.take_length]⟩

/-- A loop that runs, for the `i`-th list of `tabs`, a loop inserting under the keys of that
list appends entries with the keys of all the lists, in order. -/
theorem sn_for_insert_tables {α : Type} (fuel capacity : Nat)
    (tabs : List (List (Nat × sn_mda α))) (acc : List (Nat × sn_mda α))
    (body : Nat → sn_map α → Option (sn_map α)) (t : sn_map α)
    (hbody : ∀ i m m1, body i m = some m1 →
      ∃ src inner, tabs.get? i = some src ∧ sn_for src.length inner m = some m1
        ∧ ∀ j m m1, inner j m = some m1 →
            ∃ e v, src.get? j = some e ∧ sn_map_insert fuel m e.1 v = some m1)
    (hroom : acc.length + tabs.flatten.length ≤ capacity)
    (h : sn_for tabs.length body (sn_table capacity acc) = some t) :
    ∃ new, t = sn_table capacity (acc ++ new)
      ∧ new.map Prod.fst = tabs.flatten.map Prod.fst := by
  have key := sn_for_some_inv
    (fun i (m : sn_map α) => ∃ new, m = sn_table capacity (acc ++ new)
      ∧ new.map Prod.fst = (tabs.take i).flatten.map Prod.fst)
    tabs.length body (sn_table capacity acc) t ⟨[], by simp, by simp⟩
    (by
      intro i m m1 hi ⟨new, hm, hnew⟩ hb
      obtain ⟨src, inner, hsrc, hloop, hinner⟩ := hbody i m m1 hb
      have hsplit : tabs = tabs.take i ++ src :: tabs.drop (i + 1) := by
        have h1 : tabs.take (i + 1) = tabs.take i ++ [src] := by
          rw [List.take_succ, ← List.get?_eq_getElem?, hsrc]
          rfl
        calc tabs = tabs.take (i + 1) ++ tabs.drop (i + 1) := (List.take_append_drop _ _).symm
          _ = tabs.take i ++ src :: tabs.drop (i + 1) := by rw [h1]; simp
      have hlen : new.length = (tabs.take i).flatten.length := by
        rw [← List.length_map new Prod.fst, hnew, List.length_map]
      have htot : (tabs.take i).flatten.length + src.length ≤ tabs.flatten.length := by
        have := congrArg (fun l => (List.flatten l).length) hsplit
        simp only [List.flatten_append, List.flatten_cons, List.length_append] at this
        omega
      subst hm
      obtain ⟨new2, h1, h2⟩ := sn_for_insert_keys fuel capacity src (acc ++ new) inner m1 hinner
        (by simp only [List.length_append]; omega) hloop
      refine ⟨new ++ new2, by rw [h1, List.append_assoc], ?_⟩
      have h3 : tabs.take (i + 1) = tabs.take i ++ [src] := by
        rw [List.take_succ, ← List.get?_eq_getElem?, hsrc]
        rfl
      rw [h3, List.flatten_append, List.map_append, List.map_append, hnew, h2]
      simp)
    h
  obtain ⟨new, h1, h2⟩ := key
  exact ⟨new, h1, by rw [h2, List.take_length]⟩

/-! ## The table the reverse pass returns -/

/-- A call of `sn_map_create` on one key and one value that has returned has built the
table of that entry. -/
theorem sn_map_create_one_of_some {α : Type} (fuel key : Nat) (value : sn_mda α) (m : sn_map α)
    (h : sn_map_create fuel 1 (some [key]) (some [value]) = some m) :
    m = sn_table 1 [(key, value)] := by
  cases fuel with
  | zero => simp [sn_map_create, sn_for, sn_for_from, sn_map_insert] at h
  | succ fuel =>
    rw [sn_map_create_one] at h
    exact (Option.some.inj h).symm

mutual
/-- A table that the reverse pass has returned holds one entry per path to a placeholder,
in operand order, under the key of the placeholder, and has no free slot. -/
theorem op_dflow_keys {α : Type} [Zero α] [One α] [Add α] [Mul α] (fuel : Nat) :
    ∀ (node : sn_op α) (feed m : sn_map α), op_dflow_ fuel node feed = some (some m) →
      ∃ es, m = sn_table es.length es ∧ es.map Prod.fst = node.placeholders
  | .mk addr type flow dflow x array, feed, m, h => by
    cases type with
    | CONSTANT =>
      rw [op_dflow_constant] at h
      simp at h
    | PLACEHOLDER =>
      simp only [op_dflow_, Option.bind_eq_bind, Option.pure_def, Option.bind_eq_some,
        Option.some.injEq] at h
      obtain ⟨t, _, dy, _, m0, hm0, hm⟩ := h
      subst hm
      exact ⟨[(addr, dy)], sn_map_create_one_of_some fuel addr dy m0 hm0, rfl⟩
    | OPERATOR =>
      rw [op_dflow_operator] at h
      simp only [Option.bind_eq_some, Option.some.injEq] at h
      obtain ⟨r, hops, xs, _, df, _, dy, _, m0, hm0, m1, hloop, u, _, hm⟩ := h
      subst hm
      obtain ⟨maps', cap'⟩ := r
      obtain ⟨tabs, ht1, ht2, ht3, ht4⟩ := op_dflow_operands_keys fuel x feed 0
        (SN_DYNAMIC_ARRAY (sn_map α) x.length) 0 maps' cap' hops (by simp [SN_DYNAMIC_ARRAY])
      simp only [SN_DYNAMIC_ARRAY, List.take_zero, List.nil_append, Nat.zero_add] at ht2 ht3
      rw [List.drop_eq_nil_of_le (by simp), List.append_nil] at ht2
      rw [sn_map_create_empty] at hm0
      simp only [Option.some.injEq] at hm0
      subst hm0 ht2 ht3
      simp only [] at hloop
      rw [← ht1] at hloop
      obtain ⟨new, h1, h2⟩ := sn_for_insert_tables fuel tabs.flatten.length tabs [] _ m1
        (by
          intro i m m2 hb
          simp only [Option.bind_eq_some, sn_load_map_some] at hb
          obtain ⟨dm, hdm, hin⟩ := hb
          rw [List.get?_eq_getElem?, List.getElem?_map] at hdm
          cases hsrc : tabs[i]? with
          | none => rw [hsrc] at hdm; simp at hdm
          | some src =>
            rw [hsrc] at hdm
            simp only [Option.map_some', Option.some.injEq] at hdm
            subst hdm
            refine ⟨src, _, by rw [List.get?_eq_getElem?]; exact hsrc, hin, ?_⟩
            intro j m m3 hb3
            simp only [Option.bind_eq_some, sn_table_load_key, Option.map_eq_some'] at hb3
            obtain ⟨key, ⟨e, he, hk⟩, _, _, _, _, _, _, v, _, hins⟩ := hb3
            subst hk
            exact ⟨e, v, he, hins⟩)
        (by simp) hloop
      rw [List.nil_append] at h1
      have hlen : new.length = tabs.flatten.length := by
        rw [← List.length_map new Prod.fst, h2, List.length_map]
      refine ⟨new, by rw [h1, hlen], ?_⟩
      rw [h2, ht4]
      simp only [sn_op.placeholders]
/-- The first operand loop of the reverse pass stores the tables of the operands and adds
up their sizes. -/
theorem op_dflow_operands_keys {α : Type} [Zero α] [One α] [Add α] [Mul α] (fuel : Nat) :
    ∀ (x : List (sn_op α)) (feed : sn_map α) (i : Nat) (maps : List (Option (sn_map α)))
      (capacity : Nat) (maps' : List (Option (sn_map α))) (capacity' : Nat),
      op_dflow_operands_ fuel feed x i maps capacity = some (maps', capacity') →
      i + x.length ≤ maps.length →
      ∃ tabs : List (List (Nat × sn_mda α)), tabs.length = x.length
        ∧ maps' = maps.take i ++ (tabs.map fun es => sn_table es.length es).map some
            ++ maps.drop (i + x.length)
        ∧ capacity' = capacity + tabs.flatten.length
        ∧ tabs.flatten.map Prod.fst = sn_op.placeholders_of x
  | [], feed, i, maps, capacity, maps', capacity', h, hlen => by
    rw [op_dflow_operands_nil] at h
    simp only [Option.some.injEq, Prod.mk.injEq] at h
    refine ⟨[], rfl, ?_, ?_, ?_⟩
    · rw [← h.1]; simp
    · rw [← h.2]; simp
    · simp [sn_op.placeholders_of]
  | xi :: rest, feed, i, maps, capacity, maps', capacity', h, hlen => by
    rw [op_dflow_operands_cons] at h
    simp only [Option.bind_eq_some] at h
    obtain ⟨dm_dx, hxi, dm, hdm, maps1, hst, hrest⟩ := h
    subst hdm
    obtain ⟨es, hes, hkeys⟩ := op_dflow_keys fuel xi feed dm hxi
    simp only [List.length_cons] at hlen
    have hi : i < maps.length := by omega
    simp only [sn_store, if_pos hi, Option.some.injEq] at hst
    subst hst
    obtain ⟨tabs, ht1, ht2, ht3, ht4⟩ := op_dflow_operands_keys fuel rest feed (i + 1)
      (maps.set i (some dm)) (capacity + dm.count) maps' capacity' hrest (by simp; omega)
    refine ⟨es :: tabs, by simp [ht1], ?_, ?_, ?_⟩
    · rw [ht2, List.map_cons, List.map_cons, List.length_cons, ← hes]
      exact set_take_succ_drop maps i rest.length (some dm) hi _
    · rw [ht3, hes]
      simp [sn_table, Nat.add_assoc]
    · simp only [List.flatten_cons, List.map_append, ht4, hkeys, sn_op.placeholders_of]
end

/-- The function `sn_op_flow` returns the tensor of the forward pass. -/
theorem sn_op_flow_eq_map {α : Type} (fuel : Nat) (self : sn_op α) (feed : sn_map α) :
    sn_op_flow fuel self feed = (op_flow_ fuel self feed).map Prod.fst := by
  unfold sn_op_flow
  cases op_flow_ fuel self feed <;> rfl

mutual
/-- The number of paths to a placeholder is the number of times its address occurs among
the placeholders reached. -/
theorem sn_op_paths_eq_count {α : Type} (p : Nat) :
    ∀ node : sn_op α, node.paths p = node.placeholders.count p
  | .mk addr type flow dflow x array => by
    cases type with
    | CONSTANT => simp [sn_op.paths, sn_op.placeholders]
    | PLACEHOLDER =>
      simp only [sn_op.paths, sn_op.placeholders, List.count_singleton]
      by_cases h : addr = p <;> simp [h]
    | OPERATOR =>
      simp only [sn_op.paths, sn_op.placeholders]
      exact sn_op_paths_of_eq_count p x
/-- The same for a list of operands. -/
theorem sn_op_paths_of_eq_count {α : Type} (p : Nat) :
    ∀ x : List (sn_op α), sn_op.paths_of p x = (sn_op.placeholders_of x).count p
  | [] => by simp [sn_op.paths_of, sn_op.placeholders_of]
  | xi :: rest => by
    simp only [sn_op.paths_of, sn_op.placeholders_of, List.count_append]
    rw [sn_op_paths_eq_count p xi, sn_op_paths_of_eq_count p rest]
end

/-- The number of entries with a key is the number of times the key occurs among the
keys. -/
theorem filter_key_length {α : Type} (es : List (Nat × sn_mda α)) (p : Nat) :
    (es.filter (fun e => decide (e.1 = p))).length = (es.map Prod.fst).count p := by
  induction es with
  | nil => rfl
  | cons e es ih =>
    by_cases h : e.1 = p
    · simp [List.filter, h, ih]
    · simp [List.filter, h, ih, List.count_cons]

/-- The function `sn_map_insert` on the empty table of capacity 0 returns with no amount
of fuel. -/
theorem sn_map_insert_capacity_zero {α : Type} (fuel key : Nat) (value : sn_mda α) :
    sn_map_insert fuel (sn_table 0 []) key value = none := by
  induction fuel with
  | zero => rfl
  | succ fuel ih =>
    rw [sn_map_insert]
    have hc : (sn_table 0 ([] : List (Nat × sn_mda α))).count = 0 := rfl
    have hcap : (sn_table 0 ([] : List (Nat × sn_mda α))).capacity = 0 := rfl
    rw [hc, hcap, if_neg (by omega)]
    simp only [Option.bind_eq_bind]
    rw [sn_map_extend_table 0 0 [] (by simp)]
    exact ih

/-! ## The claims -/

/-- C4: for a tensor of rank at least 1 whose number of elements, the product of its
extents, is below `2^64`, and a multi-index inside its shape, the offset computed by
`sn_mda_get_offset_`, and so the element `sn_mda_get` points to and the one
`sn_mda_view` reads, is the column-major offset: the sum over `i` of `index[i]` times
the product of `shape[0..i)`; the first dimension has stride 1. Without the bound on
the number of elements the offset computed is the column-major offset modulo `2^64`. -/
theorem C4_get_offset_column_major {α : Type} (self : sn_mda α) (dims index : List Nat)
    (hrank : self.rank = dims.length) (hshape : self.shape = some (dims.map some))
    (hr : 1 ≤ self.rank)
    (hlen : dims.length ≤ index.length)
    (hidx : ∀ i, i < dims.length → index.getD i 0 < dims.getD i 0) :
    (dims.prod < SN_UINT_MOD →
      sn_mda_get_offset_ self index = some (column_major_offset dims index)
      ∧ sn_mda_get self index = some (column_major_offset dims index)
      ∧ sn_mda_view self index = sn_load self.ptr (column_major_offset dims index)
      ∧ column_major_offset dims index < dims.prod)
    ∧ sn_mda_get_offset_ self index = some (column_major_offset dims index % SN_UINT_MOD)
    ∧ column_major_offset dims index
        = ∑ i in Finset.range self.rank, index.getD i 0 * (dims.take i).prod
    ∧ (dims.take 0).prod = 1 := by
  refine ⟨?_, get_offset_column_major_mod self dims index hrank hshape hr hlen hidx, ?_, rfl⟩
  · intro hsize
    have hoff := get_offset_column_major self dims index hrank hshape hr hlen hidx hsize
    refine ⟨hoff, hoff, ?_, column_major_offset_lt dims index hidx⟩
    unfold sn_mda_view
    rw [hoff]
    rfl
  · rw [hrank]
    rfl

/-- C4 at a concrete input: in a tensor of shape (2,3), index (1,2) has offset 1 + 2*2. -/
theorem C4_get_offset_column_major_witness :
    sn_mda_get_offset_ (sn_tensor [2, 3] [(1 : Int), 2, 3, 4, 5, 6]) [1, 2] = some 5 := by
  have h := ((C4_get_offset_column_major (sn_tensor [2, 3] [(1 : Int), 2, 3, 4, 5, 6])
    [2, 3] [1, 2] rfl rfl (by decide) (by decide) (by decide)).1 (by decide)).1
  rw [h]
  decide

/-- C5: for each of `add`, `subtract`, `multiply`, `divide` with scalar function `f`, the
forward function on operands of the same rank and shape `S` returns the tensor of shape
`S` with `f (a[i]) (b[i])` at every flat index; on a rank-0 first operand it returns the
shape of the second with `f (a[0]) (b[i])`; on a rank-0 second operand the shape of the
first with `f (a[i]) (b[0])`. The argument order is kept. The operand buffers have
fewer than `2^64` cells, as every block in memory has. -/
theorem C5_element_wise_binary {α : Type} [Add α] [Sub α] [Mul α] [Div α]
    (flow : sn_flow_fn α) (f : α → α → α)
    (hop : (flow = add_flow_ ∧ f = fun u v => u + v)
      ∨ (flow = subtract_flow_ ∧ f = fun u v => u - v)
      ∨ (flow = multiply_flow_ ∧ f = fun u v => u * v)
      ∨ (flow = divide_flow_ ∧ f = fun u v => u / v)) :
    (∀ (S : List Nat) (a b : List α), a.length = S.prod → b.length = S.prod →
        a.length < SN_UINT_MOD →
        flow [some (sn_tensor S a), some (sn_tensor S b)]
          = some (sn_tensor S (List.zipWith f a b)))
    ∧ (∀ (a0 : α) (S : List Nat) (b : List α), b.length = S.prod →
        b.length < SN_UINT_MOD →
        flow [some (sn_tensor [] [a0]), some (sn_tensor S b)]
          = some (sn_tensor S (b.map (fun v => f a0 v))))
    ∧ (∀ (b0 : α) (S : List Nat) (a : List α), a.length = S.prod →
        a.length < SN_UINT_MOD →
        flow [some (sn_tensor S a), some (sn_tensor [] [b0])]
          = some (sn_tensor S (a.map (fun u => f u b0)))) := by
  have hflow : flow = fun x => element_wise_binary_operator_flow_ x f := by
    rcases hop with ⟨h1, h2⟩ | ⟨h1, h2⟩ | ⟨h1, h2⟩ | ⟨h1, h2⟩ <;> subst h1 h2 <;> rfl
  subst hflow
  exact ⟨fun S a b ha hb hl => element_wise_binary_same f S a b ha hb (ha ▸ hl),
    fun a0 S b hb hl => element_wise_binary_left f a0 S b hb (hb ▸ hl),
    fun b0 S a ha hl => element_wise_binary_right f b0 S a ha (ha ▸ hl)⟩

/-- C5 at a concrete input: `subtract` of a scalar and a vector keeps the argument
order. -/
theorem C5_element_wise_binary_witness :
    subtract_flow_ [some (sn_tensor [] [(10 : Int)]), some (sn_tensor [3] [1, 2, 3])]
      = some (sn_tensor [3] [9, 8, 7]) :=
  (C5_element_wise_binary subtract_flow_ (fun u v => u - v)
    (Or.inr (Or.inl ⟨rfl, rfl⟩))).2.1 10 [3] [1, 2, 3] rfl (by decide)

/-- C6: `sn_mda_copy t` returns a tensor with the rank, the shape and, at every flat
index below `sn_mda_size t`, the element of `t`; the copy lives in a block of its own, so
assigning to an element of the copy leaves `t` as it was. The buffer of `t` has fewer
than `2^64` cells, as every block in memory has. -/
theorem C6_copy_round_trip {α : Type} (store : List (sn_mda α)) (self : Nat) (S : List Nat)
    (data : List α) (hself : store.get? self = some (sn_tensor S data))
    (hdata : data.length = S.prod) (hcells : data.length < SN_UINT_MOD) :
    (∃ r, sn_mda_copy (sn_tensor S data) = some r
      ∧ r.rank = (sn_tensor S data).rank ∧ r.shape = (sn_tensor S data).shape
      ∧ sn_mda_size (sn_tensor S data) = some S.prod
      ∧ ∀ i, i < S.prod → ∃ v, sn_load (sn_tensor S data).ptr i = some v
          ∧ sn_load r.ptr i = some v)
    ∧ ∃ store' copy, sn_mda_copy_ptr store self = some (store', copy)
      ∧ store'.get? copy = some (sn_tensor S data)
      ∧ store'.get? self = some (sn_tensor S data)
      ∧ ∀ i v store'', sn_mda_assign_ptr store' copy i v = some store'' →
          store''.get? self = some (sn_tensor S data) := by
  have hsize : S.prod < SN_UINT_MOD := hdata ▸ hcells
  have hcopy := sn_mda_copy_tensor S data hdata hsize
  have hlt : self < store.length := by
    rw [List.get?_eq_getElem?] at hself
    exact (List.getElem?_eq_some_iff.mp hself).1
  refine ⟨⟨_, hcopy, rfl, rfl, sn_mda_size_tensor S data hsize, ?_⟩, ?_⟩
  · intro i hi
    have hi' : i < data.length := by omega
    refine ⟨data.get ⟨i, hi'⟩, ?_, ?_⟩ <;>
    · simp only [sn_tensor, sn_load_map_some]
      exact List.get?_eq_get hi'
  · refine ⟨store ++ [sn_tensor S data], store.length, ?_, ?_, ?_, ?_⟩
    · unfold sn_mda_copy_ptr
      rw [hself]
      simp only [Option.bind_eq_bind, Option.some_bind, hcopy, Option.pure_def]
    · simp
    · rw [List.get?_eq_getElem?, List.getElem?_append_left hlt, ← List.get?_eq_getElem?]
      exact hself
    · intro i v store'' hassign
      unfold sn_mda_assign_ptr at hassign
      simp only [List.get?_eq_getElem?, List.getElem?_concat_length, Option.bind_eq_bind,
        Option.some_bind, Option.pure_def] at hassign
      cases hst : sn_store (sn_tensor S data).ptr i v with
      | none => rw [hst] at hassign; simp at hassign
      | some p =>
        rw [hst] at hassign
        simp only [Option.some_bind, Option.some.injEq] at hassign
        rw [← hassign, List.get?_eq_getElem?, List.getElem?_set_ne (by omega),
          List.getElem?_append_left hlt, ← List.get?_eq_getElem?]
        exact hself

/-- C6 at a concrete input: the copy of a 2 x 2 tensor, then an assignment to the copy. -/
theorem C6_copy_round_trip_witness :
    ∃ store' copy, sn_mda_copy_ptr [sn_tensor [2, 2] [(1 : Int), 2, 3, 4]] 0 = some (store', copy)
      ∧ store'.get? copy = some (sn_tensor [2, 2] [1, 2, 3, 4])
      ∧ store'.get? 0 = some (sn_tensor [2, 2] [1, 2, 3, 4]) := by
  obtain ⟨_, store', copy, h1, h2, h3, _⟩ := C6_copy_round_trip
    [sn_tensor [2, 2] [(1 : Int), 2, 3, 4]] 0 [2, 2] [1, 2, 3, 4] rfl rfl (by decide)
  exact ⟨store', copy, h1, h2, h3⟩

/-- C8: for two vectors `a`, `b` of length `n` bound to the placeholders `x0`, `x1`,
`sn_op_flow` on `sn_negative (add_and_sum x0 x1)` returns the rank-0 tensor holding the
negation of the sum over `i` of `a[i] + b[i]`, accumulated from `0` in increasing `i`
with the scalar operations as they are; over a ring it is the sum over `Finset.range n`;
with `n = 5`, `a` all `5` and `b` all `7` the result holds `-60`. The vectors have fewer
than `2^64` cells, as every block in memory has. -/
theorem C8_example_forward :
    (∀ (α : Type) [Zero α] [One α] [Add α] [Neg α] (fuel p0 p1 A N n : Nat) (a b : List α),
      a.length = n → b.length = n → p0 ≠ p1 → a.length < SN_UINT_MOD →
      ∃ feed, sn_map_from (fuel + 2) 2 [(p0, sn_tensor [n] a), (p1, sn_tensor [n] b)] = some feed
        ∧ sn_op_flow (fuel + 2)
            (sn_negative N (add_and_sum A (sn_placeholder p0) (sn_placeholder p1))) feed
          = some (sn_tensor []
              [-((List.range n).foldl (fun y i => y + (a.getD i 0 + b.getD i 0)) 0)]))
    ∧ (∀ (α : Type) [Ring α] (n : Nat) (a b : List α),
        (List.range n).foldl (fun y i => y + (a.getD i 0 + b.getD i 0)) 0
          = ∑ i in Finset.range n, (a.getD i 0 + b.getD i 0))
    ∧ ∃ feed : sn_map ℚ,
        sn_map_from 2 2 [(100, sn_tensor [5] (List.replicate 5 5)),
            (101, sn_tensor [5] (List.replicate 5 7))] = some feed
        ∧ sn_op_flow 2
            (sn_negative 103 (add_and_sum 102 (sn_placeholder 100) (sn_placeholder 101))) feed
          = some (sn_tensor [] [-60]) := by
  have general : ∀ (α : Type) [Zero α] [One α] [Add α] [Neg α] (fuel p0 p1 A N n : Nat)
      (a b : List α), a.length = n → b.length = n → p0 ≠ p1 → a.length < SN_UINT_MOD →
      ∃ feed, sn_map_from (fuel + 2) 2 [(p0, sn_tensor [n] a), (p1, sn_tensor [n] b)] = some feed
        ∧ sn_op_flow (fuel + 2)
            (sn_negative N (add_and_sum A (sn_placeholder p0) (sn_placeholder p1))) feed
          = some (sn_tensor []
              [-((List.range n).foldl (fun y i => y + (a.getD i 0 + b.getD i 0)) 0)]) := by
    intro α _ _ _ _ fuel p0 p1 A N n a b ha hb h01 hcells
    refine ⟨sn_table 2 [(p0, sn_tensor [n] a), (p1, sn_tensor [n] b)],
      sn_map_from_table (fuel + 1) [(p0, sn_tensor [n] a), (p1, sn_tensor [n] b)], ?_⟩
    unfold sn_op_flow
    rw [op_flow_negative_add_and_sum fuel p0 p1 A N n a b ha hb h01 (ha ▸ hcells)]
    rfl
  refine ⟨general, fun α _ n a b => foldl_add_eq_sum n _, ?_⟩
  obtain ⟨feed, h1, h2⟩ := general ℚ 0 100 101 102 103 5 (List.replicate 5 5)
    (List.replicate 5 7) rfl rfl (by decide) (by decide)
  refine ⟨feed, h1, ?_⟩
  rw [h2]
  norm_num [List.range_succ, List.replicate]

/-- C8 at a concrete input: vectors (1, 2) and (3, 4) give -(1 + 3 + 2 + 4). -/
theorem C8_example_forward_witness :
    ∃ feed : sn_map ℚ,
      sn_map_from 2 2 [(100, sn_tensor [2] [1, 2]), (101, sn_tensor [2] [3, 4])] = some feed
      ∧ sn_op_flow 2
          (sn_negative 103 (add_and_sum 102 (sn_placeholder 100) (sn_placeholder 101))) feed
        = some (sn_tensor [] [-10]) := by
  obtain ⟨feed, h1, h2⟩ := C8_example_forward.1 ℚ 0 100 101 102 103 2 [1, 2] [3, 4] rfl rfl
    (by decide) (by decide)
  refine ⟨feed, h1, ?_⟩
  rw [h2]
  norm_num [List.range_succ]

/-- C11 fails as stated: in the memory of `x`, `a = sn_negative(x)`, `r = sn_negative(a)`
the node `a` has reference count 2; `sn_op_destroy(a)` leaves it the count 1, which is
greater than zero, and yet frees `x` and `a`. -/
theorem C11_counterexample :
    (chain_negative_ptr.bind fun heap => sn_ref_count heap 1) = some 2
    ∧ 0 < sn_usub 2 1
    ∧ (chain_negative_ptr.bind fun heap => sn_op_destroy_ptr 3 heap (some 1)).map
        (fun heap => heap.freed) = some [0, 1] := by
  decide

/-- C11, amended: `sn_op_destroy` frees the node only when its reference count after the
decrement is below two. If the count after the decrement is two or more, the call only
stores the new count: the node is not freed, and no other node, so no operand, is touched.
If it is below two and the call returns, the node has been freed. -/
theorem C11_destroy_threshold {φ : Type} (fuel : Nat) (heap : sn_heap φ) (p : Nat)
    (node : sn_op_st φ) (hnode : sn_load heap.ops p = some node) :
    (2 ≤ sn_usub node.ref_count 1 →
      sn_op_destroy_ptr (fuel + 1) heap (some p)
        = some { heap with
            ops := heap.ops.set p (some { node with ref_count := sn_usub node.ref_count 1 }) })
    ∧ (sn_usub node.ref_count 1 < 2 →
        ∀ heap', sn_op_destroy_ptr (fuel + 1) heap (some p) = some heap' → p ∈ heap'.freed) := by
  have hlt := sn_load_lt _ _ _ hnode
  constructor
  · intro h2
    rw [sn_op_destroy_ptr]
    simp only [Option.bind_eq_bind, Option.pure_def, hnode, Option.some_bind, sn_store, if_pos hlt]
    rw [if_neg (by omega)]
  · intro h2 heap' hd
    rw [sn_op_destroy_ptr] at hd
    simp only [Option.bind_eq_bind, Option.pure_def, hnode, Option.some_bind, sn_store, if_pos hlt,
      if_pos h2] at hd
    cases hl : sn_for node.x_count (fun i (heap : sn_heap φ) =>
        (sn_load heap.ops p).bind fun self => (sn_load self.x i).bind fun xi =>
          sn_op_destroy_ptr fuel heap (some xi))
        { heap with ops := heap.ops.set p (some { node with ref_count := sn_usub node.ref_count 1 }) } with
    | none => rw [hl] at hd; simp at hd
    | some h1 =>
      rw [hl] at hd
      simp only [Option.some_bind, sn_op_destroy_one_ptr, Option.bind_eq_bind, Option.pure_def] at hd
      cases hn : sn_load h1.ops p with
      | none => rw [hn] at hd; simp at hd
      | some n1 =>
        rw [hn] at hd
        simp only [Option.some_bind] at hd
        cases ht : n1.type <;> rw [ht] at hd <;> simp only at hd
        · cases ha : n1.array with
          | none => rw [ha] at hd; simp at hd
          | some a =>
            rw [ha] at hd
            simp only [Option.some_bind, Option.some.injEq] at hd
            subst hd
            simp
        · simp only [Option.some.injEq] at hd
          subst hd
          simp
        · simp only [Option.some.injEq] at hd
          subst hd
          simp

/-- C11 at a concrete input: a placeholder with reference count 3 keeps its block and gets
the count 2. -/
theorem C11_destroy_threshold_witness :
    sn_op_destroy_ptr 1
        { ops := [some { ref_count := 3, type := .PLACEHOLDER, flow := none, dflow := none,
                         x_count := 0, x := [], array := none, overwrap := none }],
          freed := [], freed_mda := [] } (some 0)
      = some ({ ops := [some { ref_count := 2, type := .PLACEHOLDER, flow := none, dflow := none,
                               x_count := 0, x := [], array := none, overwrap := none }],
                freed := [], freed_mda := [] } : sn_heap sn_fn_ptr) :=
  (@C11_destroy_threshold sn_fn_ptr 0
    ⟨[some ⟨3, .PLACEHOLDER, none, none, 0, [], none, none⟩], [], []⟩ 0
    ⟨3, .PLACEHOLDER, none, none, 0, [], none, none⟩ rfl).1 (by decide)

/-- C12: `sn_op_create` on live operands returns a new node with reference count 1 and
adds to the reference count of every older node the number of times it occurs among the
operands, leaving everything else of the older nodes as it was; so do `sn_abs`, `sn_exp`,
`sn_negative`, `sn_reciprocal`, `sn_sqrt`, `sn_sum`, `sn_add`, `sn_subtract`, `sn_multiply`
and `sn_divide`. `sn_matmul` returns a new node with reference count 1 and leaves every
older node as it was, its two operands included: for two fresh placeholders `a`, `b`,
after `sn_matmul(a, b, 0)` the counts of `a` and `b` are still 1, where `sn_add(a, b)`
makes them 2. -/
theorem C12_constructor_counts :
    (∀ (φ : Type) (heap : sn_heap φ) (type : sn_op_type) (flow dflow : Option φ)
        (xs : List Nat), (∀ xi ∈ xs, ∃ node, sn_load heap.ops xi = some node) →
        ∃ heap', sn_op_create_ptr heap type flow dflow xs.length (some xs)
            = some (heap', heap.ops.length)
          ∧ sn_ref_count heap' heap.ops.length = some 1
          ∧ ∀ q, q < heap.ops.length → sn_load heap'.ops q
              = (sn_load heap.ops q).map fun t =>
                  { t with ref_count := t.ref_count + xs.count q })
    ∧ (∀ c ∈ [sn_abs_ptr, sn_exp_ptr, sn_negative_ptr, sn_reciprocal_ptr, sn_sqrt_ptr,
          sn_sum_ptr],
        ∀ (heap : sn_heap sn_fn_ptr) (x : Nat), (∃ node, sn_load heap.ops x = some node) →
        ∃ heap', c heap x = some (heap', heap.ops.length)
          ∧ sn_ref_count heap' heap.ops.length = some 1
          ∧ ∀ q, q < heap.ops.length → sn_load heap'.ops q
              = (sn_load heap.ops q).map fun t =>
                  { t with ref_count := t.ref_count + [x].count q })
    ∧ (∀ c ∈ [sn_add_ptr, sn_subtract_ptr, sn_multiply_ptr, sn_divide_ptr],
        ∀ (heap : sn_heap sn_fn_ptr) (x0 x1 : Nat), (∃ node, sn_load heap.ops x0 = some node) →
        (∃ node, sn_load heap.ops x1 = some node) →
        ∃ heap', c heap x0 x1 = some (heap', heap.ops.length)
          ∧ sn_ref_count heap' heap.ops.length = some 1
          ∧ ∀ q, q < heap.ops.length → sn_load heap'.ops q
              = (sn_load heap.ops q).map fun t =>
                  { t with ref_count := t.ref_count + [x0, x1].count q })
    ∧ (∀ (heap : sn_heap sn_fn_ptr) (x0 x1 overwrap : Nat),
        ∃ heap', sn_matmul_ptr heap x0 x1 overwrap = some (heap', heap.ops.length)
          ∧ sn_ref_count heap' heap.ops.length = some 1
          ∧ ∀ q, q < heap.ops.length → sn_load heap'.ops q = sn_load heap.ops q)
    ∧ (two_placeholders_ptr.bind fun heap => (sn_matmul_ptr heap 0 1 0).map fun r =>
          (r.2, sn_ref_count r.1 r.2, sn_ref_count r.1 0, sn_ref_count r.1 1))
        = some (2, some 1, some 1, some 1)
    ∧ (two_placeholders_ptr.bind fun heap => (sn_add_ptr heap 0 1).map fun r =>
          (r.2, sn_ref_count r.1 r.2, sn_ref_count r.1 0, sn_ref_count r.1 1))
        = some (2, some 1, some 2, some 2) := by
  have create : ∀ (φ : Type) (heap : sn_heap φ) (type : sn_op_type) (flow dflow : Option φ)
      (xs : List Nat), (∀ xi ∈ xs, ∃ node, sn_load heap.ops xi = some node) →
      ∃ heap', sn_op_create_ptr heap type flow dflow xs.length (some xs)
          = some (heap', heap.ops.length)
        ∧ sn_ref_count heap' heap.ops.length = some 1
        ∧ ∀ q, q < heap.ops.length → sn_load heap'.ops q
            = (sn_load heap.ops q).map fun t =>
                { t with ref_count := t.ref_count + xs.count q } := by
    intro φ heap type flow dflow xs hlive
    obtain ⟨heap', h1, _, _, _, h5, h6⟩ := sn_op_create_ptr_counts heap type flow dflow xs hlive
    exact ⟨heap', h1, by simp [sn_ref_count, h6], h5⟩
  refine ⟨create, ?_, ?_, ?_, by decide, by decide⟩
  · intro c hc heap x hx
    have hlive : ∀ xi ∈ [x], ∃ node, sn_load heap.ops xi = some node := by
      intro xi hxi
      rw [List.mem_singleton.mp hxi]
      exact hx
    simp only [List.mem_cons, List.mem_singleton, List.mem_nil_iff, or_false] at hc
    rcases hc with rfl | rfl | rfl | rfl | rfl | rfl
    · exact create _ heap .OPERATOR (some .abs_flow_) (some .abs_dflow_) [x] hlive
    · exact create _ heap .OPERATOR (some .exp_flow_) (some .exp_dflow_) [x] hlive
    · exact create _ heap .OPERATOR (some .negative_flow_) (some .negative_dflow_) [x] hlive
    · exact create _ heap .OPERATOR (some .reciprocal_flow_) (some .reciprocal_dflow_) [x] hlive
    · exact create _ heap .OPERATOR (some .sqrt_flow_) (some .sqrt_dflow_) [x] hlive
    · exact create _ heap .OPERATOR (some .sum_flow_) (some .sum_dflow_) [x] hlive
  · intro c hc heap x0 x1 hx0 hx1
    have hlive : ∀ xi ∈ [x0, x1], ∃ node, sn_load heap.ops xi = some node := by
      intro xi hxi
      simp only [List.mem_cons, List.mem_singleton, List.mem_nil_iff, or_false] at hxi
      rcases hxi with rfl | rfl
      · exact hx0
      · exact hx1
    simp only [List.mem_cons, List.mem_singleton, List.mem_nil_iff, or_false] at hc
    rcases hc with rfl | rfl | rfl | rfl
    · exact create _ heap .OPERATOR (some .add_flow_) (some .add_dflow_) [x0, x1] hlive
    · exact create _ heap .OPERATOR (some .subtract_flow_) (some .subtract_dflow_) [x0, x1] hlive
    · exact create _ heap .OPERATOR (some .multiply_flow_) (some .multiply_dflow_) [x0, x1] hlive
    · exact create _ heap .OPERATOR (some .divide_flow_) (some .divide_dflow_) [x0, x1] hlive
  · intro heap x0 x1 overwrap
    refine ⟨_, rfl, ?_, ?_⟩
    · simp only [sn_ref_count, sn_load_append_length, Option.map_some']
    · intro q hq
      exact sn_load_append_left _ _ _ hq

/-- C12 at a concrete input: `sn_negative` of a fresh placeholder. -/
theorem C12_constructor_counts_witness :
    ∃ heap', sn_negative_ptr
        ⟨[some ⟨1, .PLACEHOLDER, none, none, 0, [], none, none⟩], [], []⟩ 0 = some (heap', 1)
      ∧ sn_ref_count heap' 1 = some 1 ∧ sn_ref_count heap' 0 = some 2 := by
  obtain ⟨heap', h1, h2, h3⟩ := C12_constructor_counts.2.1 sn_negative_ptr (by simp)
    ⟨[some ⟨1, .PLACEHOLDER, none, none, 0, [], none, none⟩], [], []⟩ 0 ⟨_, rfl⟩
  refine ⟨heap', h1, h2, ?_⟩
  have := h3 0 (by decide)
  simp only [sn_ref_count, this]
  rfl

/-- C13 on two graphs. With `a = sn_negative(x)`, `r1 = sn_negative(a)`, `r2 = sn_abs(a)`,
`sn_op_destroy(r1)` frees `r1` only and `sn_op_destroy(r2)` then frees `x`, `a` and `r2`,
each node once. With `r1 = sn_matmul(a, b, 0)`, `r2 = sn_abs(a)`, `sn_op_destroy(r1)`
frees `a`, the operand of `r2`, and `sn_op_destroy(r2)` then reads the released block. -/
theorem C13_shared_graphs :
    (shared_negative_abs_ptr.bind fun heap => sn_op_destroy_ptr 4 heap (some 2)).map
        (fun heap => heap.freed) = some [2]
    ∧ (shared_negative_abs_ptr.bind fun heap =>
        (sn_op_destroy_ptr 4 heap (some 2)).bind fun heap =>
          sn_op_destroy_ptr 4 heap (some 3)).map
        (fun heap => (heap.freed, heap.ops)) = some ([2, 0, 1, 3], [none, none, none, none])
    ∧ (shared_matmul_abs_ptr.bind fun heap => (sn_load heap.ops 3).map fun r2 => r2.x)
        = some [some 0]
    ∧ (shared_matmul_abs_ptr.bind fun heap => sn_op_destroy_ptr 4 heap (some 2)).map
        (fun heap => heap.freed) = some [0, 1, 2]
    ∧ (shared_matmul_abs_ptr.bind fun heap =>
        (sn_op_destroy_ptr 4 heap (some 2)).bind fun heap =>
          sn_op_destroy_ptr 4 heap (some 3)) = none := by
  decide

/-- C14: for every binding table and key, `sn_map_get` returns the value of the earliest
entry with that key, the one with no entry of that key before it, and it fails exactly
when no entry has that key. -/
theorem C14_map_get_first {α : Type} (capacity : Nat) (es : List (Nat × sn_mda α)) (key : Nat) :
    (∀ pre e post, es = pre ++ e :: post → e.1 = key → (∀ e' ∈ pre, e'.1 ≠ key) →
        sn_map_get (sn_table capacity es) key = some e.2)
    ∧ (sn_map_get (sn_table capacity es) key = none ↔ ∀ e ∈ es, e.1 ≠ key) := by
  rw [sn_map_get_table]
  constructor
  · intro pre e post hes hk hpre
    subst hes
    have hnone : pre.find? (fun e => decide (e.1 = key)) = none := by
      rw [List.find?_eq_none]
      intro e' he'
      simpa using hpre e' he'
    rw [List.find?_append, hnone, List.find?_cons_of_pos _ (by simpa using hk)]
    rfl
  · rw [Option.map_eq_none', List.find?_eq_none]
    constructor
    · intro h e he
      simpa using h e he
    · intro h e he
      simpa using h e he

/-- C14 at a concrete input: of two entries with key 5 the first is returned. -/
theorem C14_map_get_first_witness :
    sn_map_get (sn_table 4 [(7, sn_tensor [] [(1 : Int)]), (5, sn_tensor [] [2]),
        (5, sn_tensor [] [3])]) 5 = some (sn_tensor [] [2]) :=
  (C14_map_get_first 4 [(7, sn_tensor [] [(1 : Int)]), (5, sn_tensor [] [2]),
      (5, sn_tensor [] [3])] 5).1 [(7, sn_tensor [] [1])] (5, sn_tensor [] [2])
    [(5, sn_tensor [] [3])] rfl rfl (by decide)

/-- C15: for every binding table and key, `sn_map_get_all` returns an array with one
written cell per entry with that key, holding the values of those entries in insertion
order; it is empty when the key is absent. The function only reads the table: it has no
table among its results. -/
theorem C15_map_get_all {α : Type} (capacity : Nat) (es : List (Nat × sn_mda α)) (key : Nat) :
    ∃ values, sn_map_get_all (sn_table capacity es) key = some values
      ∧ values.length = es.countP (fun e => decide (e.1 = key))
      ∧ values = ((es.filter (fun e => decide (e.1 = key))).map Prod.snd).map some := by
  refine ⟨_, sn_map_get_all_table capacity es key, ?_, rfl⟩
  rw [List.length_map, List.length_map, List.countP_eq_length_filter]

/-- C16: for every binding table with `count <= capacity` and `capacity >= 1`,
`sn_map_insert` returns a table with one more entry: the old entries are where they were,
the new one follows them, and the capacity is the old one when there was a free slot and
twice the old one when the table was full. -/
theorem C16_map_insert_appends {α : Type} (fuel capacity : Nat) (es : List (Nat × sn_mda α))
    (key : Nat) (value : sn_mda α) (hcount : es.length ≤ capacity) (hcap : 1 ≤ capacity) :
    ∃ t, sn_map_insert (fuel + 2) (sn_table capacity es) key value = some t
      ∧ t.count = (sn_table capacity es).count + 1
      ∧ (∀ i, i < (sn_table capacity es).count →
          sn_load t.keys i = sn_load (sn_table capacity es).keys i
          ∧ sn_load t.values i = sn_load (sn_table capacity es).values i)
      ∧ sn_load t.keys (sn_table capacity es).count = some key
      ∧ sn_load t.values (sn_table capacity es).count = some value
      ∧ t.capacity = (if (sn_table capacity es).count < capacity then capacity else 2 * capacity)
      ∧ t = sn_table t.capacity (es ++ [(key, value)]) := by
  have hc : (sn_table capacity es).count = es.length := rfl
  rw [hc]
  have key_fact : ∀ c, sn_map_insert (fuel + 2) (sn_table capacity es) key value
        = some (sn_table c (es ++ [(key, value)])) →
      c = (if es.length < capacity then capacity else 2 * capacity) →
      ∃ t, sn_map_insert (fuel + 2) (sn_table capacity es) key value = some t
      ∧ t.count = es.length + 1
      ∧ (∀ i, i < es.length →
          sn_load t.keys i = sn_load (sn_table capacity es).keys i
          ∧ sn_load t.values i = sn_load (sn_table capacity es).values i)
      ∧ sn_load t.keys es.length = some key
      ∧ sn_load t.values es.length = some value
      ∧ t.capacity = (if es.length < capacity then capacity else 2 * capacity)
      ∧ t = sn_table t.capacity (es ++ [(key, value)]) := by
    intro c hins hcq
    refine ⟨_, hins, by simp [sn_table], ?_, ?_, ?_, hcq, rfl⟩
    · intro i hi
      simp only [sn_table_load_key, sn_table_load_value, List.get?_eq_getElem?]
      rw [List.getElem?_append_left hi]
      exact ⟨rfl, rfl⟩
    · simp only [sn_table_load_key, List.get?_eq_getElem?]
      rw [List.getElem?_append_right (Nat.le_refl _)]
      simp
    · simp only [sn_table_load_value, List.get?_eq_getElem?]
      rw [List.getElem?_append_right (Nat.le_refl _)]
      simp
  by_cases hfull : es.length < capacity
  · exact key_fact capacity (sn_map_insert_free (fuel + 1) capacity es key value hfull)
      (by rw [if_pos hfull])
  · have heq : es.length = capacity := by omega
    exact key_fact (capacity + capacity) (sn_map_insert_full fuel capacity es key value heq hcap)
      (by rw [if_neg hfull]; omega)

/-- C16 at a concrete input: inserting into a full table of capacity 1. -/
theorem C16_map_insert_appends_witness :
    ∃ t, sn_map_insert 2 (sn_table 1 [(7, sn_tensor [] [(1 : Int)])]) 5 (sn_tensor [] [2]) = some t
      ∧ t.count = 2 ∧ t.capacity = 2
      ∧ t = sn_table 2 [(7, sn_tensor [] [1]), (5, sn_tensor [] [2])] := by
  obtain ⟨t, h1, h2, _, _, _, h6, h7⟩ := C16_map_insert_appends 0 1
    [(7, sn_tensor [] [(1 : Int)])] 5 (sn_tensor [] [2]) (by decide) (by decide)
  have h6' : t.capacity = 2 := h6
  refine ⟨t, h1, h2, h6', ?_⟩
  rw [h6'] at h7
  exact h7

/-- C17 fails as stated: after the forward pass on `sn_negative(add_and_sum(x0, x1))` the
table holds the operand values of `add_and_sum` under the key of `add_and_sum` and the
operand value of `sn_negative` under the key of `sn_negative`; `sn_map_get` with the key of
the operand `add_and_sum` returns the value of `x0`, not the output `10` of the operand.
After the forward pass on `sn_negative` of a constant, `sn_map_get` with the key of the
constant fails. -/
theorem C17_counterexample :
    (op_flow_ 4 (sn_negative 3 (add_and_sum 2 (sn_placeholder 0) (sn_placeholder 1)))
        (sn_table 2 [(0, sn_tensor [2] [(1 : Int), 2]), (1, sn_tensor [2] [3, 4])])).map
        (fun r => r.2)
      = some (sn_table 8 [(0, sn_tensor [2] [1, 2]), (1, sn_tensor [2] [3, 4]),
          (2, sn_tensor [2] [1, 2]), (2, sn_tensor [2] [3, 4]), (3, sn_tensor [] [10])])
    ∧ (op_flow_ 4 (add_and_sum 2 (sn_placeholder 0) (sn_placeholder 1))
        (sn_table 2 [(0, sn_tensor [2] [(1 : Int), 2]), (1, sn_tensor [2] [3, 4])])).map
        (fun r => r.1) = some (sn_tensor [] [10])
    ∧ (op_flow_ 4 (sn_negative 3 (add_and_sum 2 (sn_placeholder 0) (sn_placeholder 1)))
        (sn_table 2 [(0, sn_tensor [2] [(1 : Int), 2]), (1, sn_tensor [2] [3, 4])])).bind
        (fun r => sn_map_get r.2 2) = some (sn_tensor [2] [1, 2])
    ∧ (op_flow_ 4 (sn_negative 1 (sn_const 0 (sn_tensor [] [(3 : Int)]))) (sn_table 1 [])).bind
        (fun r => sn_map_get r.2 0) = none := by
  decide

/-- C17, amended: for every operator node with operands `x_0..x_{n-1}`, on a table with
`count <= capacity` and `capacity >= 1`, and with the address of the node different from
those of the operators below it, after the forward pass (`op_flow_`) has evaluated the
node the table contains, for each `i`, operand `x_i`'s output tensor stored under the key
of the operator node itself, in operand order behind the entries the key had before: a
later `sn_map_get_all` with the key of the operator returns the operands' forward values,
the array the forward function of the node was applied to. -/
theorem C17_operands_under_operator_key {α : Type} (fuel addr : Nat)
    (flow : Option (sn_flow_fn α)) (dflow : Option (sn_dflow_fn α)) (x : List (sn_op α))
    (array : Option (sn_mda α)) (cap : Nat) (es : List (Nat × sn_mda α)) (y : sn_mda α)
    (feed' : sn_map α) (hlen : es.length ≤ cap) (hcap : 1 ≤ cap)
    (hself : addr ∉ sn_op.operators_of x)
    (h : op_flow_ (fuel + 2) (.mk addr .OPERATOR flow dflow x array) (sn_table cap es)
      = some (y, feed')) :
    ∃ vals : List (sn_mda α), vals.length = x.length
      ∧ (∀ i xi, x.get? i = some xi → ∃ v cap_i pre_i feed_i', vals.get? i = some v
          ∧ op_flow_ (fuel + 2) xi (sn_table cap_i (es ++ pre_i)) = some (v, feed_i'))
      ∧ sn_map_get_all feed' addr
          = some ((((es.filter (fun e => decide (e.1 = addr))).map Prod.snd) ++ vals).map some)
      ∧ ∃ f, flow = some f ∧ f (vals.map some) = some y := by
  rw [op_flow_operator] at h
  cases hops : op_flow_operands_ (fuel + 2) addr x 0 (SN_DYNAMIC_ARRAY (sn_mda α) x.length)
      (sn_table cap es) with
  | none => rw [hops] at h; simp at h
  | some r =>
    rw [hops] at h
    simp only [Option.some_bind] at h
    cases flow with
    | none => simp at h
    | some f =>
      simp only [Option.some_bind] at h
      cases hf : f r.1 with
      | none => rw [hf] at h; simp at h
      | some y1 =>
        rw [hf] at h
        simp only [Option.some_bind, Option.some.injEq, Prod.mk.injEq] at h
        obtain ⟨cap', extra, h1, _, _, _, vals, hv1, hv2, hv3, hv4⟩ :=
          op_flow_operands_frame fuel x addr 0 (SN_DYNAMIC_ARRAY (sn_mda α) x.length) cap es
            r.1 r.2 hlen hcap (by simp [SN_DYNAMIC_ARRAY]) hops
        have hxs : r.1 = vals.map some := by
          rw [hv2]
          simp [SN_DYNAMIC_ARRAY]
        refine ⟨vals, hv1, hv4, ?_, f, rfl, ?_⟩
        · rw [← h.2, h1, sn_map_get_all_table, List.filter_append, List.map_append, hv3 hself]
        · rw [← hxs, hf, h.1]

/-- C17 at a concrete input: `sn_negative(add_and_sum(x0, x1))` on the vectors `(1, 2)`
and `(3, 4)`. -/
theorem C17_operands_under_operator_key_witness :
    ∃ vals : List (sn_mda Int), vals.length = 1
      ∧ sn_map_get_all (sn_table 8 [(0, sn_tensor [2] [(1 : Int), 2]), (1, sn_tensor [2] [3, 4]),
          (2, sn_tensor [2] [1, 2]), (2, sn_tensor [2] [3, 4]), (3, sn_tensor [] [10])]) 3
        = some (vals.map some)
      ∧ negative_flow_ (vals.map some) = some (sn_tensor [] [-10]) := by
  obtain ⟨vals, h1, _, h3, f, h4, h5⟩ := C17_operands_under_operator_key 2 3
    (some negative_flow_) (some negative_dflow_)
    [add_and_sum 2 (sn_placeholder 0) (sn_placeholder 1)] none 2
    [(0, sn_tensor [2] [(1 : Int), 2]), (1, sn_tensor [2] [3, 4])] (sn_tensor [] [-10])
    (sn_table 8 [(0, sn_tensor [2] [1, 2]), (1, sn_tensor [2] [3, 4]),
          (2, sn_tensor [2] [1, 2]), (2, sn_tensor [2] [3, 4]), (3, sn_tensor [] [10])])
    (by decide) (by decide)
    (by simp [sn_op.operators_of, sn_op.operators, add_and_sum, sn_op_create, sn_placeholder])
    (by decide)
  cases h4
  refine ⟨vals, h1, ?_, h5⟩
  rw [h3]
  simp [List.filter]

/-- C18 fails as stated: the reverse pass on the constant `sn_const(3)` returns the `NULL`
table, not an empty one, and on `sn_negative` of that constant `sn_op_flow` returns `-3`
while `sn_op_dflow` does not return a table. -/
theorem C18_counterexample :
    op_dflow_ 4 (sn_const 0 (sn_tensor [] [(3 : Int)])) (sn_table 1 []) = some none
    ∧ sn_op_flow 4 (sn_negative 1 (sn_const 0 (sn_tensor [] [(3 : Int)]))) (sn_table 1 [])
        = some (sn_tensor [] [-3])
    ∧ sn_op_dflow 4 (sn_negative 1 (sn_const 0 (sn_tensor [] [(3 : Int)]))) (sn_table 1 [])
        = none := by
  decide

/-- C18, amended: for every constant node the reverse pass returns the `NULL` table. A
node has a constant operand when it is an `OPERATOR` and one of its operands is a
`CONSTANT` or has itself a constant operand: these are the graphs in which the reverse
pass comes to an operator with a constant among its operands, at the root or anywhere
below it. On every such graph the reverse pass, which reads `count` through the pointer
it got for each operand, faults, and `sn_op_dflow` returns no table, whatever the fuel
and the binding table. -/
theorem C18_constant_null_table {α : Type} [Zero α] [One α] [Add α] [Mul α] (fuel : Nat)
    (root : sn_op α) (feed : sn_map α) :
    (root.type = .CONSTANT → op_dflow_ fuel root feed = some none)
    ∧ (root.has_constant_operand = true →
        op_dflow_ fuel root feed = none ∧ sn_op_dflow fuel root feed = none)
    ∧ ∀ (addr : Nat) (flow : Option (sn_flow_fn α)) (dflow : Option (sn_dflow_fn α))
        (x : List (sn_op α)) (array : Option (sn_mda α)),
        (sn_op.mk addr .OPERATOR flow dflow x array).has_constant_operand = true
          ↔ ∃ c ∈ x, c.type = .CONSTANT ∨ c.has_constant_operand = true := by
  refine ⟨?_, ?_, has_constant_operand_operator⟩
  · intro h
    obtain ⟨addr, type, flow, dflow, x, array⟩ := root
    simp only [sn_op.type] at h
    subst h
    exact op_dflow_constant fuel addr flow dflow x array feed
  · intro h
    exact ⟨op_dflow_constant_operand fuel root feed h,
      sn_op_dflow_of_op_dflow_none fuel root
        (fun feed => op_dflow_constant_operand fuel root feed h) feed⟩

/-- C18 at a concrete input: `sn_negative(sn_negative(sn_const(t)))`, where the operator
with the constant operand is below the root. -/
theorem C18_constant_null_table_witness :
    sn_op_dflow 4 (sn_negative 2 (sn_negative 1 (sn_const 0 (sn_tensor [2] [(1 : Int), 2]))))
      (sn_table 1 []) = none :=
  ((C18_constant_null_table 4
    (sn_negative 2 (sn_negative 1 (sn_const 0 (sn_tensor [2] [(1 : Int), 2]))))
    (sn_table 1 [])).2.1 (by decide)).2

/-- C19 fails as stated: on two vectors `add_flow_` returns their sum, but the derivative
function of `sn_add` returns `NULL`, not a list of two tensors, and `sn_op_dflow` through
`sn_add` returns no table where `sn_op_flow` returns the sum. -/
theorem C19_counterexample :
    add_flow_ [some (sn_tensor [2] [(1 : Int), 2]), some (sn_tensor [2] [10, 20])]
        = some (sn_tensor [2] [11, 22])
    ∧ (element_wise_binary_operator_dflow_
          [some (sn_tensor [2] [(1 : Int), 2]), some (sn_tensor [2] [10, 20])]) = some none
    ∧ sn_op_flow 4 (sn_add 2 (sn_placeholder 0) (sn_placeholder 1))
        (sn_table 2 [(0, sn_tensor [2] [(1 : Int), 2]), (1, sn_tensor [2] [10, 20])])
        = some (sn_tensor [2] [11, 22])
    ∧ sn_op_dflow 4 (sn_add 2 (sn_placeholder 0) (sn_placeholder 1))
        (sn_table 2 [(0, sn_tensor [2] [(1 : Int), 2]), (1, sn_tensor [2] [10, 20])])
        = none := by
  decide

/-- C19, amended: for each built-in operator with two operands (`sn_add`, `sn_subtract`,
`sn_multiply`, `sn_divide`, `sn_matmul`) the derivative function returns `NULL` for every
operand array, and `sn_op_dflow` through such an operator returns no table, whatever the
operands, the fuel and the binding table. -/
theorem C19_binary_derivative_null {α : Type} [Zero α] [One α] [Add α] [Mul α] [Sub α] [Div α]
    (fuel addr overwrap : Nat) (x0 x1 : sn_op α) (feed : sn_map α)
    (x : List (Option (sn_mda α))) :
    (element_wise_binary_operator_dflow_ x = some none ∧ matmul_dflow_ x = some none)
    ∧ sn_op_dflow fuel (sn_add addr x0 x1) feed = none
    ∧ sn_op_dflow fuel (sn_subtract addr x0 x1) feed = none
    ∧ sn_op_dflow fuel (sn_multiply addr x0 x1) feed = none
    ∧ sn_op_dflow fuel (sn_divide addr x0 x1) feed = none
    ∧ sn_op_dflow fuel (sn_matmul addr x0 x1 overwrap) feed = none := by
  refine ⟨⟨rfl, rfl⟩, ?_, ?_, ?_, ?_, ?_⟩
  · exact sn_op_dflow_of_op_dflow_none fuel _
      (fun feed => op_dflow_null_list fuel addr _ _ x0 [x1] none feed (fun _ => rfl)) feed
  · exact sn_op_dflow_of_op_dflow_none fuel _
      (fun feed => op_dflow_null_list fuel addr _ _ x0 [x1] none feed (fun _ => rfl)) feed
  · exact sn_op_dflow_of_op_dflow_none fuel _
      (fun feed => op_dflow_null_list fuel addr _ _ x0 [x1] none feed (fun _ => rfl)) feed
  · exact sn_op_dflow_of_op_dflow_none fuel _
      (fun feed => op_dflow_null_list fuel addr _ _ x0 [x1] none feed (fun _ => rfl)) feed
  · exact sn_op_dflow_of_op_dflow_none fuel _
      (fun feed => op_dflow_null_list fuel addr _ _ x0 [x1] none feed (fun _ => rfl)) feed

/-- C20: for every tensor of rank at least 1, with first extent `d0` (an `SN_UINT`
value), the derivative function of `sum` returns one tensor of rank 1 and shape `(d0)`
filled with ones, whatever the other extents. For a vector `x` of length `n` this is the
Jacobian of shape `(n)`, and `sn_op_dflow` on `sn_sum(p)` with `p` bound to `x` yields for
`p` the tensor of shape `(n)` filled with ones, when `n * n`, the number of elements of the
identity Jacobian of `p`, is below `2^64`. For the `2 x 3` matrix `sum_flow_` returns
`21`, but `sum_dflow_` returns a tensor of rank 1 and shape `(2)` with two elements and
`sn_op_dflow` on `sn_sum(p)` returns no table; for a rank-0 tensor `sum_dflow_` faults. -/
theorem C20_sum_derivative_rank :
    (∀ (α : Type) [One α] (d0 : Nat) (ds : List Nat) (data : List α), d0 < SN_UINT_MOD →
      sum_dflow_ [some (sn_tensor (d0 :: ds) data)]
        = some (some [some (sn_tensor [d0] (List.replicate d0 1))]))
    ∧ (∀ (α : Type) [Semiring α] (fuel p S n : Nat) (a : List α), a.length = n → p ≠ S →
      n * n < SN_UINT_MOD →
      sn_op_dflow (fuel + 2) (sn_sum S (sn_placeholder p)) (sn_table 1 [(p, sn_tensor [n] a)])
        = some (some (sn_table 1 [(p, sn_tensor [n] (List.replicate n 1))])))
    ∧ sum_flow_ [some (sn_tensor [2, 3] [(1 : Int), 2, 3, 4, 5, 6])] = some (sn_tensor [] [21])
    ∧ sum_dflow_ [some (sn_tensor [2, 3] [(1 : Int), 2, 3, 4, 5, 6])]
        = some (some [some (sn_tensor [2] [1, 1])])
    ∧ sn_op_dflow 4 (sn_sum 1 (sn_placeholder 0))
        (sn_table 1 [(0, sn_tensor [2, 3] [(1 : Int), 2, 3, 4, 5, 6])]) = none
    ∧ sum_dflow_ [some (sn_tensor [] [(7 : Int)])] = none := by
  refine ⟨fun α _ d0 ds data hd0 => sum_dflow_tensor d0 ds data [] hd0,
    fun α _ fuel p S n a ha hpS hnn => sn_op_dflow_sum_vector fuel p S n a ha hpS hnn,
    ?_, ?_, ?_, ?_⟩
  · decide
  · decide
  · decide
  · decide

/-- C20 at a concrete input: the vector `(1, 2, 3)`. -/
theorem C20_sum_derivative_rank_witness :
    sn_op_dflow 2 (sn_sum 1 (sn_placeholder 0)) (sn_table 1 [(0, sn_tensor [3] [(1 : Int), 2, 3])])
      = some (some (sn_table 1 [(0, sn_tensor [3] [1, 1, 1])])) :=
  C20_sum_derivative_rank.2.1 Int 0 0 1 3 [1, 2, 3] rfl (by decide) (by decide)

/-- C21: for every graph and every binding table with `count <= capacity` and
`capacity >= 1` that binds each placeholder reached from the root, `sn_op_flow` returns
the reference denotation of the root over the caller's entries, and after the forward pass
`sn_map_get` returns for every bound key what it returned before. On the empty table of
capacity 0 the reference denotation of `sn_negative(sn_const(3))` is `-3`, but
`sn_op_flow` returns with no amount of fuel: the forward pass calls `sn_map_insert`. -/
theorem C21_forward_refines_denote :
    (∀ (α : Type) (fuel : Nat) (root : sn_op α) (cap : Nat) (es : List (Nat × sn_mda α)),
      es.length ≤ cap → 1 ≤ cap → (∀ p ∈ root.placeholders, ∃ e ∈ es, e.1 = p) →
      sn_op_flow (fuel + 2) root (sn_table cap es) = root.denote es
      ∧ ∀ y feed', op_flow_ (fuel + 2) root (sn_table cap es) = some (y, feed') →
          ∀ p, (∃ e ∈ es, e.1 = p) → sn_map_get feed' p = sn_map_get (sn_table cap es) p)
    ∧ sn_op.denote [] (sn_negative 1 (sn_const 0 (sn_tensor [] [(3 : Int)])))
        = some (sn_tensor [] [-3])
    ∧ ∀ fuel, sn_op_flow fuel (sn_negative 1 (sn_const 0 (sn_tensor [] [(3 : Int)])))
        (sn_table 0 []) = none := by
  refine ⟨?_, by decide, ?_⟩
  · intro α fuel root cap es hlen hcap hb
    constructor
    · rw [sn_op_flow_eq_map]
      have := op_flow_denote fuel es root cap [] (by simpa using hlen) hcap hb
      simpa using this
    · intro y feed' hflow p hp
      obtain ⟨cap', extra, h1, _, _, _⟩ := op_flow_frame fuel root cap es y feed' hlen hcap hflow
      rw [h1, sn_map_get_table, sn_map_get_table,
        find?_append_bound es extra _ (by
          obtain ⟨e, he, hk⟩ := hp
          exact ⟨e, he, by simpa using hk⟩)]
  · intro fuel
    have hc := sn_mda_copy_tensor [] [(3 : Int)] rfl prod_nil_lt
    simp only [sn_op_flow, sn_negative, sn_const, sn_op_create, op_flow_operator,
      op_flow_operands_cons, op_flow_, Option.bind_eq_bind, Option.pure_def, Option.some_bind,
      hc, SN_DYNAMIC_ARRAY, List.length_singleton, List.replicate_succ, List.replicate_zero,
      sn_store, Nat.lt_add_one, if_true, sn_map_insert_capacity_zero, Option.none_bind]

/-- C21 at a concrete input: `sn_negative(p)` with `p` bound to the vector `(5, 7)`. -/
theorem C21_forward_refines_denote_witness :
    sn_op_flow 2 (sn_negative 1 (sn_placeholder 0)) (sn_table 1 [(0, sn_tensor [2] [(5 : Int), 7])])
      = sn_op.denote [(0, sn_tensor [2] [(5 : Int), 7])] (sn_negative 1 (sn_placeholder 0)) :=
  (C21_forward_refines_denote.1 Int 0 (sn_negative 1 (sn_placeholder 0)) 1
    [(0, sn_tensor [2] [(5 : Int), 7])] (by decide) (by decide)
    (by simp [sn_op.placeholders, sn_op.placeholders_of, sn_negative, sn_op_create,
      sn_placeholder])).1

/-- C24: for every graph and binding table on which `sn_op_dflow` returns a table, the
number of entries of that table under a key `p`, which is also the number of values
`sn_map_get_all` returns for `p`, is the number of paths from the root to the placeholder
at `p`, repeated operand slots counted separately, and every key of the table is the
address of a placeholder reached from the root. -/
theorem C24_gradient_entries_count_paths {α : Type} [Zero α] [One α] [Add α] [Mul α]
    (fuel : Nat) (root : sn_op α) (feed m : sn_map α)
    (h : sn_op_dflow fuel root feed = some (some m)) :
    ∃ es, m = sn_table es.length es
      ∧ (∀ p, (es.filter (fun e => decide (e.1 = p))).length = root.paths p)
      ∧ (∀ p, ∃ values, sn_map_get_all m p = some values ∧ values.length = root.paths p)
      ∧ ∀ e ∈ es, e.1 ∈ root.placeholders := by
  unfold sn_op_dflow at h
  simp only [Option.bind_eq_bind, Option.bind_eq_some] at h
  obtain ⟨r, _, hd⟩ := h
  obtain ⟨es, hm, hkeys⟩ := op_dflow_keys fuel root r.2 m hd
  have hcount : ∀ p, (es.filter (fun e => decide (e.1 = p))).length = root.paths p := by
    intro p
    rw [filter_key_length, hkeys, sn_op_paths_eq_count]
  refine ⟨es, hm, hcount, ?_, ?_⟩
  · intro p
    refine ⟨_, by rw [hm]; exact sn_map_get_all_table es.length es p, ?_⟩
    rw [List.length_map, List.length_map, hcount]
  · intro e he
    rw [← hkeys]
    exact List.mem_map_of_mem Prod.fst he

/-- C24 at a concrete input: `add_and_sum(sn_negative(x), sn_negative(x))` has two paths to
`x`. -/
theorem C24_gradient_entries_count_paths_witness :
    ∃ values, sn_map_get_all (sn_table 2 [(100, sn_tensor [3] (List.replicate 3 (-1 : ℚ))),
        (100, sn_tensor [3] (List.replicate 3 (-1)))]) 100 = some values
      ∧ values.length = 2 := by
  have hg : sn_op_dflow 2
      (add_and_sum 103 (sn_negative 101 (sn_placeholder 100))
        (sn_negative 102 (sn_placeholder 100))) (sn_table 1 [(100, sn_tensor [3] [(5 : ℚ), 6, 7])])
      = some (some (sn_table 2 [(100, sn_tensor [3] (List.replicate 3 (-1))),
          (100, sn_tensor [3] (List.replicate 3 (-1)))])) := by
    unfold sn_op_dflow
    rw [op_flow_add_and_sum_negative 0 100 101 102 103 3 [5, 6, 7] rfl (by decide)]
    simp only [Option.bind_eq_bind, Option.some_bind]
    exact op_dflow_add_and_sum_negative 0 100 101 102 103 3 [5, 6, 7] rfl (by decide) (by decide)
      (by decide) (by decide) (by decide) (by decide) (by decide)
  obtain ⟨es, _, _, h3, _⟩ := C24_gradient_entries_count_paths 2 _ _ _ hg
  obtain ⟨values, hv1, hv2⟩ := h3 100
  refine ⟨values, hv1, ?_⟩
  rw [hv2, sn_op_paths_eq_count]
  simp [sn_op.placeholders, sn_op.placeholders_of, add_and_sum, sn_negative, sn_op_create,
    sn_placeholder]

/-- C26: `sn_map_create` with capacity 0 returns the empty table of capacity 0;
`sn_map_extend` of that table by its capacity returns the same table, so `sn_map_insert`
calls itself on the same table again and returns with no amount of fuel. On a table with
`count <= capacity` and `capacity >= 1` it returns, after at most one extension. -/
theorem C26_insert_capacity_zero :
    (∀ (α : Type) (fuel : Nat),
      sn_map_create fuel 0 none none = some (sn_table 0 ([] : List (Nat × sn_mda α))))
    ∧ (∀ (α : Type),
      sn_map_extend (sn_table 0 ([] : List (Nat × sn_mda α))) 0 = some (sn_table 0 []))
    ∧ (∀ (α : Type) (fuel key : Nat) (value : sn_mda α),
      sn_map_insert fuel (sn_table 0 []) key value = none)
    ∧ (∀ (α : Type) (fuel capacity : Nat) (es : List (Nat × sn_mda α)) (key : Nat)
        (value : sn_mda α), es.length ≤ capacity → 1 ≤ capacity →
      ∃ t, sn_map_insert (fuel + 2) (sn_table capacity es) key value = some t) := by
  refine ⟨fun α fuel => sn_map_create_empty fuel 0,
    fun α => sn_map_extend_table 0 0 [] (by simp),
    fun α fuel key value => sn_map_insert_capacity_zero fuel key value, ?_⟩
  intro α fuel capacity es key value hlen hcap
  obtain ⟨c, h, _⟩ := sn_map_insert_table fuel capacity es key value hlen hcap
  exact ⟨_, h⟩

/-- C26 at a concrete input: a full table of capacity 1. -/
theorem C26_insert_capacity_zero_witness :
    ∃ t, sn_map_insert 2 (sn_table 1 [(7, sn_tensor [] [(1 : Int)])]) 5 (sn_tensor [] [2])
      = some t :=
  C26_insert_capacity_zero.2.2.2 Int 0 1 [(7, sn_tensor [] [(1 : Int)])] 5 (sn_tensor [] [2])
    (by decide) (by decide)

/-- C27: for every tensor of rank 0, with `shape` `NULL`, the stride loop of
`sn_mda_get_offset_` starts at `rank - 1`, which is `2^64 - 1`, and its first iteration
reads an index entry and an extent through the `NULL` shape: the function faults for every
index array, and so do `sn_mda_get` and `sn_mda_view`. -/
theorem C27_rank_zero_offset {α : Type} (self : sn_mda α) (index : List Nat)
    (hrank : self.rank = 0) (hshape : self.shape = none) :
    sn_usub self.rank 1 = SN_UINT_MOD - 1
    ∧ sn_mda_get_offset_ self index = none
    ∧ sn_mda_get self index = none
    ∧ sn_mda_view self index = none := by
  have hsub : sn_usub self.rank 1 = SN_UINT_MOD - 1 := by
    rw [hrank]
    simp [sn_usub]
  have hoff : sn_mda_get_offset_ self index = none := by
    unfold sn_mda_get_offset_
    obtain ⟨k, hk⟩ : ∃ k, sn_usub self.rank 1 = k + 1 :=
      ⟨SN_UINT_MOD - 2, by rw [hsub]; simp [SN_UINT_MOD]⟩
    simp only [Option.bind_eq_bind, Option.pure_def, hk, sn_for_down, hshape, sn_load_ptr]
    rw [hrank, sn_for_zero]
    simp only [Option.some_bind]
    cases index.get? (k + 1) <;> rfl
  refine ⟨hsub, hoff, hoff, ?_⟩
  unfold sn_mda_view
  rw [hoff]
  rfl

/-- C27 at a concrete input: the rank-0 tensor holding 5 and the empty multi-index. -/
theorem C27_rank_zero_offset_witness :
    sn_mda_view (sn_tensor [] [(5 : Int)]) [] = none :=
  (C27_rank_zero_offset (sn_tensor [] [(5 : Int)]) [] rfl rfl).2.2.2

end Sinae
